import Mathlib

/-!
# Stunt: suspendable builtins of the object hierarchy and the exec subsystem

A shallow embedding of `src/objects.cc` (move, create, recycle) and
`src/exec.cc` (bf_exec, exec_complete, deal_with_child_exit,
exec_waiter_enumerator), with the properties stated about them.

Conventions of the embedding.

* Machine integers (`Objid`, `pid_t`, exit codes) are `Int`; no arithmetic in
  the embedded functions can overflow.
* C strings are `List Char`.
* The database is an explicit value `DB`; every builtin takes the database and
  returns the new one together with the list of `call_verb` invocations it
  made, in order.
* `call_verb` only pushes an activation; the verb body runs after the builtin
  has returned.  Its result is an arbitrary function of the database and of
  its arguments, passed in as `call_verb_fn`.
* A loop of the source that may fail to end is run with fuel; running out of
  fuel is reported as `fault.diverge`, a `panic` of the source as
  `fault.panic`.
-/

namespace Stunt

/-! ## Values -/

abbrev Objid := Int

/-- NOTHING is the null object reference, `#-1`. -/
def NOTHING : Objid := -1

abbrev CStr := List Char

inductive error where
  | E_NONE | E_TYPE | E_DIV | E_PERM | E_PROPNF | E_VERBNF | E_VARNF
  | E_INVIND | E_RECMOVE | E_MAXREC | E_RANGE | E_ARGS | E_NACC
  | E_INVARG | E_QUOTA | E_FLOAT | E_FILE | E_EXEC | E_INTRPT
  deriving DecidableEq, Repr

/-- Var is the value type of the language.  Floats and maps play no part in
the embedded functions and are left out; `none` is TYPE_NONE. -/
inductive Var where
  | none
  | int (n : Int)
  | obj (o : Objid)
  | str (s : CStr)
  | err (e : error)
  | list (l : List Var)
  | anon (a : Nat)
  deriving Repr

mutual
def Var.decEq : (a b : Var) → Decidable (a = b)
  | .none, .none => isTrue rfl
  | .int n, .int m =>
    if h : n = m then isTrue (by rw [h]) else isFalse (by intro h2; cases h2; exact h rfl)
  | .obj n, .obj m =>
    if h : n = m then isTrue (by rw [h]) else isFalse (by intro h2; cases h2; exact h rfl)
  | .str n, .str m =>
    if h : n = m then isTrue (by rw [h]) else isFalse (by intro h2; cases h2; exact h rfl)
  | .err n, .err m =>
    if h : n = m then isTrue (by rw [h]) else isFalse (by intro h2; cases h2; exact h rfl)
  | .anon n, .anon m =>
    if h : n = m then isTrue (by rw [h]) else isFalse (by intro h2; cases h2; exact h rfl)
  | .list n, .list m =>
    match Var.decEqList n m with
    | isTrue h => isTrue (by rw [h])
    | isFalse h => isFalse (by intro h2; cases h2; exact h rfl)
  | .none, .int _ => isFalse nofun
  | .none, .obj _ => isFalse nofun
  | .none, .str _ => isFalse nofun
  | .none, .err _ => isFalse nofun
  | .none, .list _ => isFalse nofun
  | .none, .anon _ => isFalse nofun
  | .int _, .none => isFalse nofun
  | .int _, .obj _ => isFalse nofun
  | .int _, .str _ => isFalse nofun
  | .int _, .err _ => isFalse nofun
  | .int _, .list _ => isFalse nofun
  | .int _, .anon _ => isFalse nofun
  | .obj _, .none => isFalse nofun
  | .obj _, .int _ => isFalse nofun
  | .obj _, .str _ => isFalse nofun
  | .obj _, .err _ => isFalse nofun
  | .obj _, .list _ => isFalse nofun
  | .obj _, .anon _ => isFalse nofun
  | .str _, .none => isFalse nofun
  | .str _, .int _ => isFalse nofun
  | .str _, .obj _ => isFalse nofun
  | .str _, .err _ => isFalse nofun
  | .str _, .list _ => isFalse nofun
  | .str _, .anon _ => isFalse nofun
  | .err _, .none => isFalse nofun
  | .err _, .int _ => isFalse nofun
  | .err _, .obj _ => isFalse nofun
  | .err _, .str _ => isFalse nofun
  | .err _, .list _ => isFalse nofun
  | .err _, .anon _ => isFalse nofun
  | .list _, .none => isFalse nofun
  | .list _, .int _ => isFalse nofun
  | .list _, .obj _ => isFalse nofun
  | .list _, .str _ => isFalse nofun
  | .list _, .err _ => isFalse nofun
  | .list _, .anon _ => isFalse nofun
  | .anon _, .none => isFalse nofun
  | .anon _, .int _ => isFalse nofun
  | .anon _, .obj _ => isFalse nofun
  | .anon _, .str _ => isFalse nofun
  | .anon _, .err _ => isFalse nofun
  | .anon _, .list _ => isFalse nofun
def Var.decEqList : (a b : List Var) → Decidable (a = b)
  | [], [] => isTrue rfl
  | x :: xs, y :: ys =>
    match Var.decEq x y, Var.decEqList xs ys with
    | isTrue h1, isTrue h2 => isTrue (by rw [h1, h2])
    | isFalse h1, _ => isFalse (by intro h; cases h; exact h1 rfl)
    | _, isFalse h2 => isFalse (by intro h; cases h; exact h2 rfl)
  | [], _ :: _ => isFalse nofun
  | _ :: _, [] => isFalse nofun
end

instance : DecidableEq Var := Var.decEq

instance : Inhabited Var := ⟨Var.none⟩

def Var.is_obj : Var → Bool
  | .obj _ => true
  | _ => false

def Var.is_int : Var → Bool
  | .int _ => true
  | _ => false

def Var.is_str : Var → Bool
  | .str _ => true
  | _ => false

def Var.is_list : Var → Bool
  | .list _ => true
  | _ => false

def Var.is_anon : Var → Bool
  | .anon _ => true
  | _ => false

/-- Var::is_object: a permanent or an anonymous object. -/
def Var.is_object (v : Var) : Bool := v.is_obj || v.is_anon

/-- The field `v.obj` of the C union, read from an object value. -/
def Var.v_obj : Var → Objid
  | .obj o => o
  | _ => NOTHING

/-- The field `v.num` of the C union, read from an integer value. -/
def Var.v_num : Var → Int
  | .int n => n
  | _ => 0

/-- The elements of a list value, `v.list[1..]`. -/
def Var.elems : Var → List Var
  | .list l => l
  | _ => []

/-- The element `v.list[i]` of a list value, counted from 1 as in the source. -/
def Var.nth (v : Var) (i : Nat) : Var := v.elems.getD (i - 1) Var.none

/-- The length `v.list[0].v.num` of a list value. -/
def Var.length (v : Var) : Nat := v.elems.length

/-- Modelled from the spec: `is_true` of utils, which is not among the sources
("Interpret the accept result as boolean"): a non-zero integer, a non-empty
string and a non-empty list are true, every other value is false. -/
def is_true : Var → Bool
  | .int n => n != 0
  | .str s => !s.isEmpty
  | .list l => !l.isEmpty
  | _ => false

/-- Modelled from the spec: `is_obj_or_list_of_objs` of utils, which is not
among the sources ("parents must be one object or a list of valid objects"). -/
def is_obj_or_list_of_objs : Var → Bool
  | .obj _ => true
  | .list l => l.all Var.is_obj
  | _ => false

/-- The value `nothing`, the object reference `#-1`. -/
def nothing : Var := Var.obj NOTHING

/-- Modelled from the spec: `ismember` of list.h, which is not among the
sources; the position (from 1) of the first element equal to `v`, else 0. -/
def ismember (v : Var) (l : List Var) : Nat :=
  match l.indexOf? v with
  | some i => i + 1
  | Option.none => 0

/-- Modelled from the spec: `setadd` of list.h, which is not among the sources
("preserving child-declared ordering, deduplicating"): append `v` unless it is
already a member. -/
def setadd (l : List Var) (v : Var) : List Var :=
  if v ∈ l then l else l ++ [v]

/-! ## Packages returned by builtins -/

/-- The package a builtin returns (functions.h): a value, a raised error with
an optional message (`make_error_pack` gives the default message, written
`Option.none`), a request for a nested call with the step to continue at, or a
suspension. -/
inductive package (δ : Type) where
  | BI_RETURN (v : Var)
  | BI_RAISE (code : error) (msg : Option CStr)
  | BI_CALL (pc : Nat) (data : δ)
  | BI_SUSPEND (data : δ)
  deriving DecidableEq, Repr

def make_error_pack {δ : Type} (e : error) : package δ := package.BI_RAISE e Option.none

def make_raise_pack {δ : Type} (e : error) (msg : CStr) : package δ :=
  package.BI_RAISE e (some msg)

def make_var_pack {δ : Type} (v : Var) : package δ := package.BI_RETURN v

/-- Builtins that return no value return the integer zero. -/
def no_var_pack {δ : Type} : package δ := package.BI_RETURN (Var.int 0)

def make_call_pack {δ : Type} (pc : Nat) (data : δ) : package δ := package.BI_CALL pc data

def make_suspend_pack {δ : Type} (data : δ) : package δ := package.BI_SUSPEND data

/-! ## The object database -/

inductive db_object_flag where
  | FLAG_USER | FLAG_PROGRAMMER | FLAG_WIZARD | FLAG_READ | FLAG_WRITE
  | FLAG_FERTILE | FLAG_ANONYMOUS | FLAG_INVALID | FLAG_RECYCLED
  deriving DecidableEq, Repr

/-- Modelled from the spec: the object record of the database, which is not
among the sources ("attributes include owner, location (containment), flags
(including a one-way recycled flag), and a set of parent objects"; "Quota: a
resource counter per object owner").  `parents` is an object value (a single
parent, or `#-1` for none) or a list of object values. -/
structure Object where
  owner : Objid
  location : Objid
  parents : Var
  flags : List db_object_flag
  quota : Int
  deriving DecidableEq, Repr

/-- Modelled from the spec: the object store.  `objects` is the table of
permanent objects indexed by object number, an empty slot being a destroyed
object; `anons` holds the anonymous objects, indexed by their handle. -/
structure DB where
  objects : List (Option Object)
  anons : List (Option Object)
  deriving DecidableEq, Repr

/-- Modelled from the spec: `dbpriv_find_object`, the record of a permanent
object, none for a number out of range or a destroyed object. -/
def dbpriv_find_object (db : DB) (oid : Objid) : Option Object :=
  if oid < 0 then Option.none else (db.objects.getD oid.toNat Option.none)

/-- Modelled from the spec: `valid` ("existence/validity check"). -/
def valid (db : DB) (oid : Objid) : Bool := (dbpriv_find_object db oid).isSome

/-- Modelled from the spec: `dbpriv_dereference`, the record behind an object
value, permanent or anonymous. -/
def dbpriv_dereference (db : DB) : Var → Option Object
  | .obj o => dbpriv_find_object db o
  | .anon a => db.anons.getD a Option.none
  | _ => Option.none

/-- Modelled from the spec: `is_valid` on an object value. -/
def is_valid (db : DB) (v : Var) : Bool := (dbpriv_dereference db v).isSome

/-- Modelled from the spec: `db_object_owner` ("owner lookup").  The source
calls it on valid objects only; for any other number the model gives NOTHING. -/
def db_object_owner (db : DB) (oid : Objid) : Objid :=
  match dbpriv_find_object db oid with
  | some o => o.owner
  | Option.none => NOTHING

def db_object_owner2 (db : DB) (v : Var) : Objid :=
  match dbpriv_dereference db v with
  | some o => o.owner
  | Option.none => NOTHING

/-- Modelled from the spec: `db_object_location` ("location get/set").  The
source calls it on valid objects only; for any other number the model gives
NOTHING. -/
def db_object_location (db : DB) (oid : Objid) : Objid :=
  match dbpriv_find_object db oid with
  | some o => o.location
  | Option.none => NOTHING

/-- Modelled from the spec: `db_object_parents` ("parent/child get/set"). -/
def db_object_parents (db : DB) (oid : Objid) : Var :=
  match dbpriv_find_object db oid with
  | some o => o.parents
  | Option.none => nothing

def db_object_has_flag (db : DB) (oid : Objid) (f : db_object_flag) : Bool :=
  match dbpriv_find_object db oid with
  | some o => decide (f ∈ o.flags)
  | Option.none => false

def db_object_has_flag2 (db : DB) (v : Var) (f : db_object_flag) : Bool :=
  match dbpriv_dereference db v with
  | some o => decide (f ∈ o.flags)
  | Option.none => false

/-- The quota counter of a valid object, none for any other number. -/
def db_object_quota (db : DB) (oid : Objid) : Option Int :=
  (dbpriv_find_object db oid).map Object.quota

/-- Replace the record of a valid permanent object; no effect on any other
number. -/
def dbpriv_update_object (db : DB) (oid : Objid) (f : Object → Object) : DB :=
  match dbpriv_find_object db oid with
  | some o => { db with objects := db.objects.set oid.toNat (some (f o)) }
  | Option.none => db

/-- Replace the record behind an object value, permanent or anonymous. -/
def dbpriv_update_object2 (db : DB) (v : Var) (f : Object → Object) : DB :=
  match v with
  | .obj o => dbpriv_update_object db o f
  | .anon a =>
    match db.anons.getD a Option.none with
    | some o => { db with anons := db.anons.set a (some (f o)) }
    | Option.none => db
  | _ => db

/-- Modelled from the spec: `db_change_location` ("location get/set"): the
location of `oid` becomes `new_location`.  The contents of an object are read
off the locations (see `db_contents`), so nothing else is stored. -/
def db_change_location (db : DB) (oid : Objid) (new_location : Objid) : DB :=
  dbpriv_update_object db oid (fun o => { o with location := new_location })

def db_set_object_owner (db : DB) (oid : Objid) (owner : Objid) : DB :=
  dbpriv_update_object db oid (fun o => { o with owner := owner })

/-- Modelled from the spec: `db_set_object_flag2` ("flag get/set"); setting a
flag that is set changes nothing. -/
def db_set_object_flag2 (db : DB) (v : Var) (f : db_object_flag) : DB :=
  dbpriv_update_object2 db v (fun o => { o with flags := if f ∈ o.flags then o.flags else f :: o.flags })

/-- The numbers of the slots of the object table, in increasing order. -/
def db_all_objids (db : DB) : List Objid :=
  (List.range db.objects.length).map Int.ofNat

/-- Modelled from the spec: the contents of `oid`, the valid objects located
in it, in increasing order of object number (`db_for_all_contents`). -/
def db_contents (db : DB) (oid : Objid) : List Objid :=
  (db_all_objids db).filter (fun c => valid db c && db_object_location db c == oid)

/-- Whether the stored parents of an object mention `oid`. -/
def parents_mention (parents : Var) (oid : Objid) : Bool :=
  match parents with
  | .obj p => p == oid
  | .list l => decide (Var.obj oid ∈ l)
  | _ => false

/-- Modelled from the spec: the children of `oid`, the valid objects whose
parents mention it, in increasing order of object number
(`db_for_all_children`). -/
def db_children (db : DB) (oid : Objid) : List Objid :=
  (db_all_objids db).filter (fun c => valid db c && parents_mention (db_object_parents db c) oid)

/-- Modelled from the spec: `db_last_used_objid`, the number of the last slot
of the object table. -/
def db_last_used_objid (db : DB) : Objid := (db.objects.length : Int) - 1

/-- A freshly created object: no owner, no location, no parents, no flags. -/
def new_object : Object :=
  { owner := NOTHING, location := NOTHING, parents := nothing, flags := [], quota := 0 }

/-- Modelled from the spec: `db_create_object` ("Allocate a new persistent
object id"): the new object takes the number after the last used one. -/
def db_create_object (db : DB) : Objid × DB :=
  ((db.objects.length : Int), { db with objects := db.objects ++ [some new_object] })

/-- Modelled from the spec: `db_destroy_object` ("object
creation/destruction"): the slot of `oid` becomes empty. -/
def db_destroy_object (db : DB) (oid : Objid) : DB :=
  match dbpriv_find_object db oid with
  | some _ => { db with objects := db.objects.set oid.toNat Option.none }
  | Option.none => db

/-- Drop empty slots from the end of the table while more than `n` remain. -/
def drop_unused_slots (n : Nat) : List (Option Object) → List (Option Object)
  | [] => []
  | x :: xs =>
    match drop_unused_slots (n - 1) xs with
    | [] => if x.isNone && 0 == n then [] else [x]
    | y :: ys => x :: y :: ys

/-- Modelled from the spec: `db_set_last_used_objid`: gives back the numbers
after `oid` whose slots are empty, so that they are handed out again. -/
def db_set_last_used_objid (db : DB) (oid : Objid) : DB :=
  { db with objects := drop_unused_slots (oid + 1).toNat db.objects }

/-- Modelled from the spec: `db_make_anonymous` ("convert the freshly created
persistent id into an anonymous-object handle, invalidating the numeric id"):
the record moves to the anonymous store and the numbers above `last` are given
back. -/
def db_make_anonymous (db : DB) (oid : Objid) (last : Objid) : Nat × DB :=
  let rec_ := dbpriv_find_object db oid
  let db1 := db_destroy_object db oid
  let db2 := db_set_last_used_objid db1 last
  (db2.anons.length, { db2 with anons := db2.anons ++ [rec_] })

/-- Modelled from the spec: `db_destroy_anonymous_object`: the handle becomes
invalid. -/
def db_destroy_anonymous_object (db : DB) (a : Nat) : DB :=
  match db.anons.getD a Option.none with
  | some _ => { db with anons := db.anons.set a Option.none }
  | Option.none => db

/-- Modelled from the spec: `decr_quota` ("decrement (fails if
insufficient)"): fails, changing nothing, when the counter of `player` is not
positive; otherwise takes one off. -/
def decr_quota (db : DB) (player : Objid) : Bool × DB :=
  match dbpriv_find_object db player with
  | some o =>
    if o.quota ≤ 0 then (false, db)
    else (true, dbpriv_update_object db player (fun o => { o with quota := o.quota - 1 }))
  | Option.none => (true, db)

/-- Modelled from the spec: `incr_quota` ("increment"): adds one to the
counter of `player`. -/
def incr_quota (db : DB) (player : Objid) : DB :=
  dbpriv_update_object db player (fun o => { o with quota := o.quota + 1 })

/-- Modelled from the spec: `is_wizard`, a valid object with the wizard flag
("elevated privilege"). -/
def is_wizard (db : DB) (who : Objid) : Bool :=
  valid db who && db_object_has_flag db who db_object_flag.FLAG_WIZARD

/-- Modelled from the spec: `db_object_allows`: wizards and the owner are
always allowed, anybody else when the object carries the flag. -/
def db_object_allows (db : DB) (v : Var) (progr : Objid) (f : db_object_flag) : Bool :=
  is_wizard db progr || progr == db_object_owner2 db v || db_object_has_flag2 db v f

/-! ## Nested calls and step results -/

/-- One invocation of `call_verb`, with the error value it returned. -/
structure verb_call where
  recv : Objid
  vname : String
  this : Var
  args : Var
  result : error
  deriving DecidableEq, Repr

/-- The result of `call_verb(recv, vname, this, args, 0)` in a given database:
E_NONE when the activation was pushed, else E_VERBNF, E_MAXREC or E_INVIND.
The function is arbitrary: it stands for the verbs the objects define and for
the depth of the call stack, which do not change during one step. -/
abbrev call_verb_fn := DB → Objid → String → Var → Var → error

/-- What lies outside the sources and outside the spec: the outcome of nested
calls, and the check `db_change_parents` makes before it commits. -/
structure environment where
  call_verb : call_verb_fn
  parents_ok : DB → Var → Var → Bool

inductive fault where
  | panic
  | diverge
  deriving DecidableEq, Repr

/-- What one entry into a builtin leaves behind: the package returned, the
database, and the `call_verb` invocations made, in order. -/
structure outcome (δ : Type) where
  pack : package δ
  db : DB
  calls : List verb_call
  deriving DecidableEq, Repr

/-- Modelled from the spec: `db_change_parents` ("commits the parent-set change
atomically (all-or-nothing)"): when the check passes the stored parents of
`obj` become `new_parents`, otherwise nothing changes and the result is
false. -/
def db_change_parents (env : environment) (db : DB) (obj : Var) (new_parents : Var) : Bool × DB :=
  if env.parents_ok db obj new_parents then
    (true, dbpriv_update_object2 db obj (fun o => { o with parents := new_parents }))
  else (false, db)

def controls (db : DB) (who : Objid) (what : Objid) : Bool :=
  is_wizard db who || who == db_object_owner db what

def controls2 (db : DB) (who : Objid) (what : Var) : Bool :=
  is_wizard db who || who == db_object_owner2 db what

def make_arglist (what : Objid) : Var := Var.list [Var.obj what]

def all_valid (db : DB) (vars : Var) : Bool :=
  vars.elems.all (fun v => valid db v.v_obj)

def all_allowed (db : DB) (vars : Var) (progr : Objid) (f : db_object_flag) : Bool :=
  vars.elems.all (fun v => db_object_allows db v progr f)

/-- Record a `call_verb` invocation. -/
def log_call (calls : List verb_call) (recv : Objid) (vname : String) (this : Var) (args : Var)
    (e : error) : List verb_call :=
  calls ++ [{ recv := recv, vname := vname, this := this, args := args, result := e }]

/-! ## move -/

structure bf_move_data where
  what : Objid
  where_ : Objid
  deriving DecidableEq, Repr

/-- The loop of do_move that walks from `where` up the location chain:
`for (oid = where; oid != NOTHING; oid = db_object_location(oid)) if (oid ==
what) return E_RECMOVE`.  The result is `some true` when `what` is met, `some
false` when NOTHING is reached, and none when the fuel runs out. -/
def hierarchy_loop (db : DB) (what : Objid) : Nat → Objid → Option Bool
  | 0, _ => Option.none
  | fuel + 1, oid =>
    if oid = NOTHING then some false
    else if oid = what then some true
    else hierarchy_loop db what fuel (db_object_location db oid)

/-- do_move, `case 4`. -/
def do_move_case4 (db : DB) (calls : List verb_call) : outcome bf_move_data :=
  { pack := no_var_pack, db := db, calls := calls }

/-- do_move, `case 3`, which falls through to `case 4`. -/
def do_move_case3 (env : environment) (db : DB) (calls : List verb_call) (data : bf_move_data) :
    outcome bf_move_data :=
  let what := data.what
  let where_ := data.where_
  if valid db where_ && valid db what && db_object_location db what == where_ then
    let args := make_arglist what
    let e := env.call_verb db where_ "enterfunc" (Var.obj where_) args
    let calls1 := log_call calls where_ "enterfunc" (Var.obj where_) args e
    if e = error.E_NONE then { pack := make_call_pack 4 data, db := db, calls := calls1 }
    else if e = error.E_MAXREC then { pack := make_error_pack e, db := db, calls := calls1 }
    else do_move_case4 db calls1
  else do_move_case4 db calls

/-- do_move from the label `accepts_decided`, which falls through to `case 3`.
The walk up the location chain is given one unit of fuel per slot of the
object table, and one more. -/
def do_move_accepts_decided (env : environment) (db : DB) (calls : List verb_call)
    (progr : Objid) (accepts : Bool) (data : bf_move_data) :
    Except fault (outcome bf_move_data) :=
  let what := data.what
  let where_ := data.where_
  if !is_wizard db progr && accepts == false then
    .ok { pack := make_error_pack error.E_NACC, db := db, calls := calls }
  else if !valid db what || (where_ != NOTHING && !valid db where_)
      || db_object_location db what == where_ then
    .ok { pack := no_var_pack, db := db, calls := calls }
  else
    match hierarchy_loop db what (db.objects.length + 1) where_ with
    | Option.none => .error fault.diverge
    | some true => .ok { pack := make_error_pack error.E_RECMOVE, db := db, calls := calls }
    | some false =>
      let oldloc := db_object_location db what
      let db1 := db_change_location db what where_
      let args := make_arglist what
      let e := env.call_verb db1 oldloc "exitfunc" (Var.obj oldloc) args
      let calls1 := log_call calls oldloc "exitfunc" (Var.obj oldloc) args e
      if e = error.E_NONE then .ok { pack := make_call_pack 3 data, db := db1, calls := calls1 }
      else if e = error.E_MAXREC then .ok { pack := make_error_pack e, db := db1, calls := calls1 }
      else .ok (do_move_case3 env db1 calls1 data)

/-- do_move(value, progr, next, data). -/
def do_move (env : environment) (db : DB) (value : Var) (progr : Objid) (next : Nat)
    (data : bf_move_data) : Except fault (outcome bf_move_data) :=
  let what := data.what
  let where_ := data.where_
  match next with
  | 1 =>
    if !valid db what || (!valid db where_ && where_ != NOTHING) then
      .ok { pack := make_error_pack error.E_INVARG, db := db, calls := [] }
    else if !controls db progr what then
      .ok { pack := make_error_pack error.E_PERM, db := db, calls := [] }
    else if where_ == NOTHING then
      do_move_accepts_decided env db [] progr true data
    else
      let args := make_arglist what
      let e := env.call_verb db where_ "accept" (Var.obj where_) args
      let calls1 := log_call [] where_ "accept" (Var.obj where_) args e
      if e = error.E_NONE then .ok { pack := make_call_pack 2 data, db := db, calls := calls1 }
      else if e = error.E_VERBNF then do_move_accepts_decided env db calls1 progr false data
      else .ok { pack := make_error_pack e, db := db, calls := calls1 }
  | 2 => do_move_accepts_decided env db [] progr (is_true value) data
  | 3 => .ok (do_move_case3 env db [] data)
  | 4 => .ok (do_move_case4 db [])
  | _ => .error fault.panic

/-! ## create -/

/-- The local variables `owner`, `anon` and `init` of bf_create. -/
structure create_opts where
  owner : Objid
  anon : Nat
  init : Nat
  deriving DecidableEq, Repr

/-- bf_create, the test of the second argument; none is the E_TYPE return. -/
def bf_create_arg2 (value : Var) (progr : Objid) : Option create_opts :=
  let nargs := value.length
  if 1 < nargs && (value.nth 2).is_obj then
    some { owner := (value.nth 2).v_obj, anon := 0, init := 0 }
  else if 1 < nargs && (value.nth 2).is_int then some { owner := progr, anon := 2, init := 0 }
  else if 1 < nargs && (value.nth 2).is_list then some { owner := progr, anon := 0, init := 2 }
  else if 1 < nargs then Option.none
  else some { owner := progr, anon := 0, init := 0 }

/-- bf_create, the test of the third argument; none is the E_TYPE return. -/
def bf_create_arg3 (value : Var) (o : create_opts) : Option create_opts :=
  let nargs := value.length
  if 2 < nargs && (value.nth 3).is_int && o.anon == 0 then some { o with anon := 3 }
  else if 2 < nargs && (value.nth 3).is_list && o.init == 0 then some { o with init := 3 }
  else if 2 < nargs then Option.none
  else some o

/-- bf_create, the test of the fourth argument; none is the E_TYPE return. -/
def bf_create_arg4 (value : Var) (o : create_opts) : Option create_opts :=
  let nargs := value.length
  if 3 < nargs && (value.nth 4).is_int && o.anon == 0 then some { o with anon := 4 }
  else if 3 < nargs && (value.nth 4).is_list && o.init == 0 then some { o with init := 4 }
  else if 3 < nargs then Option.none
  else some o

/-- bf_create from the quota test on, once the arguments have been checked. -/
def bf_create_body (env : environment) (db : DB) (value : Var) (owner : Objid)
    (anonymous : Bool) (init : Nat) : outcome Var :=
  let quota := if valid db owner then decr_quota db owner else (true, db)
  if valid db owner && !quota.1 then
    { pack := make_error_pack error.E_QUOTA, db := quota.2, calls := [] }
  else
    let db1 := quota.2
    let last := db_last_used_objid db1
    let created := db_create_object db1
    let oid := created.1
    let db2 := db_set_object_owner created.2 oid (if !valid created.2 owner then oid else owner)
    let changed := db_change_parents env db2 (Var.obj oid) (value.nth 1)
    if !changed.1 then
      let db3 := db_destroy_object changed.2 oid
      let db4 := db_set_last_used_objid db3 last
      { pack := make_error_pack error.E_INVARG, db := db4, calls := [] }
    else
      let made := db_make_anonymous changed.2 oid last
      let r := if anonymous then Var.anon made.1 else Var.obj oid
      let db5 := if anonymous then made.2 else changed.2
      let args := if init > 0 then value.nth init else Var.list []
      let e := env.call_verb db5 oid "initialize" r args
      let calls1 := log_call [] oid "initialize" r args e
      if e = error.E_NONE then { pack := make_call_pack 2 r, db := db5, calls := calls1 }
      else if e = error.E_MAXREC then { pack := make_error_pack e, db := db5, calls := calls1 }
      else { pack := make_var_pack r, db := db5, calls := calls1 }

/-- bf_create at step 1 up to the permission test: the error returned, or the
owner, the anonymous flag and the position of the initializer argument. -/
def bf_create_checks (db : DB) (value : Var) (progr : Objid) : Except error (Objid × Bool × Nat) :=
  if !is_obj_or_list_of_objs (value.nth 1) then .error error.E_TYPE
  else
    match (bf_create_arg2 value progr).bind (bf_create_arg3 value) |>.bind (bf_create_arg4 value) with
    | Option.none => .error error.E_TYPE
    | some o =>
      let owner := o.owner
      let anonymous := if o.anon > 0 then (value.nth o.anon).v_num != 0 else false
      let parents := value.nth 1
      if (anonymous && owner == NOTHING)
          || (!valid db owner && owner != NOTHING)
          || (parents.is_obj && !valid db parents.v_obj && parents.v_obj != NOTHING)
          || (parents.is_list && !all_valid db parents) then
        .error error.E_INVARG
      else if (progr != owner && !is_wizard db progr)
          || (parents.is_obj && valid db parents.v_obj
              && !db_object_allows db parents progr
                (if anonymous then db_object_flag.FLAG_ANONYMOUS else db_object_flag.FLAG_FERTILE))
          || (parents.is_list
              && !all_allowed db parents progr
                (if anonymous then db_object_flag.FLAG_ANONYMOUS else db_object_flag.FLAG_FERTILE)) then
        .error error.E_PERM
      else .ok (owner, anonymous, o.init)

/-- bf_create(value, progr, next, vdata): at step 1 `value` is the argument
list, at step 2 `data` is the object saved by step 1. -/
def bf_create (env : environment) (db : DB) (value : Var) (progr : Objid) (next : Nat)
    (data : Var) : outcome Var :=
  if next == 1 then
    match bf_create_checks db value progr with
    | .error e => { pack := make_error_pack e, db := db, calls := [] }
    | .ok (owner, anonymous, init) => bf_create_body env db value owner anonymous init
  else
    { pack := make_var_pack data, db := db, calls := [] }

/-! ## recycle -/

/-- move_to_nothing(oid): the result is true when the exitfunc activation was
pushed. -/
def move_to_nothing (env : environment) (db : DB) (calls : List verb_call) (oid : Objid) :
    Bool × DB × List verb_call :=
  let oldloc := db_object_location db oid
  let db1 := db_change_location db oid NOTHING
  let args := make_arglist oid
  let e := env.call_verb db1 oldloc "exitfunc" (Var.obj oldloc) args
  let calls1 := log_call calls oldloc "exitfunc" (Var.obj oldloc) args e
  (decide (e = error.E_NONE), db1, calls1)

/-- get_first(oid, db_for_all_contents). -/
def get_first_contents (db : DB) (oid : Objid) : Objid := (db_contents db oid).headD NOTHING

/-- get_first(oid, db_for_all_children). -/
def get_first_children (db : DB) (oid : Objid) : Objid := (db_children db oid).headD NOTHING

/-- The loop of bf_recycle `while ((c = get_first(oid, db_for_all_contents)) !=
NOTHING) if (move_to_nothing(c)) return make_call_pack(2, data)`.  The first
component of the result is true when the loop left through the return. -/
def recycle_contents_loop (env : environment) (oid : Objid) :
    Nat → DB → List verb_call → Except fault (Bool × DB × List verb_call)
  | 0, _, _ => .error fault.diverge
  | fuel + 1, db, calls =>
    let c := get_first_contents db oid
    if c = NOTHING then .ok (false, db, calls)
    else
      let moved := move_to_nothing env db calls c
      if moved.1 then .ok (true, moved.2.1, moved.2.2)
      else recycle_contents_loop env oid fuel moved.2.1 moved.2.2

/-- The list `_new` bf_recycle builds for a child whose parents `cp` are a
list: the parents before `oid`, then the parents `op` of `oid` (a single
parent only if it is valid), then the parents after `oid`, each added with
`setadd`. -/
def recycle_new_parents (db : DB) (oid : Objid) (cp : Var) (op : Var) : List Var :=
  let before := cp.elems.takeWhile (fun v => v.v_obj != oid)
  let new1 := before.foldl setadd []
  let new2 :=
    if op.is_obj then (if valid db op.v_obj then setadd new1 op else new1)
    else op.elems.foldl setadd new1
  let after := cp.elems.drop (before.length + 1)
  after.foldl setadd new2

/-- The loop of bf_recycle `while ((c = get_first(oid, db_for_all_children)) !=
NOTHING)`, which hands the parents of `oid` to each of its children.  The
result of db_change_parents is not looked at. -/
def recycle_children_loop (env : environment) (oid : Objid) : Nat → DB → Except fault DB
  | 0, _ => .error fault.diverge
  | fuel + 1, db =>
    let c := get_first_children db oid
    if c = NOTHING then .ok db
    else
      let cp := db_object_parents db c
      let op := db_object_parents db oid
      let db1 :=
        if cp.is_obj then (db_change_parents env db (Var.obj c) op).2
        else (db_change_parents env db (Var.obj c) (Var.list (recycle_new_parents db oid cp op))).2
      recycle_children_loop env oid fuel db1

/-- bf_recycle from the label `moving_contents`.  Each loop is given one unit
of fuel per slot of the object table, and one more. -/
def bf_recycle_moving_contents (env : environment) (db : DB) (calls : List verb_call) (obj : Var) :
    Except fault (outcome Var) :=
  if !is_valid db obj then .ok { pack := no_var_pack, db := db, calls := calls }
  else if obj.is_obj then
    let oid := obj.v_obj
    match recycle_contents_loop env oid (db.objects.length + 1) db calls with
    | .error f => .error f
    | .ok (true, db1, calls1) => .ok { pack := make_call_pack 2 obj, db := db1, calls := calls1 }
    | .ok (false, db1, calls1) =>
      let moved := move_to_nothing env db1 calls1 oid
      if db_object_location db1 oid != NOTHING && moved.1 then
        .ok { pack := make_call_pack 2 obj, db := moved.2.1, calls := moved.2.2 }
      else
        let db2 := if db_object_location db1 oid != NOTHING then moved.2.1 else db1
        let calls2 := if db_object_location db1 oid != NOTHING then moved.2.2 else calls1
        match recycle_children_loop env oid (db2.objects.length + 1) db2 with
        | .error f => .error f
        | .ok db3 =>
          let db4 := (db_change_parents env db3 obj nothing).2
          let db5 := incr_quota db4 (db_object_owner db4 oid)
          let db6 := db_destroy_object db5 oid
          .ok { pack := no_var_pack, db := db6, calls := calls2 }
  else if obj.is_anon then
    let db1 := incr_quota db (db_object_owner2 db obj)
    let db2 :=
      match obj with
      | .anon a => db_destroy_anonymous_object db1 a
      | _ => db1
    .ok { pack := no_var_pack, db := db2, calls := calls }
  else .error fault.panic

/-- bf_recycle(value, progr, func_pc, vdata): at step 1 `value` is the argument
list, at step 2 `data` is the object saved by step 1. -/
def bf_recycle (env : environment) (db : DB) (value : Var) (progr : Objid) (func_pc : Nat)
    (data : Var) : Except fault (outcome Var) :=
  match func_pc with
  | 1 =>
    let obj := value.nth 1
    if !obj.is_object then .ok { pack := make_error_pack error.E_TYPE, db := db, calls := [] }
    else if !is_valid db obj || db_object_has_flag2 db obj db_object_flag.FLAG_RECYCLED then
      .ok { pack := make_error_pack error.E_INVARG, db := db, calls := [] }
    else if !controls2 db progr obj then
      .ok { pack := make_error_pack error.E_PERM, db := db, calls := [] }
    else
      let db1 := db_set_object_flag2 db obj db_object_flag.FLAG_RECYCLED
      let args := Var.list []
      let recv := if obj.is_obj then obj.v_obj else NOTHING
      let e := env.call_verb db1 recv "recycle" obj args
      let calls1 := log_call [] recv "recycle" obj args e
      if e = error.E_NONE then .ok { pack := make_call_pack 2 obj, db := db1, calls := calls1 }
      else bf_recycle_moving_contents env db1 calls1 obj
  | 2 => bf_recycle_moving_contents env db [] data
  | _ => .error fault.panic

/-! ## exec: the command path check and bf_exec -/

/-- The test `strstr(haystack, needle) != NULL`. -/
def strstr : CStr → CStr → Bool
  | [], needle => needle.isEmpty
  | c :: cs, needle => needle.isPrefixOf (c :: cs) || strstr cs needle

inductive task_waiting_status where
  | TWS_CONTINUE
  | TWS_STOP
  | TWS_KILL
  deriving DecidableEq, Repr

inductive task_enum_action where
  | TEA_CONTINUE
  | TEA_STOP
  | TEA_KILL
  deriving DecidableEq, Repr

/-- A suspended task, as the process table refers to it. -/
abbrev vm := Nat

/-- The record `task_waiting_on_exec`.  `input` is the buffer `in` with its
`length`; `sout` and `serr` are the texts gathered in the two streams. -/
structure task_waiting_on_exec where
  cmd : CStr
  args : List CStr
  input : CStr
  pid : Int
  status : task_waiting_status
  code : Int
  fin : Int
  fout : Int
  ferr : Int
  sout : CStr
  serr : CStr
  the_vm : vm
  deriving DecidableEq, Repr

/-- malloc_task_waiting_on_exec: the constructor sets the status to
TWS_CONTINUE, the code to 0 and the streams to empty; the fields it leaves
unset are zero in the model. -/
def malloc_task_waiting_on_exec (cmd : CStr) (args : List CStr) (input : CStr) :
    task_waiting_on_exec :=
  { cmd := cmd, args := args, input := input, pid := 0,
    status := task_waiting_status.TWS_CONTINUE, code := 0,
    fin := 0, fout := 0, ferr := 0, sout := [], serr := [], the_vm := 0 }

/-- The result of `stat` on a path, as far as bf_exec looks at it. -/
inductive stat_result where
  | failed
  | regular
  | not_regular
  deriving DecidableEq, Repr

/-- What bf_exec takes from outside the sources: the configured directory
EXEC_SUBDIR, the decoder `binary_to_raw_bytes` (none is its NULL result) and
the file system as `stat` sees it. -/
structure exec_environment where
  EXEC_SUBDIR : CStr
  binary_to_raw_bytes : CStr → Option CStr
  stat : CStr → stat_result

/-- What a call of bf_exec leaves behind: the package returned and the paths
handed to `stat`, in order. -/
structure exec_outcome where
  pack : package task_waiting_on_exec
  stats : List CStr
  deriving DecidableEq, Repr

/-- The field `v.str` of the C union, read from a string value. -/
def Var.v_str : Var → CStr
  | .str s => s
  | _ => []

/-- The three tests of bf_exec under `check the path`; the result is true when
none of them rejects `cmd`. -/
def exec_path_ok (cmd : CStr) : Bool :=
  if 0 == cmd.length then false
  else if (cmd.head? == some '/')
      || (1 < cmd.length && cmd.head? == some '.' && cmd.tail.head? == some '.') then false
  else if strstr cmd ['/', '.'] || strstr cmd ['.', '/'] then false
  else true

/-- bf_exec(arglist, progr).  The builtin is registered with the argument types
TYPE_LIST and TYPE_STR, so `arglist[1]` is a list and `arglist[2]`, when
present, a string. -/
def bf_exec (xenv : exec_environment) (db : DB) (arglist : Var) (progr : Objid) : exec_outcome :=
  let argv := arglist.nth 1
  if !argv.elems.all Var.is_str then { pack := make_error_pack error.E_INVARG, stats := [] }
  else if argv.elems.isEmpty then { pack := make_error_pack error.E_INVARG, stats := [] }
  else
    let cmd := (argv.nth 1).v_str
    if !exec_path_ok cmd then
      { pack := make_raise_pack error.E_INVARG "Invalid path".toList, stats := [] }
    else
      let cmd1 := xenv.EXEC_SUBDIR ++ cmd
      let args := argv.elems.map Var.v_str
      let input := if arglist.length > 1 then xenv.binary_to_raw_bytes (arglist.nth 2).v_str else some []
      match input with
      | Option.none => { pack := make_error_pack error.E_INVARG, stats := [] }
      | some bytes =>
        if !is_wizard db progr then { pack := make_error_pack error.E_PERM, stats := [] }
        else
          match xenv.stat cmd1 with
          | stat_result.failed =>
            { pack := make_raise_pack error.E_INVARG "Does not exist".toList, stats := [cmd1] }
          | stat_result.not_regular =>
            { pack := make_raise_pack error.E_INVARG "Is not a file".toList, stats := [cmd1] }
          | stat_result.regular =>
            { pack := make_suspend_pack (malloc_task_waiting_on_exec cmd1 args bytes),
              stats := [cmd1] }

/-! ## exec: the process table -/

/-- The process table, one entry per slot (EXEC_MAX_PROCESSES is the length of
the list), and the flag `sigchild_interrupt`. -/
structure exec_state where
  process_table : List (Option task_waiting_on_exec)
  sigchild_interrupt : Bool
  deriving DecidableEq, Repr

/-- The loop of exec_waiter_enumerator over the slots from the current one on.
The closure is called with its own data, which it may change. -/
def exec_waiter_enumerator_loop {σ : Type}
    (closure : σ → vm → CStr → task_enum_action × σ) :
    List (Option task_waiting_on_exec) → σ →
      List (Option task_waiting_on_exec) × task_enum_action × σ
  | [], data => ([], task_enum_action.TEA_CONTINUE, data)
  | Option.none :: rest, data =>
    let r := exec_waiter_enumerator_loop closure rest data
    (Option.none :: r.1, r.2.1, r.2.2)
  | some tw :: rest, data =>
    if tw.status ≠ task_waiting_status.TWS_KILL then
      let called := closure data tw.the_vm tw.cmd
      let action := called.1
      let tw1 :=
        if action = task_enum_action.TEA_KILL then
          { tw with status := task_waiting_status.TWS_KILL }
        else tw
      if action ≠ task_enum_action.TEA_CONTINUE then (some tw1 :: rest, action, called.2)
      else
        let r := exec_waiter_enumerator_loop closure rest called.2
        (some tw1 :: r.1, r.2.1, r.2.2)
    else
      let r := exec_waiter_enumerator_loop closure rest data
      (some tw :: r.1, r.2.1, r.2.2)

/-- exec_waiter_enumerator(closure, data): the new state, the action returned
and the data of the closure. -/
def exec_waiter_enumerator {σ : Type} (closure : σ → vm → CStr → task_enum_action × σ)
    (st : exec_state) (data : σ) : exec_state × task_enum_action × σ :=
  let r := exec_waiter_enumerator_loop closure st.process_table data
  ({ st with process_table := r.1 }, r.2.1, r.2.2)

/-- The first loop of exec_complete: the index of the first occupied slot whose
entry has process id `pid`. -/
def exec_find_pid (pid : Int) : List (Option task_waiting_on_exec) → Option Nat
  | [] => Option.none
  | Option.none :: rest => (exec_find_pid pid rest).map (· + 1)
  | some tw :: rest =>
    if tw.pid = pid then some 0 else (exec_find_pid pid rest).map (· + 1)

/-- The update exec_complete makes to the entry it found. -/
def exec_mark_stopped (code : Int) (tw : task_waiting_on_exec) : task_waiting_on_exec :=
  if tw.status = task_waiting_status.TWS_CONTINUE then
    { tw with status := task_waiting_status.TWS_STOP, code := code }
  else tw

/-- exec_complete(pid, code): the new state and the value returned. -/
def exec_complete (st : exec_state) (pid : Int) (code : Int) : exec_state × Int :=
  match exec_find_pid pid st.process_table with
  | some i =>
    ({ process_table := st.process_table.modify (Option.map (exec_mark_stopped code)) i,
       sigchild_interrupt := true }, pid)
  | Option.none => (st, 0)

/-- The loop of deal_with_child_exit.  `read_fd` gives the text the final drain
reads from a descriptor; the second component lists the calls of resume_task,
in order. -/
def deal_with_child_exit_loop (read_fd : Int → CStr) :
    List (Option task_waiting_on_exec) → List (Option task_waiting_on_exec) × List (vm × Var)
  | [] => ([], [])
  | Option.none :: rest =>
    let r := deal_with_child_exit_loop read_fd rest
    (Option.none :: r.1, r.2)
  | some tw :: rest =>
    let r := deal_with_child_exit_loop read_fd rest
    let resumed :=
      if tw.status = task_waiting_status.TWS_STOP then
        [(tw.the_vm, Var.list [Var.int tw.code, Var.str (tw.sout ++ read_fd tw.fout),
            Var.str (tw.serr ++ read_fd tw.ferr)])]
      else []
    let slot := if tw.status ≠ task_waiting_status.TWS_CONTINUE then Option.none else some tw
    (slot :: r.1, resumed ++ r.2)

/-- deal_with_child_exit(): the new state and the calls of resume_task. -/
def deal_with_child_exit (read_fd : Int → CStr) (st : exec_state) : exec_state × List (vm × Var) :=
  if !st.sigchild_interrupt then (st, [])
  else
    let r := deal_with_child_exit_loop read_fd st.process_table
    ({ process_table := r.1, sigchild_interrupt := false }, r.2)

/-! ## Notions used to state the properties -/

/-- The first `/`-separated component of a path, and the components after
it. -/
def split_first : CStr → CStr × List CStr
  | [] => ([], [])
  | c :: cs =>
    if c = '/' then ([], (split_first cs).1 :: (split_first cs).2)
    else (c :: (split_first cs).1, (split_first cs).2)

/-- The `/`-separated components of a path, in order. -/
def path_components (cmd : CStr) : List CStr := (split_first cmd).1 :: (split_first cmd).2

/-- The location relation is well formed: a valid object is located nowhere
or in a valid object. -/
def locations_wf (db : DB) : Prop :=
  ∀ o, valid db o = true →
    db_object_location db o = NOTHING ∨ valid db (db_object_location db o) = true

/-- The location relation is acyclic: no valid object is reached from itself
by one or more steps up the location chain. -/
def location_acyclic (db : DB) : Prop :=
  ∀ o n, valid db o = true → 0 < n → (db_object_location db)^[n] o ≠ o

/-- The object `inner` is `outer` itself or is contained in it along the
location chain. -/
def contained_in (db : DB) (inner : Objid) (outer : Objid) : Prop :=
  ∃ n, (db_object_location db)^[n] inner = outer

/-- A test that decides, for a given database, that the location relation is
well formed and acyclic: from every valid object the location chain reaches
NOTHING within as many steps as the object table has slots, and the location
of every valid object is NOTHING or valid. -/
def check_locations (db : DB) : Bool :=
  (db_all_objids db).all (fun o =>
    !valid db o
      || (((db_object_location db)^[db.objects.length] o == NOTHING)
        && (db_object_location db o == NOTHING || valid db (db_object_location db o))))

/-- Which slots of a process table are occupied. -/
def occupied (tbl : List (Option task_waiting_on_exec)) : List Bool := tbl.map Option.isSome

/-! ## Example data -/

/-- An object without parents. -/
def sample_object (owner : Objid) (location : Objid) (flags : List db_object_flag)
    (quota : Int) : Object :=
  { owner := owner, location := location, parents := nothing, flags := flags, quota := quota }

/-- Three objects: the wizard `#0` (quota 5), `#1` inside `#0` and `#2` inside
`#1`, the last two owned by `#1`, whose quota is 0. -/
def sample_db : DB :=
  { objects := [some (sample_object 0 NOTHING [db_object_flag.FLAG_WIZARD] 5),
                some (sample_object 1 0 [db_object_flag.FLAG_FERTILE] 0),
                some (sample_object 1 1 [] 0)],
    anons := [] }

/-- No object defines any verb: every nested call reports E_VERBNF. -/
def sample_env : environment :=
  { call_verb := fun _ _ _ _ _ => error.E_VERBNF, parents_ok := fun _ _ _ => true }

/-- Every path names a regular file below `executables/`. -/
def sample_exec_env : exec_environment :=
  { EXEC_SUBDIR := "executables/".toList,
    binary_to_raw_bytes := fun s => some s,
    stat := fun _ => stat_result.regular }

/-- A running entry for process `pid`, owned by task `the_vm`. -/
def sample_entry (pid : Int) (the_vm : vm) : task_waiting_on_exec :=
  { malloc_task_waiting_on_exec "executables/sleep".toList ["sleep".toList] [] with
    pid := pid, the_vm := the_vm }

/-- Two running processes, 10 and 20, and one free slot; no exit is pending. -/
def sample_exec_state : exec_state :=
  { process_table := [some (sample_entry 10 1), some (sample_entry 20 2), Option.none],
    sigchild_interrupt := false }

/-- A closure that kills the first entry it is shown. -/
def kill_first (data : Unit) (_the_vm : vm) (_cmd : CStr) : task_enum_action × Unit :=
  (task_enum_action.TEA_KILL, data)

/-- What can happen to the process table once entries are in it: a completion
notification, or a reap pass, whose final drain reads what `read_fd` gives. -/
inductive exec_event where
  | complete (pid : Int) (code : Int)
  | reap (read_fd : Int → CStr)

/-- Run a sequence of completion notifications and reap passes; the second
component lists all the calls of resume_task, in order. -/
def run_exec_events : List exec_event → exec_state → exec_state × List (vm × Var)
  | [], st => (st, [])
  | exec_event.complete pid code :: rest, st =>
    run_exec_events rest (exec_complete st pid code).1
  | exec_event.reap read_fd :: rest, st =>
    ((run_exec_events rest (deal_with_child_exit read_fd st).1).1,
      (deal_with_child_exit read_fd st).2
        ++ (run_exec_events rest (deal_with_child_exit read_fd st).1).2)

/-- The value a reap pass hands to resume_task for a Stopped entry: the exit
code, and the two texts gathered, final drain included. -/
def resume_value (read_fd : Int → CStr) (tw : task_waiting_on_exec) : Var :=
  Var.list [Var.int tw.code, Var.str (tw.sout ++ read_fd tw.fout),
    Var.str (tw.serr ++ read_fd tw.ferr)]

/-! ## exec: the suspender -/

/-- Every nested call reports E_MAXREC. -/
def maxrec_env : environment :=
  { call_verb := fun _ _ _ _ _ => error.E_MAXREC, parents_ok := fun _ _ _ => true }

/-- The parse of the optional arguments of create: the composition of the
three tests of bf_create, none being the E_TYPE return. -/
def bf_create_parse (value : Var) (progr : Objid) : Option create_opts :=
  (bf_create_arg2 value progr).bind (bf_create_arg3 value) |>.bind (bf_create_arg4 value)

/-- What bf_create makes of a successful parse: the owner, the anonymous flag
and the initializer handed to the initialize call. -/
def bf_create_parsed (value : Var) (progr : Objid) : Option (Objid × Bool × Var) :=
  (bf_create_parse value progr).map (fun o =>
    (o.owner, (if o.anon > 0 then (value.nth o.anon).v_num != 0 else false),
      (if o.init > 0 then value.nth o.init else Var.list [])))

/-- As the claim words it, for the arguments after the first: the second
argument is not an object, integer or list, or the third or fourth argument is
not an integer or list, or more than one integer or more than one list stands
among the arguments 2 to 4. -/
def create_optional_type_error (args : List Var) : Bool :=
  (1 < args.length
      && !((args.getD 1 Var.none).is_obj || (args.getD 1 Var.none).is_int
        || (args.getD 1 Var.none).is_list))
    || (2 < args.length
      && !((args.getD 2 Var.none).is_int || (args.getD 2 Var.none).is_list))
    || (3 < args.length
      && !((args.getD 3 Var.none).is_int || (args.getD 3 Var.none).is_list))
    || decide (1 < ((args.drop 1).filter Var.is_int).length)
    || decide (1 < ((args.drop 1).filter Var.is_list).length)

/-- As the claim words it: create reports a type mismatch when the first
argument is not an object or a list of objects, or the optional arguments are
at fault. -/
def create_type_error (args : List Var) : Bool :=
  !is_obj_or_list_of_objs (args.getD 0 Var.none) || create_optional_type_error args

/-- As the claim words it: the owner is argument 2 if it is an object and the
caller otherwise. -/
def create_owner (args : List Var) (progr : Objid) : Objid :=
  if (args.getD 1 Var.none).is_obj then (args.getD 1 Var.none).v_obj else progr

/-- As the claim words it: the anonymous flag is the integer found among the
arguments 2 to 4, false when there is none. -/
def create_anonymous (args : List Var) : Bool :=
  match (args.drop 1).find? Var.is_int with
  | some v => v.v_num != 0
  | Option.none => false

/-- As the claim words it: the initializer is the list found among the
arguments 2 to 4, the empty list when there is none. -/
def create_initializer (args : List Var) : Var :=
  ((args.drop 1).find? Var.is_list).getD (Var.list [])

/-- As the claim words it: what create makes of its optional arguments, none
when they are at fault. -/
def create_parsed (args : List Var) (progr : Objid) : Option (Objid × Bool × Var) :=
  if create_optional_type_error args then Option.none
  else some (create_owner args progr, create_anonymous args, create_initializer args)

/-- The wizard `#0`, the object `#1` that allows anonymous children but is not
fertile, and `#2`, who owns itself and has quota 3. -/
def sample_db_anon : DB :=
  { objects := [some (sample_object 0 NOTHING [db_object_flag.FLAG_WIZARD] 5),
                some (sample_object 0 NOTHING [db_object_flag.FLAG_ANONYMOUS] 0),
                some (sample_object 2 NOTHING [] 3)],
    anons := [] }

/-- No object defines any verb, and db_change_parents always refuses. -/
def refusing_env : environment :=
  { call_verb := fun _ _ _ _ _ => error.E_VERBNF, parents_ok := fun _ _ _ => false }

/-- The database of bf_create once the quota test is behind: the quota of a
valid owner has been taken. -/
def create_quota_taken (db : DB) (owner : Objid) : DB :=
  (if valid db owner then decr_quota db owner else (true, db)).2

/-- The database in which bf_create calls db_change_parents: the new object
has been created and given its owner. -/
def create_before_attach (db : DB) (owner : Objid) : DB :=
  db_set_object_owner (db_create_object (create_quota_taken db owner)).2
    (db_create_object (create_quota_taken db owner)).1
    (if !valid (db_create_object (create_quota_taken db owner)).2 owner then
      (db_create_object (create_quota_taken db owner)).1
    else owner)

/-! ## chparent and chparents -/

/-- The objects reached from `frontier` by one to `fuel` steps down the
children relation. -/
def db_descendants_from (db : DB) : Nat → List Objid → List Objid
  | 0, _ => []
  | fuel + 1, frontier =>
    (frontier.flatMap (db_children db))
      ++ db_descendants_from db fuel (frontier.flatMap (db_children db))

/-- Modelled from the spec: `db_descendants` ("descendant/ancestor queries"),
which is not among the sources: the descendants of `obj`, with `obj` itself in
front when `full` is set.  An object may be listed more than once; the source
only asks whether a value is a member.  An anonymous object has no children. -/
def db_descendants (db : DB) (obj : Var) (full : Bool) : List Var :=
  (if full then [obj] else [])
    ++ (match obj with
      | .obj o => (db_descendants_from db db.objects.length [o]).map Var.obj
      | _ => [])

/-- is_a_descendant(_this, obj): true if `_this` is a descendant of `obj`. -/
def is_a_descendant (db : DB) (this : Var) (obj : Var) : Bool :=
  ismember this (db_descendants db obj true) != 0

/-- any_are_descendants(these, obj): true if any of `these` are descendants of
`obj`. -/
def any_are_descendants (db : DB) (these : Var) (obj : Var) : Bool :=
  these.elems.any (fun this => is_a_descendant db this obj)

/-- Modelled from the spec: `db_change_parents` as chparents calls it, with the
list of anonymous children ("commits the parent-set change atomically
(all-or-nothing) or reports an invalid-argument error").  `kids_ok` is the
check it makes before it commits. -/
def db_change_parents_kids (kids_ok : DB → Var → Var → Var → Bool) (db : DB) (obj : Var)
    (new_parents : Var) (anon_kids : Var) : Bool × DB :=
  if kids_ok db obj new_parents anon_kids then
    (true, dbpriv_update_object2 db obj (fun o => { o with parents := new_parents }))
  else (false, db)

/-- bf_chparent_chparents up to the permission test: the error returned, or
the list `anon_kids`. -/
def bf_chparent_checks (db : DB) (arglist : Var) (progr : Objid) : Except error Var :=
  let obj := arglist.nth 1
  let what := arglist.nth 2
  let n := arglist.length
  if !obj.is_object || !is_obj_or_list_of_objs what then .error error.E_TYPE
  else if n > 2 && !is_wizard db progr then .error error.E_PERM
  else
    let anon_kids := if n > 2 && (arglist.nth 3).is_list then arglist.nth 3 else Var.list []
    if !is_valid db obj
        || (what.is_obj && !valid db what.v_obj && what.v_obj != NOTHING)
        || (what.is_list && !all_valid db what) then
      .error error.E_INVARG
    else if !controls2 db progr obj
        || (what.is_obj && valid db what.v_obj
          && !db_object_allows db what progr db_object_flag.FLAG_FERTILE)
        || (what.is_list && !all_allowed db what progr db_object_flag.FLAG_FERTILE) then
      .error error.E_PERM
    else .ok anon_kids

/-- bf_chparent_chparents(arglist, progr), the builtin behind chparent and
chparents. -/
def bf_chparent_chparents (kids_ok : DB → Var → Var → Var → Bool) (db : DB) (arglist : Var)
    (progr : Objid) : outcome Var :=
  let obj := arglist.nth 1
  let what := arglist.nth 2
  match bf_chparent_checks db arglist progr with
  | .error e => { pack := make_error_pack e, db := db, calls := [] }
  | .ok anon_kids =>
    if (what.is_obj && is_a_descendant db what obj)
        || (what.is_list && any_are_descendants db what obj) then
      { pack := make_error_pack error.E_RECMOVE, db := db, calls := [] }
    else
      let changed := db_change_parents_kids kids_ok db obj what anon_kids
      if !changed.1 then { pack := make_error_pack error.E_INVARG, db := changed.2, calls := [] }
      else { pack := no_var_pack, db := changed.2, calls := [] }

/-- A family: `#0` is the wizard, `#1` has the parents `#3` and `#2`, and `#4`
has the parents `#1`, `#2` and `#3`. -/
def sample_db_family : DB :=
  { objects := [some (sample_object 0 NOTHING [db_object_flag.FLAG_WIZARD] 5),
                some { sample_object 0 NOTHING [] 0 with
                  parents := Var.list [Var.obj 3, Var.obj 2] },
                some (sample_object 0 NOTHING [] 0),
                some (sample_object 0 NOTHING [] 0),
                some { sample_object 0 NOTHING [] 0 with
                  parents := Var.list [Var.obj 1, Var.obj 2, Var.obj 3] }],
    anons := [] }

/-- Keep the first occurrence of every value of a list and drop the later
ones. -/
def keep_first : List Var → List Var
  | [] => []
  | x :: xs => x :: (keep_first xs).filter (fun y => decide (y ≠ x))

/-- The parents of the object being recycled, as its children receive them: a
single parent only if it is valid, a list of parents as it stands. -/
def inherited_parents (db : DB) (op : Var) : List Var :=
  if op.is_obj then (if valid db op.v_obj then [op] else []) else op.elems

/-- As the claim words it: what a child with the stored parents `cp` receives
when its parent `o`, whose parents are `op`, is recycled.  A single parent is
replaced by `op`; in a list in which `o` stands at position `k` (counted from
1), the parents before `o`, the parents of `o` and the parents after `o` are
put one after the other, and of each value the first occurrence is kept. -/
def reparented (db : DB) (o : Objid) (cp : Var) (op : Var) : Var :=
  if cp.is_obj then op
  else
    Var.list (keep_first
      (cp.elems.take (cp.elems.indexOf (Var.obj o))
        ++ inherited_parents db op
        ++ cp.elems.drop (cp.elems.indexOf (Var.obj o) + 1)))

/-- What one round of the children loop of bf_recycle hands to
db_change_parents for the child `c` of `oid`. -/
def recycle_reparent_arg (db : DB) (oid : Objid) (c : Objid) : Var :=
  if (db_object_parents db c).is_obj then db_object_parents db oid
  else Var.list (recycle_new_parents db oid (db_object_parents db c) (db_object_parents db oid))

/-- The object an entry of bf_recycle works on: the first argument at step 1,
the object saved by step 1 afterwards. -/
def recycle_object (value : Var) (func_pc : Nat) (data : Var) : Var :=
  if func_pc = 1 then value.nth 1 else data

/-- Between two databases no permanent object has appeared or gone, none has
changed its owner or its quota, and no anonymous object has appeared, gone or
changed its owner. -/
def accounts_kept (db : DB) (db2 : DB) : Prop :=
  (∀ x, (dbpriv_find_object db2 x).map (fun o => (o.owner, o.quota))
      = (dbpriv_find_object db x).map (fun o => (o.owner, o.quota)))
    ∧ (∀ a, (db2.anons.getD a Option.none).map Object.owner
      = (db.anons.getD a Option.none).map Object.owner)
    ∧ db2.objects.length = db.objects.length

/-- No valid object is located in `oid`. -/
def no_contents (db : DB) (oid : Objid) : Prop :=
  ∀ c, valid db c = true → db_object_location db c ≠ oid

/-- What is left of the sample database once `#2` has been recycled: its slot
is empty and its owner `#1` has a quota of 1. -/
def sample_recycled : outcome Var :=
  { pack := no_var_pack,
    db := { objects := [some (sample_object 0 NOTHING [db_object_flag.FLAG_WIZARD] 5),
                        some (sample_object 1 0 [db_object_flag.FLAG_FERTILE] 1),
                        Option.none],
            anons := [] },
    calls := log_call (log_call [] 2 "recycle" (Var.obj 2) (Var.list []) error.E_VERBNF)
      1 "exitfunc" (Var.obj 1) (make_arglist 2) error.E_VERBNF }

/-- The values call_verb returns (execute.h): E_NONE when the activation was
pushed, else E_VERBNF, E_MAXREC or E_INVIND. -/
def call_verb_results (env : environment) : Prop :=
  ∀ db recv vname this args,
    env.call_verb db recv vname this args = error.E_NONE
      ∨ env.call_verb db recv vname this args = error.E_VERBNF
      ∨ env.call_verb db recv vname this args = error.E_MAXREC
      ∨ env.call_verb db recv vname this args = error.E_INVIND

/-- Between two databases the same objects are valid and each is located where
it was. -/
def places_kept (db : DB) (db2 : DB) : Prop :=
  ∀ x, valid db2 x = valid db x ∧ db_object_location db2 x = db_object_location db x

/-- Every object valid in the second database was valid in the first, and if
its location has changed it is now located nowhere and is the argument of one
of the exitfunc calls listed. -/
def relocated_by (calls : List verb_call) (db : DB) (db2 : DB) : Prop :=
  ∀ x, valid db2 x = true → valid db x = true
    ∧ (db_object_location db2 x = db_object_location db x
      ∨ (db_object_location db2 x = NOTHING
        ∧ ∃ c ∈ calls, c.vname = "exitfunc" ∧ c.args = make_arglist x))

/-- A box `#1` that holds `#2` and `#3`; all belong to the wizard `#0`. -/
def sample_db_box : DB :=
  { objects := [some (sample_object 0 NOTHING [db_object_flag.FLAG_WIZARD] 5),
                some (sample_object 0 NOTHING [] 0),
                some (sample_object 0 1 [] 0),
                some (sample_object 0 1 [] 0)],
    anons := [] }

/-- Every nested call starts a verb. -/
def starting_env : environment :=
  { call_verb := fun _ _ _ _ _ => error.E_NONE, parents_ok := fun _ _ _ => true }

/-- The exitfunc call move_to_nothing makes for `oid`, with what it reports. -/
def exitfunc_call (env : environment) (db : DB) (oid : Objid) : verb_call :=
  { recv := db_object_location db oid, vname := "exitfunc",
    this := Var.obj (db_object_location db oid), args := make_arglist oid,
    result := env.call_verb (db_change_location db oid NOTHING) (db_object_location db oid)
      "exitfunc" (Var.obj (db_object_location db oid)) (make_arglist oid) }

/-- One entry into a suspendable builtin: the environment and the database it
ran in, the value it was entered with, and what it left behind. -/
structure step_entry (δ : Type) where
  env : environment
  db : DB
  value : Var
  out : outcome δ

/-- A run of one move operation from step `n` on: every entry is an entry of
do_move, and an entry that is followed by another one has asked for a nested
call, the next entry being made at the step it named.  Between two entries the
verb that was called may have changed the database in any way. -/
def move_run (progr : Objid) (data : bf_move_data) :
    Nat → List (step_entry bf_move_data) → Prop
  | _, [] => True
  | n, e :: rest =>
    do_move e.env e.db e.value progr n data = .ok e.out
      ∧ (rest = [] ∨ ∃ m, e.out.pack = make_call_pack m data ∧ move_run progr data m rest)

/-- A run of entries into step 2 of one recycle operation: an entry that is
followed by another one has asked to be re-entered at step 2. -/
def recycle_run (progr : Objid) (data : Var) : List (step_entry Var) → Prop
  | [] => True
  | e :: rest =>
    bf_recycle e.env e.db e.value progr 2 data = .ok e.out
      ∧ (rest = [] ∨ (e.out.pack = make_call_pack 2 data ∧ recycle_run progr data rest))

/-- The number of call_verb invocations made in a run. -/
def run_calls {δ : Type} (run : List (step_entry δ)) : Nat :=
  (run.map (fun e => e.out.calls.length)).sum

/-- The entry of do_move at step `n` in a given environment and database; a
fault is recorded as an entry that returns no value. -/
def move_entry (env : environment) (db : DB) (value : Var) (progr : Objid) (n : Nat)
    (data : bf_move_data) : step_entry bf_move_data :=
  { env := env, db := db, value := value,
    out := match do_move env db value progr n data with
      | .ok out => out
      | .error _ => { pack := no_var_pack, db := db, calls := [] } }

/-- The wizard `#0` moves `#2` into `#0`, every nested call starting a verb
that changes nothing: four entries, at the steps 1 to 4. -/
def sample_move_run : List (step_entry bf_move_data) :=
  [move_entry starting_env sample_db (Var.int 0) 0 1 { what := 2, where_ := 0 },
   move_entry starting_env sample_db (Var.int 1) 0 2 { what := 2, where_ := 0 },
   move_entry starting_env (db_change_location sample_db 2 0) (Var.int 0) 0 3
     { what := 2, where_ := 0 },
   move_entry starting_env (db_change_location sample_db 2 0) (Var.int 0) 0 4
     { what := 2, where_ := 0 }]

/-- An entry into step 2 of recycle for the box `#1`, every nested call
starting a verb: `#2` is relocated and a re-entry is asked for. -/
def sample_recycle_entry : step_entry Var :=
  { env := starting_env, db := sample_db_box, value := Var.int 0,
    out := { pack := make_call_pack 2 (Var.obj 1),
             db := db_change_location sample_db_box 2 NOTHING,
             calls := [exitfunc_call starting_env sample_db_box 2] } }

/-! ## exec: properties of the path check and of bf_exec -/

theorem strstr_cons (c : Char) (cs needle : CStr) (h : strstr cs needle = true) :
    strstr (c :: cs) needle = true := by
  simp [strstr, h]

theorem strstr_of_isPrefixOf (cs needle : CStr) (h : needle.isPrefixOf cs = true) :
    strstr cs needle = true := by
  cases cs with
  | nil =>
    cases needle with
    | nil => rfl
    | cons a as => simp [List.isPrefixOf] at h
  | cons c cs => simp [strstr, h]

theorem nth_one_eq_str (v : Var) (cmd : CStr) (h : v.nth 1 = Var.str cmd) :
    v.elems.isEmpty = false := by
  cases hv : v.elems with
  | nil => simp [Var.nth, hv] at h
  | cons a as => rfl

theorem exec_path_ok_eq_false (cmd : CStr)
    (hbad : cmd.head? = some '/' ∨ ['.', '.'].isPrefixOf cmd = true
      ∨ strstr cmd ['/', '.'] = true ∨ strstr cmd ['.', '/'] = true) :
    exec_path_ok cmd = false := by
  cases cmd with
  | nil => rfl
  | cons a as =>
    rcases hbad with h | h | h | h
    · simp at h
      simp [exec_path_ok, h]
    · cases as with
      | nil => simp [List.isPrefixOf] at h
      | cons b bs =>
        simp [List.isPrefixOf] at h
        obtain ⟨h1, h2⟩ := h
        subst h1 h2
        simp [exec_path_ok]
    · simp [exec_path_ok, h]
    · simp [exec_path_ok, h]

theorem bf_exec_path_rejected (xenv : exec_environment) (db : DB) (arglist : Var) (progr : Objid)
    (cmd : CStr) (hcmd : (arglist.nth 1).nth 1 = Var.str cmd)
    (hstr : (arglist.nth 1).elems.all Var.is_str = true) (hbad : exec_path_ok cmd = false) :
    bf_exec xenv db arglist progr =
      { pack := make_raise_pack error.E_INVARG "Invalid path".toList, stats := [] } := by
  have hne := nth_one_eq_str _ _ hcmd
  simp [bf_exec, hstr, hne, hcmd, Var.v_str, hbad]

/-- C6 (as amended): a command path that starts with `/` or with `..`, or that
contains `/.` or `./` anywhere, makes bf_exec return E_INVARG for every caller,
database and file system; nothing is handed to `stat` and no suspension is
returned. -/
theorem bf_exec_unsafe_path_invarg (xenv : exec_environment) (db : DB) (arglist : Var)
    (progr : Objid) (cmd : CStr) (hcmd : (arglist.nth 1).nth 1 = Var.str cmd)
    (hbad : cmd.head? = some '/' ∨ ['.', '.'].isPrefixOf cmd = true
      ∨ strstr cmd ['/', '.'] = true ∨ strstr cmd ['.', '/'] = true) :
    (∃ msg, (bf_exec xenv db arglist progr).pack = package.BI_RAISE error.E_INVARG msg)
      ∧ (bf_exec xenv db arglist progr).stats = []
      ∧ ∀ tw, (bf_exec xenv db arglist progr).pack ≠ package.BI_SUSPEND tw := by
  have key : (∃ msg, (bf_exec xenv db arglist progr).pack = package.BI_RAISE error.E_INVARG msg)
      ∧ (bf_exec xenv db arglist progr).stats = [] := by
    by_cases hstr : (arglist.nth 1).elems.all Var.is_str = true
    · rw [bf_exec_path_rejected xenv db arglist progr cmd hcmd hstr (exec_path_ok_eq_false cmd hbad)]
      exact ⟨⟨_, rfl⟩, rfl⟩
    · have hs : (arglist.nth 1).elems.all Var.is_str = false := by simpa using hstr
      simp only [bf_exec, hs]
      exact ⟨⟨_, rfl⟩, rfl⟩
  refine ⟨key.1, key.2, ?_⟩
  intro tw htw
  obtain ⟨msg, hmsg⟩ := key.1
  rw [hmsg] at htw
  cases htw

theorem bf_exec_unsafe_path_invarg_witness :
    (∃ msg, (bf_exec sample_exec_env sample_db
        (Var.list [Var.list [Var.str "bin/../../sh".toList]]) 0).pack
          = package.BI_RAISE error.E_INVARG msg)
      ∧ (bf_exec sample_exec_env sample_db
          (Var.list [Var.list [Var.str "bin/../../sh".toList]]) 0).stats = []
      ∧ ∀ tw, (bf_exec sample_exec_env sample_db
          (Var.list [Var.list [Var.str "bin/../../sh".toList]]) 0).pack ≠ package.BI_SUSPEND tw :=
  bf_exec_unsafe_path_invarg sample_exec_env sample_db
    (Var.list [Var.list [Var.str "bin/../../sh".toList]]) 0 "bin/../../sh".toList rfl
    (Or.inr (Or.inr (Or.inl (by decide))))

/-- C6 (counterexample): the path `foo..bar` contains the sequence `..`, yet
for a wizard and an existing regular file bf_exec returns a suspension and has
handed the path to `stat`. -/
theorem bf_exec_dotdot_inside_name_suspends :
    strstr "foo..bar".toList "..".toList = true
      ∧ is_wizard sample_db 0 = true
      ∧ bf_exec sample_exec_env sample_db (Var.list [Var.list [Var.str "foo..bar".toList]]) 0
        = { pack := package.BI_SUSPEND
              (malloc_task_waiting_on_exec "executables/foo..bar".toList ["foo..bar".toList] []),
            stats := ["executables/foo..bar".toList] } := by
  decide

theorem split_first_head_dot (cs rest : CStr) (h : (split_first cs).1 = '.' :: rest) :
    cs.head? = some '.' := by
  cases cs with
  | nil => simp [split_first] at h
  | cons c cs =>
    by_cases hc : c = '/'
    · simp [split_first, hc] at h
    · simp [split_first, hc] at h
      simp [h.1]

theorem split_first_tail_dotdot (cs : CStr) (h : ['.', '.'] ∈ (split_first cs).2) :
    strstr cs ['/', '.'] = true := by
  induction cs with
  | nil => simp [split_first] at h
  | cons c cs ih =>
    by_cases hc : c = '/'
    · simp only [split_first, hc, if_true, List.mem_cons] at h
      rcases h with h | h
      · have hd := split_first_head_dot cs ['.'] h.symm
        subst hc
        cases cs with
        | nil => simp at hd
        | cons d ds =>
          simp at hd
          subst hd
          simp [strstr, List.isPrefixOf]
      · exact strstr_cons _ _ _ (ih h)
    · simp only [split_first, hc, if_false] at h
      exact strstr_cons _ _ _ (ih h)

theorem exec_path_ok_components (cmd : CStr) (h : ['.', '.'] ∈ path_components cmd) :
    exec_path_ok cmd = false := by
  simp only [path_components, List.mem_cons] at h
  rcases h with h | h
  · apply exec_path_ok_eq_false
    right; left
    cases cmd with
    | nil => simp [split_first] at h
    | cons c cs =>
      by_cases hc : c = '/'
      · simp [split_first, hc] at h
      · simp only [split_first, hc, if_false] at h
        have h1 : c = '.' := by
          have := congrArg List.head? h
          simp at this
          exact this.symm
        have h2 : (split_first cs).1 = ['.'] := by
          have := congrArg List.tail h
          simp at this
          exact this.symm
        have hd := split_first_head_dot cs [] h2
        cases cs with
        | nil => simp at hd
        | cons d ds =>
          simp at hd
          subst hd h1
          simp [List.isPrefixOf]
  · exact exec_path_ok_eq_false cmd (Or.inr (Or.inr (Or.inl (split_first_tail_dotdot cmd h))))

theorem exec_path_ok_sound (cmd : CStr) (h : exec_path_ok cmd = true) :
    cmd ≠ [] ∧ cmd.head? ≠ some '/' ∧ ['.', '.'] ∉ path_components cmd := by
  refine ⟨?_, ?_, ?_⟩
  · rintro rfl
    simp [exec_path_ok] at h
  · intro hh
    rw [exec_path_ok_eq_false cmd (Or.inl hh)] at h
    cases h
  · intro hh
    rw [exec_path_ok_components cmd hh] at h
    cases h

theorem bf_exec_stats_or_suspend (xenv : exec_environment) (db : DB) (arglist : Var)
    (progr : Objid) :
    (bf_exec xenv db arglist progr).stats = []
        ∧ (∀ tw, (bf_exec xenv db arglist progr).pack ≠ package.BI_SUSPEND tw)
      ∨ (exec_path_ok ((arglist.nth 1).nth 1).v_str = true
        ∧ is_wizard db progr = true
        ∧ (bf_exec xenv db arglist progr).stats
            = [xenv.EXEC_SUBDIR ++ ((arglist.nth 1).nth 1).v_str]
        ∧ ∀ tw, (bf_exec xenv db arglist progr).pack = package.BI_SUSPEND tw →
            tw.cmd = xenv.EXEC_SUBDIR ++ ((arglist.nth 1).nth 1).v_str) := by
  unfold bf_exec
  simp only []
  split
  · left; exact ⟨rfl, fun tw h => by cases h⟩
  split
  · left; exact ⟨rfl, fun tw h => by cases h⟩
  split
  · left; exact ⟨rfl, fun tw h => by cases h⟩
  rename_i hok
  split
  · left; exact ⟨rfl, fun tw h => by cases h⟩
  split
  · left; exact ⟨rfl, fun tw h => by cases h⟩
  rename_i hwiz
  right
  refine ⟨by simpa using hok, by simpa using hwiz, ?_, ?_⟩
  · split <;> rfl
  · intro tw htw
    split at htw
    · cases htw
    · cases htw
    · simp only [make_suspend_pack, package.BI_SUSPEND.injEq] at htw
      rw [← htw]
      rfl

/-- C7: a command path that passes the path check of bf_exec is non-empty, does
not begin with `/` and has no `/`-separated component equal to `..`; only such
a path is prefixed with EXEC_SUBDIR and handed to `stat` or put in a process
record; and a path that is empty, absolute or has a `..` component makes
bf_exec return E_INVARG whoever the caller and whatever the file system, with
nothing handed to `stat`, the message being "Invalid path" when the command
list holds strings only. -/
theorem bf_exec_path_check (xenv : exec_environment) (db : DB) (arglist : Var) (progr : Objid)
    (cmd : CStr) (hcmd : (arglist.nth 1).nth 1 = Var.str cmd) :
    (exec_path_ok cmd = true →
        cmd ≠ [] ∧ cmd.head? ≠ some '/' ∧ ['.', '.'] ∉ path_components cmd)
      ∧ ((cmd = [] ∨ cmd.head? = some '/' ∨ ['.', '.'] ∈ path_components cmd) →
          (∃ msg, (bf_exec xenv db arglist progr).pack = package.BI_RAISE error.E_INVARG msg)
            ∧ (bf_exec xenv db arglist progr).stats = []
            ∧ ((arglist.nth 1).elems.all Var.is_str = true →
              bf_exec xenv db arglist progr
                = { pack := make_raise_pack error.E_INVARG "Invalid path".toList, stats := [] }))
      ∧ (∀ p ∈ (bf_exec xenv db arglist progr).stats,
          p = xenv.EXEC_SUBDIR ++ cmd ∧ exec_path_ok cmd = true)
      ∧ (∀ tw, (bf_exec xenv db arglist progr).pack = package.BI_SUSPEND tw →
          tw.cmd = xenv.EXEC_SUBDIR ++ cmd ∧ exec_path_ok cmd = true) := by
  have hv : ((arglist.nth 1).nth 1).v_str = cmd := by rw [hcmd]; rfl
  refine ⟨exec_path_ok_sound cmd, ?_, ?_, ?_⟩
  · intro hbad
    have hno : exec_path_ok cmd = false := by
      rcases hbad with h | h | h
      · subst h; rfl
      · exact exec_path_ok_eq_false cmd (Or.inl h)
      · exact exec_path_ok_components cmd h
    have hall : (arglist.nth 1).elems.all Var.is_str = true →
        bf_exec xenv db arglist progr
          = { pack := make_raise_pack error.E_INVARG "Invalid path".toList, stats := [] } :=
      fun hstr => bf_exec_path_rejected xenv db arglist progr cmd hcmd hstr hno
    by_cases hstr : (arglist.nth 1).elems.all Var.is_str = true
    · rw [hall hstr]
      exact ⟨⟨_, rfl⟩, rfl, fun _ => rfl⟩
    · have hs : (arglist.nth 1).elems.all Var.is_str = false := by simpa using hstr
      refine ⟨?_, ?_, fun h => absurd h hstr⟩
      · simp only [bf_exec, hs]
        exact ⟨_, rfl⟩
      · simp only [bf_exec, hs]
        rfl
  · intro p hp
    rcases bf_exec_stats_or_suspend xenv db arglist progr with h | h
    · rw [h.1] at hp; cases hp
    · rw [h.2.2.1, hv] at hp
      rw [hv] at h
      exact ⟨by simpa using hp, h.1⟩
  · intro tw htw
    rcases bf_exec_stats_or_suspend xenv db arglist progr with h | h
    · exact absurd htw (h.2 tw)
    · rw [hv] at h
      exact ⟨h.2.2.2 tw htw, h.1⟩

theorem bf_exec_path_check_witness :
    (exec_path_ok "../sh".toList = true →
        "../sh".toList ≠ [] ∧ "../sh".toList.head? ≠ some '/'
          ∧ ['.', '.'] ∉ path_components "../sh".toList)
      ∧ (("../sh".toList = [] ∨ "../sh".toList.head? = some '/'
            ∨ ['.', '.'] ∈ path_components "../sh".toList) →
          (∃ msg, (bf_exec sample_exec_env sample_db
              (Var.list [Var.list [Var.str "../sh".toList]]) 0).pack
                = package.BI_RAISE error.E_INVARG msg)
            ∧ (bf_exec sample_exec_env sample_db
                (Var.list [Var.list [Var.str "../sh".toList]]) 0).stats = []
            ∧ ((Var.nth (Var.list [Var.list [Var.str "../sh".toList]]) 1).elems.all Var.is_str
                = true →
              bf_exec sample_exec_env sample_db (Var.list [Var.list [Var.str "../sh".toList]]) 0
                = { pack := make_raise_pack error.E_INVARG "Invalid path".toList, stats := [] }))
      ∧ (∀ p ∈ (bf_exec sample_exec_env sample_db
            (Var.list [Var.list [Var.str "../sh".toList]]) 0).stats,
          p = sample_exec_env.EXEC_SUBDIR ++ "../sh".toList
            ∧ exec_path_ok "../sh".toList = true)
      ∧ (∀ tw, (bf_exec sample_exec_env sample_db
            (Var.list [Var.list [Var.str "../sh".toList]]) 0).pack = package.BI_SUSPEND tw →
          tw.cmd = sample_exec_env.EXEC_SUBDIR ++ "../sh".toList
            ∧ exec_path_ok "../sh".toList = true) :=
  bf_exec_path_check sample_exec_env sample_db (Var.list [Var.list [Var.str "../sh".toList]]) 0
    "../sh".toList rfl

/-- C8: for a caller that is not a wizard bf_exec returns E_INVARG or E_PERM
whatever the arguments; it hands nothing to `stat` and returns no suspension,
so no process record is built. -/
theorem bf_exec_non_wizard (xenv : exec_environment) (db : DB) (arglist : Var) (progr : Objid)
    (hwiz : is_wizard db progr = false) :
    ((∃ msg, (bf_exec xenv db arglist progr).pack = package.BI_RAISE error.E_INVARG msg)
        ∨ (bf_exec xenv db arglist progr).pack = make_error_pack error.E_PERM)
      ∧ (bf_exec xenv db arglist progr).stats = []
      ∧ ∀ tw, (bf_exec xenv db arglist progr).pack ≠ package.BI_SUSPEND tw := by
  have key : ((∃ msg, (bf_exec xenv db arglist progr).pack = package.BI_RAISE error.E_INVARG msg)
        ∨ (bf_exec xenv db arglist progr).pack = make_error_pack error.E_PERM)
      ∧ (bf_exec xenv db arglist progr).stats = [] := by
    unfold bf_exec
    simp only []
    split
    · exact ⟨Or.inl ⟨_, rfl⟩, rfl⟩
    split
    · exact ⟨Or.inl ⟨_, rfl⟩, rfl⟩
    split
    · exact ⟨Or.inl ⟨_, rfl⟩, rfl⟩
    split
    · exact ⟨Or.inl ⟨_, rfl⟩, rfl⟩
    split
    · exact ⟨Or.inr rfl, rfl⟩
    · rename_i h
      simp [hwiz] at h
  refine ⟨key.1, key.2, ?_⟩
  intro tw htw
  rcases key.1 with ⟨msg, h⟩ | h
  · rw [h] at htw; cases htw
  · rw [h] at htw; cases htw

theorem bf_exec_non_wizard_witness :
    ((∃ msg, (bf_exec sample_exec_env sample_db (Var.list [Var.list [Var.str "ls".toList]]) 1).pack
          = package.BI_RAISE error.E_INVARG msg)
        ∨ (bf_exec sample_exec_env sample_db (Var.list [Var.list [Var.str "ls".toList]]) 1).pack
          = make_error_pack error.E_PERM)
      ∧ (bf_exec sample_exec_env sample_db (Var.list [Var.list [Var.str "ls".toList]]) 1).stats = []
      ∧ ∀ tw, (bf_exec sample_exec_env sample_db (Var.list [Var.list [Var.str "ls".toList]]) 1).pack
          ≠ package.BI_SUSPEND tw :=
  bf_exec_non_wizard sample_exec_env sample_db (Var.list [Var.list [Var.str "ls".toList]]) 1
    (by decide)

/-! ## exec: properties of the process table -/

theorem exec_mark_stopped_pid (code : Int) (tw : task_waiting_on_exec) :
    (exec_mark_stopped code tw).pid = tw.pid := by
  unfold exec_mark_stopped
  split <;> rfl

theorem exec_mark_stopped_twice (c1 c2 : Int) (tw : task_waiting_on_exec) :
    exec_mark_stopped c2 (exec_mark_stopped c1 tw) = exec_mark_stopped c1 tw := by
  unfold exec_mark_stopped
  by_cases h : tw.status = task_waiting_status.TWS_CONTINUE <;> simp [h]

theorem exec_mark_stopped_of_killed (code : Int) (tw : task_waiting_on_exec)
    (h : tw.status = task_waiting_status.TWS_KILL) : exec_mark_stopped code tw = tw := by
  simp [exec_mark_stopped, h]

theorem exec_find_pid_modify (pid code : Int) (tbl : List (Option task_waiting_on_exec))
    (i : Nat) :
    exec_find_pid pid (tbl.modify (Option.map (exec_mark_stopped code)) i)
      = exec_find_pid pid tbl := by
  induction tbl generalizing i with
  | nil => simp
  | cons s rest ih =>
    cases i with
    | zero =>
      cases s with
      | none => simp [exec_find_pid]
      | some tw => simp [exec_find_pid, exec_mark_stopped_pid]
    | succ j =>
      rw [List.modify_succ_cons]
      cases s with
      | none => simp only [exec_find_pid, ih]
      | some tw => simp only [exec_find_pid, ih]

theorem exec_complete_table (st : exec_state) (pid code : Int) :
    ∃ i, (exec_complete st pid code).1.process_table
      = st.process_table.modify (Option.map (exec_mark_stopped code)) i := by
  unfold exec_complete
  cases h : exec_find_pid pid st.process_table with
  | none => exact ⟨st.process_table.length, by simp [List.modify_eq_self]⟩
  | some i => exact ⟨i, rfl⟩

/-- C9: exec_complete(p, c1) followed by exec_complete(p, c2) leaves the
process table and the flag as the first call alone left them; and an entry that
was running before the first call is stopped with exit code c1 after both. -/
theorem exec_complete_twice (st : exec_state) (p c1 c2 : Int) :
    (exec_complete (exec_complete st p c1).1 p c2).1 = (exec_complete st p c1).1
      ∧ ∀ i tw, exec_find_pid p st.process_table = some i →
          st.process_table[i]? = some (some tw) →
          tw.status = task_waiting_status.TWS_CONTINUE →
          (exec_complete (exec_complete st p c1).1 p c2).1.process_table[i]?
            = some (some { tw with status := task_waiting_status.TWS_STOP, code := c1 }) := by
  have first : (exec_complete (exec_complete st p c1).1 p c2).1 = (exec_complete st p c1).1 := by
    cases h : exec_find_pid p st.process_table with
    | none => simp [exec_complete, h]
    | some i =>
      have h2 : exec_find_pid p (st.process_table.modify (Option.map (exec_mark_stopped c1)) i)
          = some i := by rw [exec_find_pid_modify, h]
      simp only [exec_complete, h, h2, List.modify_modify_eq]
      congr 2
      funext s
      cases s with
      | none => rfl
      | some tw => simp [exec_mark_stopped_twice]
  refine ⟨first, ?_⟩
  intro i tw hi htw hrun
  rw [first]
  simp [exec_complete, hi, List.getElem?_modify_eq, htw, exec_mark_stopped, hrun]

theorem exec_complete_twice_witness :
    (exec_complete (exec_complete sample_exec_state 20 3).1 20 7).1
        = (exec_complete sample_exec_state 20 3).1
      ∧ (exec_complete (exec_complete sample_exec_state 20 3).1 20 7).1.process_table[1]?
        = some (some { sample_entry 20 2 with status := task_waiting_status.TWS_STOP, code := 3 }) :=
  ⟨(exec_complete_twice sample_exec_state 20 3 7).1,
    (exec_complete_twice sample_exec_state 20 3 7).2 1 (sample_entry 20 2) (by decide) (by decide)
      (by decide)⟩

theorem exec_waiter_enumerator_loop_occupied {σ : Type}
    (closure : σ → vm → CStr → task_enum_action × σ)
    (tbl : List (Option task_waiting_on_exec)) (data : σ) :
    occupied (exec_waiter_enumerator_loop closure tbl data).1 = occupied tbl := by
  induction tbl generalizing data with
  | nil => rfl
  | cons s rest ih =>
    cases s with
    | none => simp [exec_waiter_enumerator_loop, occupied] at ih ⊢; exact ih data
    | some tw =>
      simp only [exec_waiter_enumerator_loop]
      split
      · split
        · simp [occupied]
        · simp [occupied] at ih ⊢; exact ih _
      · simp [occupied] at ih ⊢; exact ih _

theorem modify_occupied (code : Int) (tbl : List (Option task_waiting_on_exec)) (i : Nat) :
    occupied (tbl.modify (Option.map (exec_mark_stopped code)) i) = occupied tbl := by
  induction tbl generalizing i with
  | nil => simp
  | cons s rest ih =>
    cases i with
    | zero => cases s <;> simp [occupied]
    | succ j =>
      rw [List.modify_succ_cons]
      simp only [occupied, List.map_cons] at ih ⊢
      rw [ih j]

theorem deal_with_child_exit_loop_killed (read_fd : Int → CStr)
    (tbl : List (Option task_waiting_on_exec)) (i : Nat) (tw : task_waiting_on_exec)
    (hi : tbl[i]? = some (some tw)) (hk : tw.status = task_waiting_status.TWS_KILL) :
    (deal_with_child_exit_loop read_fd tbl).1[i]? = some Option.none := by
  induction tbl generalizing i with
  | nil => simp at hi
  | cons s rest ih =>
    cases i with
    | zero =>
      simp at hi
      subst hi
      simp [deal_with_child_exit_loop, hk]
    | succ j =>
      simp at hi
      cases s with
      | none => simp [deal_with_child_exit_loop, ih j hi]
      | some tw2 => simp [deal_with_child_exit_loop, ih j hi]

theorem modify_killed (code : Int) (tbl : List (Option task_waiting_on_exec)) (i j : Nat)
    (tw : task_waiting_on_exec) (hi : tbl[i]? = some (some tw))
    (hk : tw.status = task_waiting_status.TWS_KILL) :
    (tbl.modify (Option.map (exec_mark_stopped code)) j)[i]? = some (some tw) := by
  by_cases hij : j = i
  · subst hij
    simp [List.getElem?_modify_eq, hi, exec_mark_stopped_of_killed code tw hk]
  · rw [List.getElem?_modify_ne _ _ hij, hi]

/-- C10 (as amended): neither the enumeration nor a completion notification
empties a slot, and a reap pass that finds the termination flag clear changes
nothing; a reap pass that finds the flag set empties the slot of every Killed
entry, and the flag is set by the completion notification of any process that
has an entry, the Killed entry's own or another. -/
theorem killed_entry_release :
    (∀ (σ : Type) (closure : σ → vm → CStr → task_enum_action × σ) (st : exec_state) (data : σ),
        occupied (exec_waiter_enumerator closure st data).1.process_table
          = occupied st.process_table)
      ∧ (∀ (st : exec_state) (pid code : Int),
        occupied (exec_complete st pid code).1.process_table = occupied st.process_table)
      ∧ (∀ (read_fd : Int → CStr) (st : exec_state), st.sigchild_interrupt = false →
        deal_with_child_exit read_fd st = (st, []))
      ∧ (∀ (read_fd : Int → CStr) (st : exec_state) (i : Nat) (tw : task_waiting_on_exec),
        st.sigchild_interrupt = true → st.process_table[i]? = some (some tw) →
        tw.status = task_waiting_status.TWS_KILL →
        (deal_with_child_exit read_fd st).1.process_table[i]? = some Option.none)
      ∧ (∀ (read_fd : Int → CStr) (st : exec_state) (i j : Nat) (tw : task_waiting_on_exec)
          (pid code : Int),
        st.process_table[i]? = some (some tw) → tw.status = task_waiting_status.TWS_KILL →
        exec_find_pid pid st.process_table = some j →
        (deal_with_child_exit read_fd (exec_complete st pid code).1).1.process_table[i]?
          = some Option.none) := by
  refine ⟨?_, ?_, ?_, ?_, ?_⟩
  · intro σ closure st data
    exact exec_waiter_enumerator_loop_occupied closure st.process_table data
  · intro st pid code
    obtain ⟨i, hi⟩ := exec_complete_table st pid code
    rw [hi, modify_occupied]
  · intro read_fd st h
    simp [deal_with_child_exit, h]
  · intro read_fd st i tw hf hi hk
    simp only [deal_with_child_exit, hf]
    exact deal_with_child_exit_loop_killed read_fd st.process_table i tw hi hk
  · intro read_fd st i j tw pid code hi hk hj
    simp only [exec_complete, hj, deal_with_child_exit]
    exact deal_with_child_exit_loop_killed read_fd _ i tw (modify_killed code _ i j tw hi hk) hk

theorem killed_entry_release_witness :
    occupied (exec_waiter_enumerator kill_first sample_exec_state ()).1.process_table
        = occupied sample_exec_state.process_table
      ∧ deal_with_child_exit (fun _ => [])
          (exec_waiter_enumerator kill_first sample_exec_state ()).1
        = ((exec_waiter_enumerator kill_first sample_exec_state ()).1, [])
      ∧ (deal_with_child_exit (fun _ => [])
          (exec_complete (exec_waiter_enumerator kill_first sample_exec_state ()).1 10 0).1).1.process_table[0]?
        = some Option.none :=
  ⟨killed_entry_release.1 Unit kill_first sample_exec_state (),
    killed_entry_release.2.2.1 (fun _ => [])
      (exec_waiter_enumerator kill_first sample_exec_state ()).1 (by decide),
    killed_entry_release.2.2.2.2 (fun _ => [])
      (exec_waiter_enumerator kill_first sample_exec_state ()).1 0 0
      { sample_entry 10 1 with status := task_waiting_status.TWS_KILL } 10 0
      (by decide) (by decide) (by decide)⟩

/-- C10 (counterexample): the entry of process 10 is flagged Killed during an
enumeration; the only completion notification is for process 20; the reap pass
that follows empties the slot of process 10 all the same. -/
theorem killed_entry_released_by_other_exit :
    (exec_waiter_enumerator kill_first sample_exec_state ()).1.process_table
        = [some { sample_entry 10 1 with status := task_waiting_status.TWS_KILL },
           some (sample_entry 20 2), Option.none]
      ∧ (exec_complete (exec_waiter_enumerator kill_first sample_exec_state ()).1 20 0).1.process_table
        = [some { sample_entry 10 1 with status := task_waiting_status.TWS_KILL },
           some { sample_entry 20 2 with status := task_waiting_status.TWS_STOP },
           Option.none]
      ∧ (deal_with_child_exit (fun _ => [])
          (exec_complete (exec_waiter_enumerator kill_first sample_exec_state ()).1 20 0).1).1.process_table
        = [Option.none, Option.none, Option.none] := by
  decide

/-! ## The object database: basic facts -/

theorem find_object_some (db : DB) (o : Objid) (x : Object)
    (h : dbpriv_find_object db o = some x) :
    0 ≤ o ∧ o.toNat < db.objects.length ∧ db.objects[o.toNat]? = some (some x) := by
  unfold dbpriv_find_object at h
  split at h
  · cases h
  · rename_i hlt
    have h0 : 0 ≤ o := Int.not_lt.mp hlt
    rw [List.getD_eq_getElem?_getD] at h
    cases hx : db.objects[o.toNat]? with
    | none => rw [hx] at h; cases h
    | some y =>
      rw [hx] at h
      simp at h
      subst h
      have := (List.getElem?_eq_some_iff.mp hx).1
      exact ⟨h0, this, rfl⟩

theorem find_object_of_getElem (db : DB) (o : Objid) (h0 : 0 ≤ o) :
    dbpriv_find_object db o = (db.objects[o.toNat]?).getD Option.none := by
  unfold dbpriv_find_object
  rw [if_neg (Int.not_lt.mpr h0), List.getD_eq_getElem?_getD]

theorem valid_iff_find (db : DB) (o : Objid) :
    valid db o = true ↔ ∃ x, dbpriv_find_object db o = some x := by
  unfold valid
  exact Option.isSome_iff_exists

theorem valid_nothing (db : DB) : valid db NOTHING = false := by
  simp [valid, dbpriv_find_object, NOTHING]

theorem valid_bounds (db : DB) (o : Objid) (h : valid db o = true) :
    0 ≤ o ∧ o.toNat < db.objects.length := by
  obtain ⟨x, hx⟩ := (valid_iff_find db o).mp h
  exact ⟨(find_object_some db o x hx).1, (find_object_some db o x hx).2.1⟩

theorem update_object_objects_length (db : DB) (oid : Objid) (f : Object → Object) :
    (dbpriv_update_object db oid f).objects.length = db.objects.length := by
  unfold dbpriv_update_object
  split <;> simp

theorem update_object_anons (db : DB) (oid : Objid) (f : Object → Object) :
    (dbpriv_update_object db oid f).anons = db.anons := by
  unfold dbpriv_update_object
  split <;> rfl

theorem find_update_eq (db : DB) (oid : Objid) (f : Object → Object) (x : Object)
    (h : dbpriv_find_object db oid = some x) :
    dbpriv_find_object (dbpriv_update_object db oid f) oid = some (f x) := by
  obtain ⟨h0, hlt, _⟩ := find_object_some db oid x h
  rw [find_object_of_getElem _ _ h0]
  simp [dbpriv_update_object, h, List.getElem?_set, hlt]

theorem find_update_ne (db : DB) (oid o : Objid) (f : Object → Object) (hne : o ≠ oid) :
    dbpriv_find_object (dbpriv_update_object db oid f) o = dbpriv_find_object db o := by
  unfold dbpriv_update_object
  cases h : dbpriv_find_object db oid with
  | none => rfl
  | some x =>
    obtain ⟨h0, hlt, _⟩ := find_object_some db oid x h
    by_cases ho : o < 0
    · simp [dbpriv_find_object, ho]
    · have ho0 : 0 ≤ o := Int.not_lt.mp ho
      rw [find_object_of_getElem _ _ ho0, find_object_of_getElem _ _ ho0]
      have : oid.toNat ≠ o.toNat := by
        intro heq
        apply hne
        rw [← Int.toNat_of_nonneg ho0, ← Int.toNat_of_nonneg h0, heq]
      simp [List.getElem?_set, this]

theorem find_update (db : DB) (oid o : Objid) (f : Object → Object) :
    dbpriv_find_object (dbpriv_update_object db oid f) o
      = if o = oid then (dbpriv_find_object db oid).map f else dbpriv_find_object db o := by
  by_cases h : o = oid
  · subst h
    rw [if_pos rfl]
    cases hx : dbpriv_find_object db o with
    | none => simp [dbpriv_update_object, hx]
    | some x => rw [find_update_eq db o f x hx]; rfl
  · rw [if_neg h, find_update_ne db oid o f h]

theorem valid_update (db : DB) (oid o : Objid) (f : Object → Object) :
    valid (dbpriv_update_object db oid f) o = valid db o := by
  unfold valid
  rw [find_update]
  split
  · rename_i h
    subst h
    cases dbpriv_find_object db o <;> rfl
  · rfl

/-! ## recycle and create: the early returns -/

/-- C3: when the object handed to recycle is not valid, or has its recycled
flag set, step 1 of bf_recycle returns E_INVARG for every caller, leaves the
database (flags and quotas included) as it was and calls no verb. -/
theorem bf_recycle_recycled_invarg (env : environment) (db : DB) (value : Var) (progr : Objid)
    (data : Var) (hobj : (value.nth 1).is_object = true)
    (h : is_valid db (value.nth 1) = false
      ∨ db_object_has_flag2 db (value.nth 1) db_object_flag.FLAG_RECYCLED = true) :
    bf_recycle env db value progr 1 data
      = .ok { pack := make_error_pack error.E_INVARG, db := db, calls := [] } := by
  unfold bf_recycle
  rcases h with h | h <;> simp [hobj, h]

theorem bf_recycle_recycled_invarg_witness :
    bf_recycle sample_env
        (db_set_object_flag2 sample_db (Var.obj 2) db_object_flag.FLAG_RECYCLED)
        (Var.list [Var.obj 2]) 0 1 Var.none
      = .ok { pack := make_error_pack error.E_INVARG,
              db := db_set_object_flag2 sample_db (Var.obj 2) db_object_flag.FLAG_RECYCLED,
              calls := [] } :=
  bf_recycle_recycled_invarg sample_env
    (db_set_object_flag2 sample_db (Var.obj 2) db_object_flag.FLAG_RECYCLED)
    (Var.list [Var.obj 2]) 0 Var.none (by decide) (Or.inr (by decide))

/-- C5: when a create call has passed the type, validity and permission tests,
its owner is valid and decr_quota fails for that owner, bf_create returns
E_QUOTA, leaves the database as it was (no object created, last used object
number, parents and owners unchanged) and calls no verb. -/
theorem bf_create_quota_exhausted (env : environment) (db : DB) (value : Var) (progr : Objid)
    (data : Var) (owner : Objid) (anonymous : Bool) (init : Nat)
    (hchecks : bf_create_checks db value progr = .ok (owner, anonymous, init))
    (hvalid : valid db owner = true) (hquota : (decr_quota db owner).1 = false) :
    bf_create env db value progr 1 data
        = { pack := make_error_pack error.E_QUOTA, db := db, calls := [] }
      ∧ db_last_used_objid (bf_create env db value progr 1 data).db = db_last_used_objid db := by
  have hdb : (decr_quota db owner).2 = db := by
    unfold decr_quota at hquota ⊢
    split at hquota
    · split at hquota
      · rename_i h1 h2
        simp [h2]
      · cases hquota
    · cases hquota
  have h1 : bf_create env db value progr 1 data
      = { pack := make_error_pack error.E_QUOTA, db := db, calls := [] } := by
    simp [bf_create, hchecks, bf_create_body, hvalid, hquota, hdb]
  exact ⟨h1, by rw [h1]⟩

theorem bf_create_quota_exhausted_witness :
    bf_create sample_env sample_db (Var.list [Var.obj 1]) 1 1 Var.none
        = { pack := make_error_pack error.E_QUOTA, db := sample_db, calls := [] }
      ∧ db_last_used_objid (bf_create sample_env sample_db (Var.list [Var.obj 1]) 1 1 Var.none).db
        = db_last_used_objid sample_db :=
  bf_create_quota_exhausted sample_env sample_db (Var.list [Var.obj 1]) 1 Var.none 1 false 0
    rfl (by decide) (by decide)

/-! ## create: quota accounting -/

theorem drop_unused_slots_getD (n : Nat) (l : List (Option Object)) (i : Nat) (h : i < n) :
    (drop_unused_slots n l).getD i Option.none = l.getD i Option.none := by
  induction l generalizing n i with
  | nil => rfl
  | cons x xs ih =>
    have hn : (0 == n) = false := by
      cases n with
      | zero => omega
      | succ m => rfl
    cases i with
    | zero =>
      unfold drop_unused_slots
      split
      · simp [hn]
      · rfl
    | succ j =>
      have hj : j < n - 1 := by omega
      have := ih (n - 1) j hj
      unfold drop_unused_slots
      split
      · rename_i heq
        rw [heq] at this
        simp [hn] at this ⊢
        exact this
      · rename_i y ys heq
        rw [heq] at this
        simpa using this

theorem decr_quota_ok (db : DB) (owner : Objid) (x : Object)
    (hx : dbpriv_find_object db owner = some x) (h : (decr_quota db owner).1 = true) :
    (decr_quota db owner).2
      = dbpriv_update_object db owner (fun o => { o with quota := o.quota - 1 }) := by
  unfold decr_quota at h ⊢
  rw [hx] at h ⊢
  simp only at h ⊢
  split at h
  · cases h
  · rename_i hq
    rw [if_neg hq]

theorem find_create_old (db : DB) (o : Objid) (x : Object)
    (hx : dbpriv_find_object db o = some x) :
    dbpriv_find_object (db_create_object db).2 o = some x := by
  obtain ⟨h0, hlt, hget⟩ := find_object_some db o x hx
  rw [find_object_of_getElem _ _ h0]
  simp [db_create_object, List.getElem?_append_left hlt, hget]

theorem find_create_new (db : DB) :
    dbpriv_find_object (db_create_object db).2 (db_create_object db).1 = some new_object := by
  have h0 : (0 : Int) ≤ (db.objects.length : Int) := Int.ofNat_nonneg _
  rw [show (db_create_object db).1 = (db.objects.length : Int) from rfl,
    find_object_of_getElem _ _ h0]
  simp [db_create_object]

theorem find_destroy_ne (db : DB) (oid o : Objid) (hne : o ≠ oid) :
    dbpriv_find_object (db_destroy_object db oid) o = dbpriv_find_object db o := by
  unfold db_destroy_object
  cases h : dbpriv_find_object db oid with
  | none => rfl
  | some x =>
    obtain ⟨h0, hlt, _⟩ := find_object_some db oid x h
    by_cases ho : o < 0
    · simp [dbpriv_find_object, ho]
    · have ho0 : 0 ≤ o := Int.not_lt.mp ho
      rw [find_object_of_getElem _ _ ho0, find_object_of_getElem _ _ ho0]
      have : oid.toNat ≠ o.toNat := by
        intro heq
        apply hne
        rw [← Int.toNat_of_nonneg ho0, ← Int.toNat_of_nonneg h0, heq]
      simp [List.getElem?_set, this]

theorem find_set_last_used (db : DB) (last o : Int) (h0 : 0 ≤ o) (hlt : o ≤ last) :
    dbpriv_find_object (db_set_last_used_objid db last) o = dbpriv_find_object db o := by
  unfold dbpriv_find_object
  rw [if_neg (Int.not_lt.mpr h0), if_neg (Int.not_lt.mpr h0)]
  apply drop_unused_slots_getD
  show Int.toNat o < Int.toNat (last + 1)
  omega

theorem find_make_anonymous (db : DB) (oid last o : Objid) (hne : o ≠ oid) (h0 : 0 ≤ o)
    (hlt : o ≤ last) :
    dbpriv_find_object (db_make_anonymous db oid last).2 o = dbpriv_find_object db o := by
  have : dbpriv_find_object (db_make_anonymous db oid last).2 o
      = dbpriv_find_object (db_set_last_used_objid (db_destroy_object db oid) last) o := rfl
  rw [this, find_set_last_used _ _ _ h0 hlt, find_destroy_ne _ _ _ hne]

theorem le_last_used (db : DB) (o : Int) (h0 : 0 ≤ o) (h : o.toNat < db.objects.length) :
    o ≤ db_last_used_objid db := by
  show o ≤ (db.objects.length : Int) - 1
  omega

theorem ne_of_toNat_lt (o : Int) (n : Nat) (h : o.toNat < n) : o ≠ (n : Int) := by
  omega

theorem location_nothing (db : DB) : db_object_location db NOTHING = NOTHING := by
  simp [db_object_location, dbpriv_find_object, NOTHING]

theorem location_of_invalid (db : DB) (o : Objid) (h : valid db o = false) :
    db_object_location db o = NOTHING := by
  unfold valid at h
  unfold db_object_location
  cases hx : dbpriv_find_object db o with
  | none => rfl
  | some x => rw [hx] at h; cases h

theorem iterate_location_nothing (db : DB) (n : Nat) :
    (db_object_location db)^[n] NOTHING = NOTHING :=
  Function.iterate_fixed (location_nothing db) n

theorem valid_change_location (db : DB) (what where_ o : Objid) :
    valid (db_change_location db what where_) o = valid db o :=
  valid_update db what o _

theorem change_location_length (db : DB) (what where_ : Objid) :
    (db_change_location db what where_).objects.length = db.objects.length :=
  update_object_objects_length db what _

theorem location_change_location (db : DB) (what where_ o : Objid) (hw : valid db what = true) :
    db_object_location (db_change_location db what where_) o
      = if o = what then where_ else db_object_location db o := by
  obtain ⟨x, hx⟩ := (valid_iff_find db what).mp hw
  unfold db_object_location db_change_location
  rw [find_update]
  by_cases h : o = what
  · subst h
    simp [hx]
  · simp [h]

theorem hierarchy_loop_false (db : DB) (what : Objid) (hw : what ≠ NOTHING) (fuel : Nat)
    (oid : Objid) (h : hierarchy_loop db what fuel oid = some false) :
    ∀ n, (db_object_location db)^[n] oid ≠ what := by
  induction fuel generalizing oid with
  | zero => simp [hierarchy_loop] at h
  | succ fuel ih =>
    unfold hierarchy_loop at h
    by_cases h1 : oid = NOTHING
    · intro n
      rw [h1, iterate_location_nothing]
      exact fun e => hw e.symm
    · rw [if_neg h1] at h
      by_cases h2 : oid = what
      · rw [if_pos h2] at h
        cases h
      · rw [if_neg h2] at h
        intro n
        cases n with
        | zero => exact h2
        | succ m =>
          rw [Function.iterate_succ_apply]
          exact ih _ h m

theorem nodup_valid_length_le (db : DB) (visited : List Objid) (hn : visited.Nodup)
    (hv : ∀ v ∈ visited, valid db v = true) : visited.length ≤ db.objects.length := by
  have h1 : (visited.map Int.toNat).Nodup := by
    apply List.Nodup.map_on _ hn
    intro a ha b hb hab
    have h0a := (valid_bounds db a (hv a ha)).1
    have h0b := (valid_bounds db b (hv b hb)).1
    rw [← Int.toNat_of_nonneg h0a, ← Int.toNat_of_nonneg h0b, hab]
  have h2 : visited.map Int.toNat ⊆ List.range db.objects.length := by
    intro i hi
    obtain ⟨a, ha, rfl⟩ := List.mem_map.mp hi
    exact List.mem_range.mpr (valid_bounds db a (hv a ha)).2
  have h3 := (List.subperm_of_subset h1 h2).length_le
  simpa using h3

theorem hierarchy_loop_fuel (db : DB) (what : Objid) (hwf : locations_wf db)
    (hac : location_acyclic db) (fuel : Nat) (visited : List Objid) (oid : Objid)
    (hn : visited.Nodup)
    (hv : ∀ v ∈ visited, valid db v = true ∧ ∃ k, 0 < k ∧ (db_object_location db)^[k] v = oid)
    (ho : oid = NOTHING ∨ valid db oid = true)
    (hlen : db.objects.length + 1 ≤ visited.length + fuel) :
    hierarchy_loop db what fuel oid ≠ Option.none := by
  induction fuel generalizing visited oid with
  | zero =>
    exfalso
    have := nodup_valid_length_le db visited hn (fun v h => (hv v h).1)
    omega
  | succ fuel ih =>
    unfold hierarchy_loop
    by_cases h1 : oid = NOTHING
    · rw [if_pos h1]; exact fun e => by cases e
    · rw [if_neg h1]
      by_cases h2 : oid = what
      · rw [if_pos h2]; exact fun e => by cases e
      · rw [if_neg h2]
        have hvalid : valid db oid = true := ho.resolve_left h1
        apply ih (oid :: visited)
        · refine List.nodup_cons.mpr ⟨?_, hn⟩
          intro hmem
          obtain ⟨_, k, hk, hiter⟩ := hv oid hmem
          exact hac oid k hvalid hk hiter
        · intro v hvmem
          rcases List.mem_cons.mp hvmem with rfl | hvmem
          · exact ⟨hvalid, 1, Nat.one_pos, rfl⟩
          · obtain ⟨hvv, k, hk, hiter⟩ := hv v hvmem
            exact ⟨hvv, k + 1, Nat.succ_pos k, by rw [Function.iterate_succ_apply', hiter]⟩
        · exact hwf oid hvalid
        · simp only [List.length_cons]
          omega

theorem hierarchy_loop_terminates (db : DB) (what where_ : Objid) (hwf : locations_wf db)
    (hac : location_acyclic db) (ho : where_ = NOTHING ∨ valid db where_ = true) :
    hierarchy_loop db what (db.objects.length + 1) where_ ≠ Option.none :=
  hierarchy_loop_fuel db what hwf hac _ [] where_ List.nodup_nil (fun v h => by cases h) ho
    (by simp)

theorem iterate_change_location (db : DB) (what where_ : Objid) (hw : valid db what = true)
    (m : Nat) (x : Objid) :
    (db_object_location (db_change_location db what where_))^[m] x
        = (db_object_location db)^[m] x
      ∨ ∃ k, k < m ∧ (db_object_location (db_change_location db what where_))^[k] x = what := by
  induction m generalizing x with
  | zero => left; rfl
  | succ m ih =>
    by_cases hx : x = what
    · right; exact ⟨0, Nat.succ_pos m, hx⟩
    · have hstep : db_object_location (db_change_location db what where_) x
          = db_object_location db x := by
        rw [location_change_location db what where_ x hw, if_neg hx]
      rcases ih (db_object_location db x) with h | ⟨k, hk, h⟩
      · left
        rw [Function.iterate_succ_apply, Function.iterate_succ_apply, hstep, h]
      · right
        exact ⟨k + 1, Nat.succ_lt_succ hk, by rw [Function.iterate_succ_apply, hstep, h]⟩

theorem reach_before_change (db : DB) (what where_ : Objid) (hw : valid db what = true)
    (m : Nat) (x : Objid)
    (h : (db_object_location (db_change_location db what where_))^[m] x = what) :
    ∃ j, (db_object_location db)^[j] x = what := by
  induction m generalizing x with
  | zero => exact ⟨0, h⟩
  | succ m ih =>
    by_cases hx : x = what
    · exact ⟨0, hx⟩
    · have hstep : db_object_location (db_change_location db what where_) x
          = db_object_location db x := by
        rw [location_change_location db what where_ x hw, if_neg hx]
      rw [Function.iterate_succ_apply, hstep] at h
      obtain ⟨j, hj⟩ := ih _ h
      exact ⟨j + 1, by rw [Function.iterate_succ_apply, hj]⟩

theorem change_location_wf (db : DB) (what where_ : Objid) (hwf : locations_wf db)
    (hw : valid db what = true) (ho : where_ = NOTHING ∨ valid db where_ = true) :
    locations_wf (db_change_location db what where_) := by
  intro o hvo
  rw [valid_change_location] at hvo
  rw [location_change_location db what where_ o hw]
  by_cases h : o = what
  · rw [if_pos h]
    rcases ho with ho | ho
    · left; exact ho
    · right; rw [valid_change_location]; exact ho
  · rw [if_neg h]
    rcases hwf o hvo with h1 | h1
    · left; exact h1
    · right; rw [valid_change_location]; exact h1

theorem change_location_acyclic (db : DB) (what where_ : Objid) (hac : location_acyclic db)
    (hw : valid db what = true) (hwalk : ∀ n, (db_object_location db)^[n] where_ ≠ what) :
    location_acyclic (db_change_location db what where_) := by
  intro o n hvo hn hcyc
  rw [valid_change_location] at hvo
  rcases iterate_change_location db what where_ hw n o with h | ⟨k, _, hk⟩
  · rw [h] at hcyc
    exact hac o n hvo hn hcyc
  · -- the cycle passes through `what`
    have hwcyc : (db_object_location (db_change_location db what where_))^[n] what = what := by
      have h1 : (db_object_location (db_change_location db what where_))^[n]
          ((db_object_location (db_change_location db what where_))^[k] o)
          = (db_object_location (db_change_location db what where_))^[k] o := by
        rw [← Function.iterate_add_apply, Nat.add_comm, Function.iterate_add_apply, hcyc]
      rw [hk] at h1
      exact h1
    obtain ⟨m, rfl⟩ : ∃ m, n = m + 1 := ⟨n - 1, by omega⟩
    rw [Function.iterate_succ_apply, location_change_location db what where_ what hw,
      if_pos rfl] at hwcyc
    obtain ⟨j, hj⟩ := reach_before_change db what where_ hw m where_ hwcyc
    exact hwalk j hj

theorem acyclic_of_reaches_nothing (db : DB) (o : Objid) (hv : valid db o = true) (k : Nat)
    (hk : (db_object_location db)^[k] o = NOTHING) (n : Nat) (hn : 0 < n) :
    (db_object_location db)^[n] o ≠ o := by
  intro hcyc
  have hper : (db_object_location db)^[n * k] o = o := by
    rw [Function.iterate_mul]
    exact Function.iterate_fixed hcyc k
  have hle : k ≤ n * k := Nat.le_mul_of_pos_left k hn
  obtain ⟨d, hd⟩ := Nat.exists_eq_add_of_le hle
  rw [hd, Nat.add_comm, Function.iterate_add_apply, hk, iterate_location_nothing] at hper
  rw [← hper, valid_nothing] at hv
  cases hv

theorem mem_all_objids (db : DB) (o : Objid) (h : valid db o = true) : o ∈ db_all_objids db := by
  obtain ⟨h0, hlt⟩ := valid_bounds db o h
  unfold db_all_objids
  refine List.mem_map.mpr ⟨o.toNat, List.mem_range.mpr hlt, ?_⟩
  exact Int.toNat_of_nonneg h0

theorem check_locations_sound (db : DB) (h : check_locations db = true) :
    locations_wf db ∧ location_acyclic db := by
  unfold check_locations at h
  rw [List.all_eq_true] at h
  constructor
  · intro o hv
    have := h o (mem_all_objids db o hv)
    simp [hv] at this
    exact this.2
  · intro o n hv hn
    have := h o (mem_all_objids db o hv)
    simp [hv] at this
    exact acyclic_of_reaches_nothing db o hv _ this.1 n hn

/-! ## move: the location relation stays acyclic -/

theorem do_move_case3_db (env : environment) (db : DB) (calls : List verb_call)
    (data : bf_move_data) : (do_move_case3 env db calls data).db = db := by
  unfold do_move_case3 do_move_case4
  simp only []
  split
  · split
    · rfl
    · split <;> rfl
  · rfl

theorem do_move_accepts_decided_db (env : environment) (db : DB) (calls : List verb_call)
    (progr : Objid) (accepts : Bool) (data : bf_move_data) (hwf : locations_wf db)
    (hac : location_acyclic db) :
    ∃ out, do_move_accepts_decided env db calls progr accepts data = .ok out
      ∧ (out.db = db
        ∨ (out.db = db_change_location db data.what data.where_
          ∧ valid db data.what = true
          ∧ (data.where_ = NOTHING ∨ valid db data.where_ = true)
          ∧ hierarchy_loop db data.what (db.objects.length + 1) data.where_ = some false)) := by
  unfold do_move_accepts_decided
  simp only []
  split
  · exact ⟨_, rfl, Or.inl rfl⟩
  split
  · exact ⟨_, rfl, Or.inl rfl⟩
  rename_i hcond
  simp only [Bool.or_eq_true, Bool.not_eq_true', Bool.and_eq_true, bne_iff_ne, ne_eq,
    beq_iff_eq, not_or, not_and, Bool.not_eq_false, Decidable.not_not] at hcond
  obtain ⟨⟨hwhat, hwhere⟩, _⟩ := hcond
  have hwhere2 : data.where_ = NOTHING ∨ valid db data.where_ = true := by
    by_cases h : data.where_ = NOTHING
    · exact Or.inl h
    · exact Or.inr (hwhere h)
  have hterm := hierarchy_loop_terminates db data.what data.where_ hwf hac hwhere2
  split
  · rename_i heq
    exact absurd heq hterm
  · exact ⟨_, rfl, Or.inl rfl⟩
  · rename_i heq
    split
    · exact ⟨_, rfl, Or.inr ⟨rfl, hwhat, hwhere2, heq⟩⟩
    · split
      · exact ⟨_, rfl, Or.inr ⟨rfl, hwhat, hwhere2, heq⟩⟩
      · exact ⟨_, rfl, Or.inr ⟨do_move_case3_db _ _ _ _, hwhat, hwhere2, heq⟩⟩

theorem do_move_db (env : environment) (db : DB) (value : Var) (progr : Objid) (next : Nat)
    (data : bf_move_data) (hwf : locations_wf db) (hac : location_acyclic db)
    (hnext : 1 ≤ next ∧ next ≤ 4) :
    ∃ out, do_move env db value progr next data = .ok out
      ∧ (out.db = db
        ∨ (out.db = db_change_location db data.what data.where_
          ∧ valid db data.what = true
          ∧ (data.where_ = NOTHING ∨ valid db data.where_ = true)
          ∧ hierarchy_loop db data.what (db.objects.length + 1) data.where_ = some false)) := by
  obtain ⟨h1, h4⟩ := hnext
  have hcases : next = 1 ∨ next = 2 ∨ next = 3 ∨ next = 4 := by omega
  rcases hcases with rfl | rfl | rfl | rfl
  · unfold do_move
    simp only []
    split
    · exact ⟨_, rfl, Or.inl rfl⟩
    split
    · exact ⟨_, rfl, Or.inl rfl⟩
    split
    · exact do_move_accepts_decided_db env db _ progr _ data hwf hac
    split
    · exact ⟨_, rfl, Or.inl rfl⟩
    split
    · exact do_move_accepts_decided_db env db _ progr _ data hwf hac
    · exact ⟨_, rfl, Or.inl rfl⟩
  · exact do_move_accepts_decided_db env db _ progr _ data hwf hac
  · exact ⟨_, rfl, Or.inl (do_move_case3_db _ _ _ _)⟩
  · exact ⟨_, rfl, Or.inl rfl⟩

/-- C1: in a database whose location relation is well formed and acyclic,
every entry of do_move at step 1, 2, 3 or 4, for any caller, any delivered
value and any outcome of the nested calls, returns with the location relation
still well formed and acyclic; the database it leaves is either the one it was
given or that one after db_change_location(what, where), and the latter only
when the walk from `where` up the location chain has reached NOTHING without
meeting `what`. -/
theorem do_move_preserves_acyclic (env : environment) (db : DB) (value : Var) (progr : Objid)
    (next : Nat) (data : bf_move_data) (hwf : locations_wf db) (hac : location_acyclic db)
    (hnext : 1 ≤ next ∧ next ≤ 4) :
    ∃ out, do_move env db value progr next data = .ok out
      ∧ locations_wf out.db ∧ location_acyclic out.db
      ∧ (out.db = db
        ∨ (out.db = db_change_location db data.what data.where_
          ∧ hierarchy_loop db data.what (db.objects.length + 1) data.where_ = some false)) := by
  obtain ⟨out, hout, hdb⟩ := do_move_db env db value progr next data hwf hac hnext
  refine ⟨out, hout, ?_⟩
  rcases hdb with hdb | ⟨hdb, hwhat, hwhere, hloop⟩
  · rw [hdb]
    exact ⟨hwf, hac, Or.inl rfl⟩
  · have hne : data.what ≠ NOTHING := by
      intro h
      rw [h, valid_nothing] at hwhat
      cases hwhat
    have hwalk := hierarchy_loop_false db data.what hne _ _ hloop
    rw [hdb]
    exact ⟨change_location_wf db _ _ hwf hwhat hwhere,
      change_location_acyclic db _ _ hac hwhat hwalk, Or.inr ⟨rfl, hloop⟩⟩

theorem do_move_preserves_acyclic_witness :
    ∃ out, do_move sample_env sample_db (Var.int 0) 0 1 { what := 2, where_ := 0 } = .ok out
      ∧ locations_wf out.db ∧ location_acyclic out.db
      ∧ (out.db = sample_db
        ∨ (out.db = db_change_location sample_db 2 0
          ∧ hierarchy_loop sample_db 2 (sample_db.objects.length + 1) 0 = some false)) :=
  do_move_preserves_acyclic sample_env sample_db (Var.int 0) 0 1 { what := 2, where_ := 0 }
    (check_locations_sound sample_db (by decide)).1
    (check_locations_sound sample_db (by decide)).2 (by decide)

/-! ## move: a destination inside the object moved -/

theorem hierarchy_loop_true (db : DB) (what where_ : Objid) (hwf : locations_wf db)
    (hac : location_acyclic db) (hwhat : valid db what = true) (hwhere : valid db where_ = true)
    (hin : contained_in db where_ what) :
    hierarchy_loop db what (db.objects.length + 1) where_ = some true := by
  have hne : what ≠ NOTHING := by
    intro h
    rw [h, valid_nothing] at hwhat
    cases hwhat
  have hterm := hierarchy_loop_terminates db what where_ hwf hac (Or.inr hwhere)
  cases hl : hierarchy_loop db what (db.objects.length + 1) where_ with
  | none => exact absurd hl hterm
  | some b =>
    cases b with
    | true => rfl
    | false =>
      obtain ⟨n, hn⟩ := hin
      exact absurd hn (hierarchy_loop_false db what hne _ _ hl n)

theorem location_ne_of_contained (db : DB) (what where_ : Objid) (hac : location_acyclic db)
    (hwhat : valid db what = true) (hin : contained_in db where_ what) :
    db_object_location db what ≠ where_ := by
  intro h
  obtain ⟨n, hn⟩ := hin
  apply hac what (n + 1) hwhat (Nat.succ_pos n)
  rw [Function.iterate_succ_apply, h, hn]

theorem do_move_accepts_decided_contained (env : environment) (db : DB)
    (calls : List verb_call) (progr : Objid) (accepts : Bool) (data : bf_move_data)
    (hwf : locations_wf db) (hac : location_acyclic db) (hwhat : valid db data.what = true)
    (hwhere : valid db data.where_ = true) (hin : contained_in db data.where_ data.what) :
    do_move_accepts_decided env db calls progr accepts data
      = .ok { pack := if (!is_wizard db progr && accepts == false) = true
                then make_error_pack error.E_NACC else make_error_pack error.E_RECMOVE,
              db := db, calls := calls } := by
  have hloop := hierarchy_loop_true db _ _ hwf hac hwhat hwhere hin
  have hloc := location_ne_of_contained db _ _ hac hwhat hin
  unfold do_move_accepts_decided
  simp only []
  split
  · rfl
  · have hcond : (!valid db data.what || (data.where_ != NOTHING && !valid db data.where_)
        || db_object_location db data.what == data.where_) = false := by
      simp [hwhat, hwhere, hloc]
    rw [hcond, hloop]
    rfl

/-- C2 (as amended): let `what` and `where` be valid, `where` being `what`
itself or contained in it, in a database whose location relation is well
formed and acyclic.  Then no entry of do_move at step 1 or 2 changes the
database.  At step 2 the result is E_RECMOVE when the caller is a wizard or the
value delivered by accept is true, and E_NACC otherwise.  At step 1 the result
is E_PERM when the caller does not control `what`; otherwise a request to call
accept; or, when `where` has no accept verb, E_RECMOVE for a wizard and E_NACC
for anyone else; or the error the accept call reported. -/
theorem do_move_into_own_contents (env : environment) (db : DB) (value : Var) (progr : Objid)
    (data : bf_move_data) (hwf : locations_wf db) (hac : location_acyclic db)
    (hwhat : valid db data.what = true) (hwhere : valid db data.where_ = true)
    (hin : contained_in db data.where_ data.what) :
    ((is_wizard db progr = true ∨ is_true value = true) →
        do_move env db value progr 2 data
          = .ok { pack := make_error_pack error.E_RECMOVE, db := db, calls := [] })
      ∧ (is_wizard db progr = false → is_true value = false →
        do_move env db value progr 2 data
          = .ok { pack := make_error_pack error.E_NACC, db := db, calls := [] })
      ∧ ∃ out, do_move env db value progr 1 data = .ok out ∧ out.db = db
        ∧ ((controls db progr data.what = false ∧ out.pack = make_error_pack error.E_PERM)
          ∨ (controls db progr data.what = true
            ∧ ((env.call_verb db data.where_ "accept" (Var.obj data.where_)
                  (make_arglist data.what) = error.E_NONE
                ∧ out.pack = make_call_pack 2 data)
              ∨ (env.call_verb db data.where_ "accept" (Var.obj data.where_)
                  (make_arglist data.what) = error.E_VERBNF
                ∧ is_wizard db progr = true ∧ out.pack = make_error_pack error.E_RECMOVE)
              ∨ (env.call_verb db data.where_ "accept" (Var.obj data.where_)
                  (make_arglist data.what) = error.E_VERBNF
                ∧ is_wizard db progr = false ∧ out.pack = make_error_pack error.E_NACC)
              ∨ (env.call_verb db data.where_ "accept" (Var.obj data.where_)
                  (make_arglist data.what) ≠ error.E_NONE
                ∧ env.call_verb db data.where_ "accept" (Var.obj data.where_)
                  (make_arglist data.what) ≠ error.E_VERBNF
                ∧ out.pack = make_error_pack (env.call_verb db data.where_ "accept"
                  (Var.obj data.where_) (make_arglist data.what)))))) := by
  have hne : data.where_ ≠ NOTHING := by
    intro h
    rw [h, valid_nothing] at hwhere
    cases hwhere
  refine ⟨?_, ?_, ?_⟩
  · intro h
    have h2 : do_move env db value progr 2 data
        = do_move_accepts_decided env db [] progr (is_true value) data := rfl
    rw [h2, do_move_accepts_decided_contained env db [] progr _ data hwf hac hwhat hwhere hin]
    rcases h with h | h <;> simp [h]
  · intro h1 h2
    have h3 : do_move env db value progr 2 data
        = do_move_accepts_decided env db [] progr (is_true value) data := rfl
    rw [h3, do_move_accepts_decided_contained env db [] progr _ data hwf hac hwhat hwhere hin]
    simp [h1, h2]
  · unfold do_move
    simp only [hwhat, hwhere, Bool.not_true, Bool.false_and, Bool.or_self, Bool.false_eq_true,
      if_false]
    by_cases hc : controls db progr data.what = true
    swap
    · have hc2 : controls db progr data.what = false := by simpa using hc
      simp only [hc2, Bool.not_false, if_true]
      exact ⟨_, rfl, rfl, Or.inl ⟨trivial, rfl⟩⟩
    simp only [hc, Bool.not_true, Bool.false_eq_true, if_false]
    have hne2 : (data.where_ == NOTHING) = false := by simpa using hne
    simp only [hne2, Bool.false_eq_true, if_false]
    by_cases he : env.call_verb db data.where_ "accept" (Var.obj data.where_)
        (make_arglist data.what) = error.E_NONE
    · simp only [he, if_true]
      exact ⟨_, rfl, rfl, Or.inr ⟨trivial, Or.inl ⟨trivial, rfl⟩⟩⟩
    · simp only [he, if_false]
      by_cases hv : env.call_verb db data.where_ "accept" (Var.obj data.where_)
          (make_arglist data.what) = error.E_VERBNF
      · simp only [hv, if_true]
        rw [do_move_accepts_decided_contained env db _ progr _ data hwf hac hwhat hwhere hin]
        by_cases hw : is_wizard db progr = true
        · refine ⟨_, rfl, rfl, Or.inr ⟨trivial, Or.inr (Or.inl ⟨trivial, hw, ?_⟩)⟩⟩
          simp [hw]
        · have hw2 : is_wizard db progr = false := by simpa using hw
          refine ⟨_, rfl, rfl, Or.inr ⟨trivial, Or.inr (Or.inr (Or.inl ⟨trivial, hw2, ?_⟩))⟩⟩
          simp [hw2]
      · simp only [hv, if_false]
        exact ⟨_, rfl, rfl, Or.inr ⟨trivial, Or.inr (Or.inr (Or.inr ⟨he, hv, rfl⟩))⟩⟩

theorem do_move_into_own_contents_witness :
    ((is_wizard sample_db 0 = true ∨ is_true (Var.int 1) = true) →
        do_move sample_env sample_db (Var.int 1) 0 2 { what := 1, where_ := 2 }
          = .ok { pack := make_error_pack error.E_RECMOVE, db := sample_db, calls := [] })
      ∧ (is_wizard sample_db 0 = false → is_true (Var.int 1) = false →
        do_move sample_env sample_db (Var.int 1) 0 2 { what := 1, where_ := 2 }
          = .ok { pack := make_error_pack error.E_NACC, db := sample_db, calls := [] })
      ∧ ∃ out, do_move sample_env sample_db (Var.int 1) 0 1 { what := 1, where_ := 2 } = .ok out
        ∧ out.db = sample_db
        ∧ ((controls sample_db 0 1 = false ∧ out.pack = make_error_pack error.E_PERM)
          ∨ (controls sample_db 0 1 = true
            ∧ ((sample_env.call_verb sample_db 2 "accept" (Var.obj 2) (make_arglist 1)
                  = error.E_NONE
                ∧ out.pack = make_call_pack 2 { what := 1, where_ := 2 })
              ∨ (sample_env.call_verb sample_db 2 "accept" (Var.obj 2) (make_arglist 1)
                  = error.E_VERBNF
                ∧ is_wizard sample_db 0 = true ∧ out.pack = make_error_pack error.E_RECMOVE)
              ∨ (sample_env.call_verb sample_db 2 "accept" (Var.obj 2) (make_arglist 1)
                  = error.E_VERBNF
                ∧ is_wizard sample_db 0 = false ∧ out.pack = make_error_pack error.E_NACC)
              ∨ (sample_env.call_verb sample_db 2 "accept" (Var.obj 2) (make_arglist 1)
                  ≠ error.E_NONE
                ∧ sample_env.call_verb sample_db 2 "accept" (Var.obj 2) (make_arglist 1)
                  ≠ error.E_VERBNF
                ∧ out.pack = make_error_pack (sample_env.call_verb sample_db 2 "accept"
                  (Var.obj 2) (make_arglist 1)))))) :=
  do_move_into_own_contents sample_env sample_db (Var.int 1) 0 { what := 1, where_ := 2 }
    (check_locations_sound sample_db (by decide)).1
    (check_locations_sound sample_db (by decide)).2 (by decide) (by decide) ⟨1, by decide⟩

/-- C2 (counterexample): `#2` is contained in `#1`.  When `#1`, who owns `#1`
and is no wizard, moves `#1` into `#2` and the accept routine of `#2` delivers
a false value, do_move yields E_NACC, not E_RECMOVE; when `#2`, who does not
control `#1`, makes the same call, do_move yields E_PERM. -/
theorem do_move_into_own_contents_not_recmove :
    valid sample_db 1 = true ∧ valid sample_db 2 = true
      ∧ (db_object_location sample_db)^[1] 2 = 1
      ∧ do_move sample_env sample_db (Var.int 0) 1 2 { what := 1, where_ := 2 }
        = .ok { pack := make_error_pack error.E_NACC, db := sample_db, calls := [] }
      ∧ do_move sample_env sample_db (Var.list [Var.obj 1, Var.obj 2]) 2 1
          { what := 1, where_ := 2 }
        = .ok { pack := make_error_pack error.E_PERM, db := sample_db, calls := [] } :=
  ⟨by decide, by decide, by decide, rfl, rfl⟩

/-! ## exec: killed and stopped entries -/

theorem mem_modify_mark_stopped (code : Int) (tbl : List (Option task_waiting_on_exec))
    (i : Nat) (tw : task_waiting_on_exec)
    (h : some tw ∈ tbl.modify (Option.map (exec_mark_stopped code)) i) :
    ∃ tw0, some tw0 ∈ tbl ∧ (tw = tw0 ∨ tw = exec_mark_stopped code tw0) := by
  induction tbl generalizing i with
  | nil => simp at h
  | cons s rest ih =>
    cases i with
    | zero =>
      rw [List.modify_zero_cons] at h
      rcases List.mem_cons.mp h with h | h
      · cases s with
        | none => cases h
        | some tw0 =>
          simp only [Option.map_some', Option.some.injEq] at h
          exact ⟨tw0, List.mem_cons_self _ _, Or.inr h⟩
      · exact ⟨tw, List.mem_cons_of_mem _ h, Or.inl rfl⟩
    | succ j =>
      rw [List.modify_succ_cons] at h
      rcases List.mem_cons.mp h with h | h
      · exact ⟨tw, by rw [h]; exact List.mem_cons_self _ _, Or.inl rfl⟩
      · obtain ⟨tw0, h0, h1⟩ := ih j h
        exact ⟨tw0, List.mem_cons_of_mem _ h0, h1⟩

theorem exec_mark_stopped_vm (code : Int) (tw : task_waiting_on_exec) :
    (exec_mark_stopped code tw).the_vm = tw.the_vm := by
  unfold exec_mark_stopped
  split <;> rfl

theorem deal_with_child_exit_loop_table (read_fd : Int → CStr)
    (tbl : List (Option task_waiting_on_exec)) :
    (deal_with_child_exit_loop read_fd tbl).1
      = tbl.map (fun s => s.bind (fun tw =>
          if tw.status = task_waiting_status.TWS_CONTINUE then some tw else Option.none)) := by
  induction tbl with
  | nil => rfl
  | cons s rest ih =>
    cases s with
    | none => simp [deal_with_child_exit_loop, ih]
    | some tw =>
      by_cases h : tw.status = task_waiting_status.TWS_CONTINUE <;>
        simp [deal_with_child_exit_loop, ih, h]

theorem deal_with_child_exit_loop_resumed (read_fd : Int → CStr)
    (tbl : List (Option task_waiting_on_exec)) :
    (deal_with_child_exit_loop read_fd tbl).2
      = tbl.filterMap (fun s => s.bind (fun tw =>
          if tw.status = task_waiting_status.TWS_STOP then
            some (tw.the_vm, resume_value read_fd tw)
          else Option.none)) := by
  induction tbl with
  | nil => rfl
  | cons s rest ih =>
    cases s with
    | none => simp [deal_with_child_exit_loop, ih]
    | some tw =>
      by_cases h : tw.status = task_waiting_status.TWS_STOP <;>
        simp [deal_with_child_exit_loop, ih, h, resume_value]

theorem deal_with_child_exit_resumed_stopped (read_fd : Int → CStr) (st : exec_state)
    (r : vm × Var) (h : r ∈ (deal_with_child_exit read_fd st).2) :
    ∃ tw, some tw ∈ st.process_table ∧ tw.status = task_waiting_status.TWS_STOP
      ∧ r = (tw.the_vm, resume_value read_fd tw) := by
  unfold deal_with_child_exit at h
  split at h
  · cases h
  · simp only [deal_with_child_exit_loop_resumed, List.mem_filterMap] at h
    obtain ⟨s, hs, hr⟩ := h
    cases s with
    | none => cases hr
    | some tw =>
      simp only [Option.some_bind] at hr
      split at hr
      · rename_i hstop
        simp only [Option.some.injEq] at hr
        exact ⟨tw, hs, hstop, hr.symm⟩
      · cases hr

theorem deal_with_child_exit_mem (read_fd : Int → CStr) (st : exec_state)
    (tw : task_waiting_on_exec) (h : some tw ∈ (deal_with_child_exit read_fd st).1.process_table) :
    some tw ∈ st.process_table := by
  unfold deal_with_child_exit at h
  split at h
  · exact h
  · simp only [deal_with_child_exit_loop_table, List.mem_map] at h
    obtain ⟨s, hs, hr⟩ := h
    cases s with
    | none => cases hr
    | some tw0 =>
      simp only [Option.some_bind] at hr
      split at hr
      · simp only [Option.some.injEq] at hr
        rw [← hr]
        exact hs
      · cases hr

theorem exec_complete_keeps_killed_tasks (st : exec_state) (pid code : Int) (v : vm)
    (hk : ∀ tw, some tw ∈ st.process_table → tw.the_vm = v →
      tw.status = task_waiting_status.TWS_KILL) :
    ∀ tw, some tw ∈ (exec_complete st pid code).1.process_table → tw.the_vm = v →
      tw.status = task_waiting_status.TWS_KILL := by
  intro tw htw hv
  obtain ⟨i, hi⟩ := exec_complete_table st pid code
  rw [hi] at htw
  obtain ⟨tw0, h0, h1⟩ := mem_modify_mark_stopped code _ i tw htw
  rcases h1 with h1 | h1
  · rw [h1] at hv ⊢
    exact hk tw0 h0 hv
  · rw [h1, exec_mark_stopped_vm] at hv
    rw [h1, exec_mark_stopped_of_killed code tw0 (hk tw0 h0 hv)]
    exact hk tw0 h0 hv

theorem run_exec_events_never_resumes (events : List exec_event) (st : exec_state) (v : vm)
    (hk : ∀ tw, some tw ∈ st.process_table → tw.the_vm = v →
      tw.status = task_waiting_status.TWS_KILL) :
    ∀ r ∈ (run_exec_events events st).2, r.1 ≠ v := by
  induction events generalizing st with
  | nil => intro r hr; cases hr
  | cons e rest ih =>
    cases e with
    | complete pid code =>
      exact ih _ (exec_complete_keeps_killed_tasks st pid code v hk)
    | reap read_fd =>
      intro r hr
      simp only [run_exec_events, List.mem_append] at hr
      rcases hr with hr | hr
      · obtain ⟨tw, hmem, hstop, hr2⟩ := deal_with_child_exit_resumed_stopped read_fd st r hr
        intro hv
        rw [hr2] at hv
        have := hk tw hmem hv
        rw [hstop] at this
        cases this
      · exact ih _ (fun tw htw hv => hk tw (deal_with_child_exit_mem read_fd st tw htw) hv) r hr

/-- C11: exec_complete leaves an entry whose status is Killed as it is, status
and exit code included; a reap pass calls resume_task only for entries whose
status is Stopped; hence, once every entry owned by a task is Killed, no
sequence of completion notifications and reap passes resumes that task. -/
theorem killed_task_never_resumed (events : List exec_event) (st : exec_state) (v : vm)
    (hk : ∀ tw, some tw ∈ st.process_table → tw.the_vm = v →
      tw.status = task_waiting_status.TWS_KILL) :
    (∀ r ∈ (run_exec_events events st).2, r.1 ≠ v)
      ∧ (∀ (i : Nat) (tw : task_waiting_on_exec) (pid code : Int),
          st.process_table[i]? = some (some tw) → tw.status = task_waiting_status.TWS_KILL →
          (exec_complete st pid code).1.process_table[i]? = some (some tw))
      ∧ (∀ (read_fd : Int → CStr) (r : vm × Var), r ∈ (deal_with_child_exit read_fd st).2 →
          ∃ tw, some tw ∈ st.process_table ∧ tw.status = task_waiting_status.TWS_STOP
            ∧ r = (tw.the_vm, resume_value read_fd tw)) := by
  refine ⟨run_exec_events_never_resumes events st v hk, ?_, ?_⟩
  · intro i tw pid code hi hkill
    obtain ⟨j, hj⟩ := exec_complete_table st pid code
    rw [hj]
    exact modify_killed code _ i j tw hi hkill
  · intro read_fd r hr
    exact deal_with_child_exit_resumed_stopped read_fd st r hr

theorem killed_task_never_resumed_witness :
    (∀ r ∈ (run_exec_events
        [exec_event.complete 10 0, exec_event.reap (fun _ => []), exec_event.complete 10 1,
          exec_event.reap (fun _ => [])]
        (exec_waiter_enumerator kill_first sample_exec_state ()).1).2, r.1 ≠ 1)
      ∧ (∀ (i : Nat) (tw : task_waiting_on_exec) (pid code : Int),
          (exec_waiter_enumerator kill_first sample_exec_state ()).1.process_table[i]?
            = some (some tw) →
          tw.status = task_waiting_status.TWS_KILL →
          (exec_complete (exec_waiter_enumerator kill_first sample_exec_state ()).1
            pid code).1.process_table[i]? = some (some tw))
      ∧ (∀ (read_fd : Int → CStr) (r : vm × Var),
          r ∈ (deal_with_child_exit read_fd
            (exec_waiter_enumerator kill_first sample_exec_state ()).1).2 →
          ∃ tw, some tw ∈ (exec_waiter_enumerator kill_first sample_exec_state ()).1.process_table
            ∧ tw.status = task_waiting_status.TWS_STOP
            ∧ r = (tw.the_vm, resume_value read_fd tw)) :=
  killed_task_never_resumed _ (exec_waiter_enumerator kill_first sample_exec_state ()).1 1
    (by
      intro tw h hv
      have h2 : some tw ∈ [some { sample_entry 10 1 with status := task_waiting_status.TWS_KILL },
          some (sample_entry 20 2), Option.none] := h
      simp only [List.mem_cons, Option.some.injEq, List.mem_singleton] at h2
      rcases h2 with h2 | h2 | h2
      · rw [h2]
      · rw [h2] at hv
        exact absurd hv (by decide)
      · simp at h2)

/-- C12: a reap pass that finds the termination flag set calls resume_task
once for every Stopped entry, in table order, with the list of its exit code
and of the two texts gathered, final drain included; it empties the slot of
every entry that is not Running and leaves every Running entry as it is, so
that only Running entries remain and a further pass over the table resumes
nothing.  A reap pass that finds the flag clear changes nothing. -/
theorem deal_with_child_exit_pass (read_fd : Int → CStr) (st : exec_state) :
    (st.sigchild_interrupt = true →
        (deal_with_child_exit read_fd st).2
            = st.process_table.filterMap (fun s => s.bind (fun tw =>
                if tw.status = task_waiting_status.TWS_STOP then
                  some (tw.the_vm, resume_value read_fd tw)
                else Option.none))
          ∧ (deal_with_child_exit read_fd st).1.process_table
            = st.process_table.map (fun s => s.bind (fun tw =>
                if tw.status = task_waiting_status.TWS_CONTINUE then some tw else Option.none))
          ∧ (deal_with_child_exit read_fd st).1.sigchild_interrupt = false
          ∧ (∀ tw, some tw ∈ (deal_with_child_exit read_fd st).1.process_table →
              tw.status = task_waiting_status.TWS_CONTINUE ∧ some tw ∈ st.process_table)
          ∧ (∀ read_fd2 : Int → CStr,
              (deal_with_child_exit_loop read_fd2
                (deal_with_child_exit read_fd st).1.process_table).2 = []))
      ∧ (st.sigchild_interrupt = false → deal_with_child_exit read_fd st = (st, [])) := by
  constructor
  · intro hf
    have htbl : (deal_with_child_exit read_fd st).1.process_table
        = st.process_table.map (fun s => s.bind (fun tw =>
            if tw.status = task_waiting_status.TWS_CONTINUE then some tw else Option.none)) := by
      simp only [deal_with_child_exit, hf, deal_with_child_exit_loop_table]
      rfl
    have hrun : ∀ tw, some tw ∈ (deal_with_child_exit read_fd st).1.process_table →
        tw.status = task_waiting_status.TWS_CONTINUE ∧ some tw ∈ st.process_table := by
      intro tw htw
      rw [htbl, List.mem_map] at htw
      obtain ⟨s, hs, hr⟩ := htw
      cases s with
      | none => cases hr
      | some tw0 =>
        simp only [Option.some_bind] at hr
        split at hr
        · rename_i hc
          simp only [Option.some.injEq] at hr
          rw [← hr]
          exact ⟨hc, hs⟩
        · cases hr
    refine ⟨?_, htbl, ?_, hrun, ?_⟩
    · simp only [deal_with_child_exit, hf, deal_with_child_exit_loop_resumed]
      rfl
    · simp only [deal_with_child_exit, hf]
      rfl
    · intro read_fd2
      rw [deal_with_child_exit_loop_resumed, List.filterMap_eq_nil_iff]
      intro s hs
      cases s with
      | none => rfl
      | some tw =>
        have := (hrun tw hs).1
        simp [this]
  · intro hf
    simp [deal_with_child_exit, hf]

theorem deal_with_child_exit_pass_witness :
    (exec_complete sample_exec_state 20 3).1.sigchild_interrupt = true
      ∧ (deal_with_child_exit (fun _ => "out".toList) (exec_complete sample_exec_state 20 3).1).2
        = [(2, Var.list [Var.int 3, Var.str "out".toList, Var.str "out".toList])]
      ∧ (deal_with_child_exit (fun _ => "out".toList)
          (exec_complete sample_exec_state 20 3).1).1.process_table
        = [some (sample_entry 10 1), Option.none, Option.none]
      ∧ deal_with_child_exit (fun _ => "out".toList) sample_exec_state = (sample_exec_state, []) :=
  ⟨by decide,
    ((deal_with_child_exit_pass (fun _ => "out".toList)
      (exec_complete sample_exec_state 20 3).1).1 (by decide)).1.trans (by decide),
    ((deal_with_child_exit_pass (fun _ => "out".toList)
      (exec_complete sample_exec_state 20 3).1).1 (by decide)).2.1.trans (by decide),
    (deal_with_child_exit_pass (fun _ => "out".toList) sample_exec_state).2 (by decide)⟩

/-! ## exec: the suspender gives back the slot it took -/

theorem log_call_no_maxrec (calls : List verb_call) (recv : Objid) (vname : String)
    (this args : Var) (e : error) (h : ∀ c ∈ calls, c.result ≠ error.E_MAXREC)
    (he : e ≠ error.E_MAXREC) :
    ∀ c ∈ log_call calls recv vname this args e, c.result ≠ error.E_MAXREC := by
  intro c hc
  unfold log_call at hc
  rcases List.mem_append.mp hc with hc | hc
  · exact h c hc
  · rw [List.mem_singleton] at hc
    rw [hc]
    exact he

theorem do_move_case3_maxrec (env : environment) (db : DB) (calls : List verb_call)
    (data : bf_move_data) (h : ∀ c ∈ calls, c.result ≠ error.E_MAXREC)
    (hex : ∃ c ∈ (do_move_case3 env db calls data).calls, c.result = error.E_MAXREC) :
    (do_move_case3 env db calls data).pack = make_error_pack error.E_MAXREC := by
  obtain ⟨c, hc, hres⟩ := hex
  unfold do_move_case3 do_move_case4 at hc ⊢
  simp only [] at hc ⊢
  split at hc
  · rename_i hcond
    simp only [hcond, if_true]
    split at hc
    · rename_i he
      exact absurd hres (log_call_no_maxrec calls _ _ _ _ _ h (by rw [he]; decide) c hc)
    · rename_i he
      simp only [he, if_false]
      split at hc
      · rename_i he2
        simp only [he2, if_true]
      · rename_i he2
        exact absurd hres (log_call_no_maxrec calls _ _ _ _ _ h he2 c hc)
  · exact absurd hres (h c hc)

theorem do_move_accepts_decided_maxrec (env : environment) (db : DB) (calls : List verb_call)
    (progr : Objid) (accepts : Bool) (data : bf_move_data) (out : outcome bf_move_data)
    (h : ∀ c ∈ calls, c.result ≠ error.E_MAXREC)
    (hout : do_move_accepts_decided env db calls progr accepts data = .ok out)
    (hex : ∃ c ∈ out.calls, c.result = error.E_MAXREC) :
    out.pack = make_error_pack error.E_MAXREC := by
  obtain ⟨c, hc, hres⟩ := hex
  unfold do_move_accepts_decided at hout
  simp only [] at hout
  split at hout
  · cases hout
    exact absurd hres (h c hc)
  split at hout
  · cases hout
    exact absurd hres (h c hc)
  split at hout
  · cases hout
  · cases hout
    exact absurd hres (h c hc)
  · split at hout
    · rename_i he
      cases hout
      exact absurd hres (log_call_no_maxrec calls _ _ _ _ _ h (by rw [he]; decide) c hc)
    · split at hout
      · rename_i he2
        cases hout
        simp only [he2]
      · rename_i he2
        cases hout
        exact do_move_case3_maxrec env _ _ data
          (log_call_no_maxrec calls _ _ _ _ _ h he2) ⟨c, hc, hres⟩

theorem do_move_maxrec (env : environment) (db : DB) (value : Var) (progr : Objid) (next : Nat)
    (data : bf_move_data) (out : outcome bf_move_data)
    (hout : do_move env db value progr next data = .ok out)
    (hex : ∃ c ∈ out.calls, c.result = error.E_MAXREC) :
    out.pack = make_error_pack error.E_MAXREC := by
  have hnil : ∀ c ∈ ([] : List verb_call), c.result ≠ error.E_MAXREC := fun c hc => by cases hc
  unfold do_move at hout
  simp only [] at hout
  split at hout
  · -- step 1
    split at hout
    · cases hout
      obtain ⟨c, hc, _⟩ := hex
      cases hc
    split at hout
    · cases hout
      obtain ⟨c, hc, _⟩ := hex
      cases hc
    split at hout
    · exact do_move_accepts_decided_maxrec env db _ progr _ data out hnil hout hex
    split at hout
    · rename_i he
      cases hout
      obtain ⟨c, hc, hres⟩ := hex
      exact absurd hres (log_call_no_maxrec [] _ _ _ _ _ hnil (by rw [he]; decide) c hc)
    split at hout
    · rename_i he
      exact do_move_accepts_decided_maxrec env db _ progr _ data out
        (log_call_no_maxrec [] _ _ _ _ _ hnil (by rw [he]; decide)) hout hex
    · rename_i he1 he2
      cases hout
      obtain ⟨c, hc, hres⟩ := hex
      simp only [log_call, List.nil_append, List.mem_singleton] at hc
      rw [hc] at hres
      simp only at hres
      rw [hres]
  · exact do_move_accepts_decided_maxrec env db _ progr _ data out hnil hout hex
  · cases hout
    exact do_move_case3_maxrec env db [] data hnil hex
  · cases hout
    obtain ⟨c, hc, _⟩ := hex
    cases hc
  · cases hout

theorem ite_motive {α : Type} (P : α → Prop) (c : Prop) [Decidable c] (a b : α)
    (ha : c → P a) (hb : ¬c → P b) : P (if c then a else b) := by
  split
  · exact ha ‹_›
  · exact hb ‹_›

theorem bf_create_body_maxrec (env : environment) (db : DB) (value : Var) (owner : Objid)
    (anonymous : Bool) (init : Nat)
    (hex : ∃ c ∈ (bf_create_body env db value owner anonymous init).calls,
      c.result = error.E_MAXREC) :
    (bf_create_body env db value owner anonymous init).pack = make_error_pack error.E_MAXREC := by
  revert hex
  unfold bf_create_body
  simp only []
  refine ite_motive (fun out : outcome Var =>
    (∃ c ∈ out.calls, c.result = error.E_MAXREC) → out.pack = make_error_pack error.E_MAXREC)
    _ _ _ ?_ ?_
  · rintro _ ⟨c, hc, _⟩
    cases hc
  intro _
  refine ite_motive (fun out : outcome Var =>
    (∃ c ∈ out.calls, c.result = error.E_MAXREC) → out.pack = make_error_pack error.E_MAXREC)
    _ _ _ ?_ ?_
  · rintro _ ⟨c, hc, _⟩
    cases hc
  intro _
  refine ite_motive (fun out : outcome Var =>
    (∃ c ∈ out.calls, c.result = error.E_MAXREC) → out.pack = make_error_pack error.E_MAXREC)
    _ _ _ ?_ ?_
  · rintro he ⟨c, hc, hres⟩
    simp only [log_call, List.nil_append, List.mem_singleton] at hc
    rw [hc] at hres
    simp only at hres
    rw [he] at hres
    cases hres
  intro _
  refine ite_motive (fun out : outcome Var =>
    (∃ c ∈ out.calls, c.result = error.E_MAXREC) → out.pack = make_error_pack error.E_MAXREC)
    _ _ _ ?_ ?_
  · rintro he _
    simp only [he]
  · rintro he ⟨c, hc, hres⟩
    simp only [log_call, List.nil_append, List.mem_singleton] at hc
    rw [hc] at hres
    exact absurd hres he

theorem bf_create_maxrec (env : environment) (db : DB) (value : Var) (progr : Objid)
    (next : Nat) (data : Var)
    (hex : ∃ c ∈ (bf_create env db value progr next data).calls, c.result = error.E_MAXREC) :
    (bf_create env db value progr next data).pack = make_error_pack error.E_MAXREC := by
  unfold bf_create at hex ⊢
  split
  · rename_i hn
    simp only [hn, if_true] at hex
    split
    · rename_i e hchk
      simp only [hchk] at hex
      obtain ⟨c, hc, _⟩ := hex
      cases hc
    · rename_i owner anonymous init hchk
      simp only [hchk] at hex
      exact bf_create_body_maxrec env db value owner anonymous init hex
  · rename_i hn
    simp only [hn, if_false] at hex
    obtain ⟨c, hc, _⟩ := hex
    cases hc

theorem bf_recycle_moving_contents_pack (env : environment) (db : DB) (calls : List verb_call)
    (obj : Var) (out : outcome Var)
    (hout : bf_recycle_moving_contents env db calls obj = .ok out) :
    out.pack = make_call_pack 2 obj ∨ out.pack = no_var_pack := by
  unfold bf_recycle_moving_contents at hout
  split at hout
  · cases hout; exact Or.inr rfl
  split at hout
  · simp only [] at hout
    split at hout
    · cases hout
    · cases hout; exact Or.inl rfl
    · split at hout
      · cases hout; exact Or.inl rfl
      · split at hout
        · cases hout
        · cases hout; exact Or.inr rfl
  split at hout
  · cases hout; exact Or.inr rfl
  · cases hout

theorem bf_recycle_pack (env : environment) (db : DB) (value : Var) (progr : Objid)
    (func_pc : Nat) (data : Var) (out : outcome Var)
    (hout : bf_recycle env db value progr func_pc data = .ok out) :
    out.pack = make_error_pack error.E_TYPE ∨ out.pack = make_error_pack error.E_INVARG
      ∨ out.pack = make_error_pack error.E_PERM
      ∨ (∃ obj, out.pack = make_call_pack 2 obj) ∨ out.pack = no_var_pack := by
  unfold bf_recycle at hout
  split at hout
  · simp only [] at hout
    generalize (if (value.nth 1).is_obj = true then (value.nth 1).v_obj else NOTHING) = recv
      at hout
    split at hout
    · cases hout; exact Or.inl rfl
    split at hout
    · cases hout; exact Or.inr (Or.inl rfl)
    split at hout
    · cases hout; exact Or.inr (Or.inr (Or.inl rfl))
    split at hout
    · cases hout; exact Or.inr (Or.inr (Or.inr (Or.inl ⟨_, rfl⟩)))
    · rcases bf_recycle_moving_contents_pack env _ _ _ out hout with h | h
      · exact Or.inr (Or.inr (Or.inr (Or.inl ⟨_, h⟩)))
      · exact Or.inr (Or.inr (Or.inr (Or.inr h)))
  · rcases bf_recycle_moving_contents_pack env _ _ _ out hout with h | h
    · exact Or.inr (Or.inr (Or.inr (Or.inl ⟨_, h⟩)))
    · exact Or.inr (Or.inr (Or.inr (Or.inr h)))
  · cases hout

/-- C13 (as amended): in move and in create, when a nested call made during an
entry (accept, exitfunc, enterfunc, initialize) reports E_MAXREC, the entry
returns the E_MAXREC error.  Recycle never returns E_MAXREC: whatever its
recycle hook and the exitfunc calls made while it empties the object report,
an entry of recycle returns E_TYPE, E_INVARG, E_PERM, a request to be continued
at step 2, or no value. -/
theorem maxrec_propagation (env : environment) (db : DB) (value : Var) (progr : Objid)
    (next : Nat) :
    (∀ (data : bf_move_data) (out : outcome bf_move_data),
        do_move env db value progr next data = .ok out →
        (∃ c ∈ out.calls, c.result = error.E_MAXREC) →
        out.pack = make_error_pack error.E_MAXREC)
      ∧ (∀ data : Var,
        (∃ c ∈ (bf_create env db value progr next data).calls, c.result = error.E_MAXREC) →
        (bf_create env db value progr next data).pack = make_error_pack error.E_MAXREC)
      ∧ (∀ (data : Var) (out : outcome Var),
        bf_recycle env db value progr next data = .ok out →
        (out.pack = make_error_pack error.E_TYPE ∨ out.pack = make_error_pack error.E_INVARG
          ∨ out.pack = make_error_pack error.E_PERM
          ∨ (∃ obj, out.pack = make_call_pack 2 obj) ∨ out.pack = no_var_pack)
        ∧ ∀ msg, out.pack ≠ package.BI_RAISE error.E_MAXREC msg) := by
  refine ⟨fun data out => do_move_maxrec env db value progr next data out,
    fun data => bf_create_maxrec env db value progr next data, ?_⟩
  intro data out hout
  have h := bf_recycle_pack env db value progr next data out hout
  refine ⟨h, ?_⟩
  intro msg hmsg
  rw [hmsg] at h
  rcases h with h | h | h | ⟨obj, h⟩ | h <;> cases h

theorem maxrec_propagation_witness :
    (do_move maxrec_env sample_db (Var.int 0) 0 1 { what := 2, where_ := 0 }
        = .ok { pack := make_error_pack error.E_MAXREC, db := sample_db,
                calls := log_call [] 0 "accept" (Var.obj 0) (make_arglist 2) error.E_MAXREC })
      ∧ (bf_create maxrec_env sample_db (Var.list [Var.obj 1]) 0 1 Var.none).pack
        = make_error_pack error.E_MAXREC :=
  ⟨rfl,
    (maxrec_propagation maxrec_env sample_db (Var.list [Var.obj 1]) 0 1).2.1 Var.none
      ⟨{ recv := 3, vname := "initialize", this := Var.obj 3, args := Var.list [],
         result := error.E_MAXREC }, by decide, rfl⟩⟩

/-- C13 (counterexample): every nested call reports E_MAXREC, yet recycle of
`#2` by the wizard `#0` runs to its end: step 1 returns no value and no error,
the recycle hook and the exitfunc call having both reported E_MAXREC, and `#2`
is destroyed. -/
theorem bf_recycle_recovers_from_maxrec :
    (bf_recycle maxrec_env sample_db (Var.list [Var.obj 2]) 0 1 Var.none).map
        (fun out => (out.pack, out.calls.map (fun c => (c.vname, c.result)), valid out.db 2))
      = .ok (no_var_pack,
          [("recycle", error.E_MAXREC), ("exitfunc", error.E_MAXREC)], false) := by
  rfl

/-! ## create: the argument checks -/

theorem bf_create_parsed_four (a1 a2 a3 a4 : Var) (progr : Objid) :
    bf_create_parsed (Var.list [a1, a2, a3, a4]) progr = create_parsed [a1, a2, a3, a4] progr := by
  cases a2 <;> cases a3 <;> cases a4 <;> rfl

theorem bf_create_parsed_three (a1 a2 a3 : Var) (progr : Objid) :
    bf_create_parsed (Var.list [a1, a2, a3]) progr = create_parsed [a1, a2, a3] progr := by
  cases a2 <;> cases a3 <;> rfl

theorem bf_create_parsed_two (a1 a2 : Var) (progr : Objid) :
    bf_create_parsed (Var.list [a1, a2]) progr = create_parsed [a1, a2] progr := by
  cases a2 <;> rfl

theorem bf_create_parsed_eq (args : List Var) (progr : Objid) (h1 : 1 ≤ args.length)
    (h4 : args.length ≤ 4) :
    bf_create_parsed (Var.list args) progr = create_parsed args progr := by
  rcases args with _ | ⟨a1, _ | ⟨a2, _ | ⟨a3, _ | ⟨a4, _ | ⟨a5, rest⟩⟩⟩⟩⟩
  · simp at h1
  · rfl
  · exact bf_create_parsed_two a1 a2 progr
  · exact bf_create_parsed_three a1 a2 a3 progr
  · exact bf_create_parsed_four a1 a2 a3 a4 progr
  · simp at h4

theorem bf_create_body_not_type (env : environment) (db : DB) (value : Var) (owner : Objid)
    (anonymous : Bool) (init : Nat) :
    (bf_create_body env db value owner anonymous init).pack ≠ make_error_pack error.E_TYPE := by
  unfold bf_create_body
  simp only []
  refine ite_motive (fun out : outcome Var => out.pack ≠ make_error_pack error.E_TYPE)
    _ _ _ ?_ ?_
  · intro _ h; cases h
  intro _
  refine ite_motive (fun out : outcome Var => out.pack ≠ make_error_pack error.E_TYPE)
    _ _ _ ?_ ?_
  · intro _ h; cases h
  intro _
  refine ite_motive (fun out : outcome Var => out.pack ≠ make_error_pack error.E_TYPE)
    _ _ _ ?_ ?_
  · intro _ h; cases h
  intro _
  refine ite_motive (fun out : outcome Var => out.pack ≠ make_error_pack error.E_TYPE)
    _ _ _ ?_ ?_
  · intro he h
    simp only [he] at h
    cases h
  · intro _ h; cases h

theorem bf_create_checks_type (db : DB) (value : Var) (progr : Objid) :
    bf_create_checks db value progr = .error error.E_TYPE
      ↔ (is_obj_or_list_of_objs (value.nth 1) = false ∨ bf_create_parse value progr = Option.none) := by
  unfold bf_create_checks
  by_cases h1 : is_obj_or_list_of_objs (value.nth 1) = true
  · simp only [h1, Bool.not_true, Bool.false_eq_true, if_false, false_or]
    change (match bf_create_parse value progr with
      | Option.none => _
      | some o => _) = _ ↔ _
    cases hp : bf_create_parse value progr with
    | none => simp
    | some o =>
      simp only []
      constructor
      · intro h
        exfalso
        revert h
        refine ite_motive (fun r : Except error (Objid × Bool × Nat) =>
          r = .error error.E_TYPE → False) _ _ _ ?_ ?_
        · intro _ h; cases h
        intro _
        refine ite_motive (fun r : Except error (Objid × Bool × Nat) =>
          r = .error error.E_TYPE → False) _ _ _ ?_ ?_
        · intro _ h; cases h
        · intro _ h; cases h
      · intro h
        rcases h with h | h <;> cases h
  · have h2 : is_obj_or_list_of_objs (value.nth 1) = false := by simpa using h1
    simp [h2]

theorem bf_create_checks_ok_parse (db : DB) (value : Var) (progr : Objid) (owner : Objid)
    (anonymous : Bool) (init : Nat)
    (h : bf_create_checks db value progr = .ok (owner, anonymous, init)) :
    ∃ o, bf_create_parse value progr = some o ∧ owner = o.owner
      ∧ anonymous = (if o.anon > 0 then (value.nth o.anon).v_num != 0 else false)
      ∧ init = o.init := by
  unfold bf_create_checks at h
  by_cases h1 : is_obj_or_list_of_objs (value.nth 1) = true
  · simp only [h1, Bool.not_true, Bool.false_eq_true, if_false] at h
    change (match bf_create_parse value progr with
      | Option.none => _
      | some o => _) = _ at h
    cases hp : bf_create_parse value progr with
    | none => rw [hp] at h; cases h
    | some o =>
      rw [hp] at h
      simp only [] at h
      refine ⟨o, rfl, ?_⟩
      revert h
      refine ite_motive (fun r : Except error (Objid × Bool × Nat) =>
        r = .ok (owner, anonymous, init) → _) _ _ _ ?_ ?_
      · intro _ h; cases h
      intro _
      refine ite_motive (fun r : Except error (Objid × Bool × Nat) =>
        r = .ok (owner, anonymous, init) → _) _ _ _ ?_ ?_
      · intro _ h; cases h
      · intro _ h
        simp only [Except.ok.injEq, Prod.mk.injEq] at h
        exact ⟨h.1.symm, h.2.1.symm, h.2.2.symm⟩
  · have h2 : is_obj_or_list_of_objs (value.nth 1) = false := by simpa using h1
    simp [h2] at h

/-- C15: for an argument list of 1 to 4 values, step 1 of create returns E_TYPE
exactly when the first argument is not an object or a list of objects, or the
second is not an object, integer or list, or the third or fourth is not an
integer or list, or more than one integer or more than one list stands among
the arguments 2 to 4; otherwise the owner is argument 2 if it is an object and
the caller if not, the anonymous flag is the integer found and the initializer
the list found. -/
theorem bf_create_type_check (env : environment) (db : DB) (args : List Var) (progr : Objid)
    (data : Var) (h1 : 1 ≤ args.length) (h4 : args.length ≤ 4) :
    ((bf_create env db (Var.list args) progr 1 data).pack = make_error_pack error.E_TYPE
        ↔ create_type_error args = true)
      ∧ (create_type_error args = false →
          bf_create_parsed (Var.list args) progr
            = some (create_owner args progr, create_anonymous args, create_initializer args))
      ∧ (∀ owner anonymous init,
          bf_create_checks db (Var.list args) progr = .ok (owner, anonymous, init) →
          owner = create_owner args progr ∧ anonymous = create_anonymous args
            ∧ (if init > 0 then (Var.list args).nth init else Var.list [])
              = create_initializer args) := by
  have hparsed := bf_create_parsed_eq args progr h1 h4
  have hnone : bf_create_parse (Var.list args) progr = Option.none
      ↔ create_optional_type_error args = true := by
    unfold bf_create_parsed create_parsed at hparsed
    constructor
    · intro h
      rw [h] at hparsed
      by_cases hc : create_optional_type_error args = true
      · exact hc
      · rw [if_neg hc] at hparsed
        cases hparsed
    · intro h
      rw [if_pos h] at hparsed
      cases hp : bf_create_parse (Var.list args) progr with
      | none => rfl
      | some o => rw [hp] at hparsed; cases hparsed
  have hfirst : (Var.list args).nth 1 = args.getD 0 Var.none := rfl
  refine ⟨?_, ?_, ?_⟩
  · have hpack : (bf_create env db (Var.list args) progr 1 data).pack
          = make_error_pack error.E_TYPE
        ↔ bf_create_checks db (Var.list args) progr = .error error.E_TYPE := by
      unfold bf_create
      simp only [beq_self_eq_true, if_true]
      cases hchk : bf_create_checks db (Var.list args) progr with
      | error e =>
        simp only [make_error_pack, package.BI_RAISE.injEq, and_true, Except.error.injEq]
      | ok r =>
        obtain ⟨owner, anonymous, init⟩ := r
        simp only []
        constructor
        · intro h
          exact absurd h (bf_create_body_not_type env db _ owner anonymous init)
        · intro h; cases h
    rw [hpack, bf_create_checks_type, hfirst, hnone]
    unfold create_type_error
    simp
  · intro hte
    unfold create_type_error at hte
    have hc : create_optional_type_error args = false := by
      simp only [Bool.or_eq_false_iff] at hte
      exact hte.2
    rw [hparsed]
    unfold create_parsed
    simp [hc]
  · intro owner anonymous init hchk
    obtain ⟨o, hp, ho, ha, hi⟩ := bf_create_checks_ok_parse db _ progr owner anonymous init hchk
    have hc : create_optional_type_error args = false := by
      by_cases hc : create_optional_type_error args = true
      · rw [hnone.mpr hc] at hp
        cases hp
      · simpa using hc
    unfold bf_create_parsed create_parsed at hparsed
    rw [hp] at hparsed
    simp only [hc, Bool.false_eq_true, if_false, Option.map_some', Option.some.injEq,
      Prod.mk.injEq] at hparsed
    rw [ho, ha, hi]
    exact hparsed

theorem bf_create_type_check_witness :
    ((bf_create sample_env sample_db (Var.list [Var.obj 1, Var.int 1, Var.int 0]) 0 1
          Var.none).pack = make_error_pack error.E_TYPE
        ↔ create_type_error [Var.obj 1, Var.int 1, Var.int 0] = true)
      ∧ (create_type_error [Var.obj 1, Var.int 1, Var.int 0] = false →
          bf_create_parsed (Var.list [Var.obj 1, Var.int 1, Var.int 0]) 0
            = some (create_owner [Var.obj 1, Var.int 1, Var.int 0] 0,
                create_anonymous [Var.obj 1, Var.int 1, Var.int 0],
                create_initializer [Var.obj 1, Var.int 1, Var.int 0]))
      ∧ (∀ owner anonymous init,
          bf_create_checks sample_db (Var.list [Var.obj 1, Var.int 1, Var.int 0]) 0
            = .ok (owner, anonymous, init) →
          owner = create_owner [Var.obj 1, Var.int 1, Var.int 0] 0
            ∧ anonymous = create_anonymous [Var.obj 1, Var.int 1, Var.int 0]
            ∧ (if init > 0 then (Var.list [Var.obj 1, Var.int 1, Var.int 0]).nth init
                else Var.list [])
              = create_initializer [Var.obj 1, Var.int 1, Var.int 0]) :=
  bf_create_type_check sample_env sample_db [Var.obj 1, Var.int 1, Var.int 0] 0 Var.none
    (by decide) (by decide)

/-! ## create: a failed attachment and the permission test -/

theorem drop_unused_slots_append_none (l : List (Option Object)) :
    drop_unused_slots l.length (l ++ [Option.none]) = l := by
  induction l with
  | nil => rfl
  | cons x xs ih =>
    simp only [List.length_cons, List.cons_append]
    unfold drop_unused_slots
    simp only [Nat.add_sub_cancel, ih]
    cases xs with
    | nil => simp
    | cons y ys => rfl

theorem create_destroy_restores (db1 : DB) (x : Objid) :
    db_set_last_used_objid
        (db_destroy_object
          (db_set_object_owner (db_create_object db1).2 (db_create_object db1).1 x)
          (db_create_object db1).1)
        (db_last_used_objid db1) = db1 := by
  have h0 : (0 : Int) ≤ (db1.objects.length : Int) := Int.ofNat_nonneg _
  have hnew := find_create_new db1
  have hfind : dbpriv_find_object
      (db_set_object_owner (db_create_object db1).2 (db_create_object db1).1 x)
      (db_create_object db1).1 = some { new_object with owner := x } := by
    rw [db_set_object_owner, find_update_eq _ _ _ _ hnew]
  have hobjs : (db_set_object_owner (db_create_object db1).2 (db_create_object db1).1 x).objects
      = db1.objects ++ [some { new_object with owner := x }] := by
    simp only [db_set_object_owner, dbpriv_update_object, hnew]
    simp [db_create_object]
  have hanons : (db_set_object_owner (db_create_object db1).2 (db_create_object db1).1 x).anons
      = db1.anons := by
    rw [db_set_object_owner, update_object_anons]
    rfl
  unfold db_destroy_object
  rw [hfind]
  simp only [db_set_last_used_objid, hobjs, hanons]
  have hset : (db1.objects ++ [some { new_object with owner := x }]).set
      (db_create_object db1).1.toNat Option.none = db1.objects ++ [Option.none] := by
    simp [db_create_object]
  have hn : (db_last_used_objid db1 + 1).toNat = db1.objects.length := by
    show ((db1.objects.length : Int) - 1 + 1).toNat = db1.objects.length
    simp
  rw [hset, hn, drop_unused_slots_append_none]

theorem decr_quota_valid (db : DB) (owner o : Objid) :
    valid (decr_quota db owner).2 o = valid db o := by
  unfold decr_quota
  split
  · split
    · rfl
    · exact valid_update db owner o _
  · rfl

theorem decr_quota_length (db : DB) (owner : Objid) :
    (decr_quota db owner).2.objects.length = db.objects.length := by
  unfold decr_quota
  split
  · split
    · rfl
    · exact update_object_objects_length db owner _
  · rfl

theorem create_tail_not_invarg (e : error) (r : Var) (d : DB) (c : List verb_call) :
    (if e = error.E_NONE then ({ pack := make_call_pack 2 r, db := d, calls := c } : outcome Var)
      else if e = error.E_MAXREC then { pack := make_error_pack e, db := d, calls := c }
      else { pack := make_var_pack r, db := d, calls := c }).pack
      ≠ make_error_pack error.E_INVARG := by
  by_cases h1 : e = error.E_NONE
  · rw [if_pos h1]
    intro h; cases h
  · rw [if_neg h1]
    by_cases h2 : e = error.E_MAXREC
    · rw [if_pos h2, h2]
      intro h; cases h
    · rw [if_neg h2]
      intro h; cases h

/-- C16: when a create call has passed its checks and the quota test, and
db_change_parents refuses to attach the new object to the requested parents,
bf_create returns E_INVARG and calls no verb; the new object is destroyed and
the object table is as it was after the quota was taken, so that the last
used object number is the one before the call, the same objects are valid and
the next object created gets the number it would have had.  After a
successful check E_INVARG has no other cause. -/
theorem bf_create_attach_failure (env : environment) (db : DB) (value : Var) (progr : Objid)
    (data : Var) (owner : Objid) (anonymous : Bool) (init : Nat)
    (hchecks : bf_create_checks db value progr = .ok (owner, anonymous, init))
    (hquota : valid db owner = true → (decr_quota db owner).1 = true) :
    ((db_change_parents env (create_before_attach db owner)
          (Var.obj (db_create_object (create_quota_taken db owner)).1) (value.nth 1)).1 = false
        ↔ (bf_create env db value progr 1 data).pack = make_error_pack error.E_INVARG)
      ∧ ((bf_create env db value progr 1 data).pack = make_error_pack error.E_INVARG →
          (bf_create env db value progr 1 data).db = create_quota_taken db owner
            ∧ (bf_create env db value progr 1 data).calls = []
            ∧ db_last_used_objid (bf_create env db value progr 1 data).db
              = db_last_used_objid db
            ∧ (∀ o, valid (bf_create env db value progr 1 data).db o = valid db o)
            ∧ valid (bf_create env db value progr 1 data).db (db_create_object db).1 = false
            ∧ (db_create_object (bf_create env db value progr 1 data).db).1
              = (db_create_object db).1) := by
  have hbody : bf_create env db value progr 1 data
      = bf_create_body env db value owner anonymous init := by
    simp [bf_create, hchecks]
  rw [hbody]
  unfold create_before_attach create_quota_taken bf_create_body
  simp only []
  generalize hq : (if valid db owner = true then decr_quota db owner else (true, db)) = q
  have hvalid1 : ∀ o, valid q.2 o = valid db o := by
    intro o
    rw [← hq]
    by_cases hv : valid db owner = true
    · simp only [hv, if_true]
      exact decr_quota_valid db owner o
    · simp [hv]
  have hlen1 : q.2.objects.length = db.objects.length := by
    rw [← hq]
    by_cases hv : valid db owner = true
    · simp only [hv, if_true]
      exact decr_quota_length db owner
    · simp [hv]
  have hq1 : (valid db owner && !q.1) = false := by
    rw [← hq]
    by_cases hv : valid db owner = true
    · simp [hv, hquota hv]
    · have hv2 : valid db owner = false := by simpa using hv
      simp [hv2]
  simp only [hq1, Bool.false_eq_true, if_false]
  have hrestore := create_destroy_restores q.2
    (if (!valid (db_create_object q.2).2 owner) = true then (db_create_object q.2).1 else owner)
  generalize db_set_object_owner (db_create_object q.2).2 (db_create_object q.2).1
    (if (!valid (db_create_object q.2).2 owner) = true then (db_create_object q.2).1 else owner)
    = db2 at hrestore ⊢
  have hch2 : (db_change_parents env db2 (Var.obj (db_create_object q.2).1) (value.nth 1)).1
      = false →
      (db_change_parents env db2 (Var.obj (db_create_object q.2).1) (value.nth 1)).2 = db2 := by
    intro hch
    unfold db_change_parents at hch ⊢
    split
    · rename_i hok
      rw [if_pos hok] at hch
      cases hch
    · rfl
  generalize db_change_parents env db2 (Var.obj (db_create_object q.2).1) (value.nth 1) = ch
    at hch2 ⊢
  cases hch : ch.1 with
  | true =>
    simp only [Bool.not_true, Bool.false_eq_true, if_false]
    exact ⟨⟨fun h => Bool.noConfusion h, fun h => absurd h (create_tail_not_invarg _ _ _ _)⟩,
      fun h => absurd h (create_tail_not_invarg _ _ _ _)⟩
  | false =>
    simp only [Bool.not_false, if_true, hch2 hch, hrestore]
    refine ⟨by simp, fun _ => ⟨trivial, trivial, ?_, hvalid1, ?_, ?_⟩⟩
    · unfold db_last_used_objid
      rw [hlen1]
    · rw [hvalid1]
      cases hv : valid db (db_create_object db).1 with
      | false => rfl
      | true =>
        have := (valid_bounds db _ hv).2
        simp [db_create_object] at this
    · show (q.2.objects.length : Int) = (db.objects.length : Int)
      rw [hlen1]

theorem bf_create_attach_failure_witness :
    ((db_change_parents refusing_env (create_before_attach sample_db 0)
          (Var.obj (db_create_object (create_quota_taken sample_db 0)).1)
          ((Var.list [Var.obj 1]).nth 1)).1 = false
        ↔ (bf_create refusing_env sample_db (Var.list [Var.obj 1]) 0 1 Var.none).pack
          = make_error_pack error.E_INVARG)
      ∧ ((bf_create refusing_env sample_db (Var.list [Var.obj 1]) 0 1 Var.none).pack
          = make_error_pack error.E_INVARG →
          (bf_create refusing_env sample_db (Var.list [Var.obj 1]) 0 1 Var.none).db
              = create_quota_taken sample_db 0
            ∧ (bf_create refusing_env sample_db (Var.list [Var.obj 1]) 0 1 Var.none).calls = []
            ∧ db_last_used_objid
                (bf_create refusing_env sample_db (Var.list [Var.obj 1]) 0 1 Var.none).db
              = db_last_used_objid sample_db
            ∧ (∀ o, valid (bf_create refusing_env sample_db (Var.list [Var.obj 1]) 0 1
                Var.none).db o = valid sample_db o)
            ∧ valid (bf_create refusing_env sample_db (Var.list [Var.obj 1]) 0 1 Var.none).db
                (db_create_object sample_db).1 = false
            ∧ (db_create_object
                (bf_create refusing_env sample_db (Var.list [Var.obj 1]) 0 1 Var.none).db).1
              = (db_create_object sample_db).1) :=
  bf_create_attach_failure refusing_env sample_db (Var.list [Var.obj 1]) 0 Var.none 0 false 0
    rfl (fun _ => by decide)

theorem all_allowed_false (db : DB) (vars : Var) (progr : Objid) (f : db_object_flag) (p : Var)
    (hp : p ∈ vars.elems) (h : db_object_allows db p progr f = false) :
    all_allowed db vars progr f = false := by
  unfold all_allowed
  rw [List.all_eq_false]
  exact ⟨p, hp, by simp [h]⟩

/-- C20 (as amended): let a create call pass the type and validity checks, and
let the caller lack, on some requested valid parent, the permission create
asks for: FLAG_FERTILE when the anonymous flag is not set, FLAG_ANONYMOUS when
it is.  Then bf_create returns E_PERM, leaves the database as it was (nothing
is created) and calls no verb. -/
theorem bf_create_parent_permission (env : environment) (db : DB) (value : Var) (progr : Objid)
    (data : Var) (o : create_opts) (p : Var)
    (hparse : bf_create_parse value progr = some o)
    (htype : bf_create_checks db value progr ≠ .error error.E_TYPE)
    (hvalidity : bf_create_checks db value progr ≠ .error error.E_INVARG)
    (hp : (value.nth 1 = p ∧ p.is_obj = true ∧ valid db p.v_obj = true)
      ∨ ((value.nth 1).is_list = true ∧ p ∈ (value.nth 1).elems))
    (hlack : db_object_allows db p progr
      (if (if o.anon > 0 then (value.nth o.anon).v_num != 0 else false) = true then
        db_object_flag.FLAG_ANONYMOUS else db_object_flag.FLAG_FERTILE) = false) :
    bf_create env db value progr 1 data
      = { pack := make_error_pack error.E_PERM, db := db, calls := [] } := by
  have hchk : bf_create_checks db value progr = .error error.E_PERM := by
    have h1 : is_obj_or_list_of_objs (value.nth 1) = true := by
      by_cases h : is_obj_or_list_of_objs (value.nth 1) = true
      · exact h
      · exact absurd ((bf_create_checks_type db value progr).mpr (Or.inl (by simpa using h))) htype
    unfold bf_create_checks at hvalidity ⊢
    simp only [h1, Bool.not_true, Bool.false_eq_true, if_false] at hvalidity ⊢
    change (match bf_create_parse value progr with
      | Option.none => _
      | some o => _) = _
    change ¬ ((match bf_create_parse value progr with
      | Option.none => _
      | some o => _) = _) at hvalidity
    rw [hparse] at hvalidity ⊢
    simp only [] at hvalidity ⊢
    by_cases hinv : ((if o.anon > 0 then (value.nth o.anon).v_num != 0 else false)
          && o.owner == NOTHING
        || !valid db o.owner && o.owner != NOTHING
        || (value.nth 1).is_obj && !valid db (value.nth 1).v_obj
          && (value.nth 1).v_obj != NOTHING
        || (value.nth 1).is_list && !all_valid db (value.nth 1)) = true
    · rw [if_pos hinv] at hvalidity
      exact absurd rfl hvalidity
    · rw [if_neg hinv]
      have hperm : (progr != o.owner && !is_wizard db progr
          || (value.nth 1).is_obj && valid db (value.nth 1).v_obj
            && !db_object_allows db (value.nth 1) progr
              (if (if o.anon > 0 then (value.nth o.anon).v_num != 0 else false) = true then
                db_object_flag.FLAG_ANONYMOUS else db_object_flag.FLAG_FERTILE)
          || (value.nth 1).is_list
            && !all_allowed db (value.nth 1) progr
              (if (if o.anon > 0 then (value.nth o.anon).v_num != 0 else false) = true then
                db_object_flag.FLAG_ANONYMOUS else db_object_flag.FLAG_FERTILE)) = true := by
        generalize (if (if o.anon > 0 then (value.nth o.anon).v_num != 0 else false) = true then
          db_object_flag.FLAG_ANONYMOUS else db_object_flag.FLAG_FERTILE) = f at hlack ⊢
        rcases hp with ⟨hp1, hp2, hp3⟩ | ⟨hp1, hp2⟩
        · rw [hp1, hp2, hp3, hlack]
          simp
        · rw [hp1, all_allowed_false db _ progr f p hp2 hlack]
          simp
      rw [if_pos hperm]
  simp [bf_create, hchk]

theorem bf_create_parent_permission_witness :
    bf_create sample_env sample_db_anon (Var.list [Var.obj 1]) 2 1 Var.none
      = { pack := make_error_pack error.E_PERM, db := sample_db_anon, calls := [] } :=
  bf_create_parent_permission sample_env sample_db_anon (Var.list [Var.obj 1]) 2 Var.none
    { owner := 2, anon := 0, init := 0 } (Var.obj 1) rfl
    (by intro h; cases h) (by intro h; cases h)
    (Or.inl ⟨rfl, rfl, by decide⟩) (by decide)

/-- C20 (counterexample): `#2` is neither a wizard nor the owner of `#1`, and
`#1` is not fertile, so `#2` lacks fertility permission on the valid parent
`#1`; yet create with the anonymous flag set succeeds, because `#1` carries
FLAG_ANONYMOUS: an anonymous object is created and the quota of `#2` is
taken. -/
theorem bf_create_anonymous_without_fertility :
    valid sample_db_anon 1 = true
      ∧ db_object_allows sample_db_anon (Var.obj 1) 2 db_object_flag.FLAG_FERTILE = false
      ∧ (bf_create sample_env sample_db_anon (Var.list [Var.obj 1, Var.int 1]) 2 1 Var.none).pack
        = make_var_pack (Var.anon 0)
      ∧ is_valid
          (bf_create sample_env sample_db_anon (Var.list [Var.obj 1, Var.int 1]) 2 1 Var.none).db
          (Var.anon 0) = true
      ∧ db_object_quota
          (bf_create sample_env sample_db_anon (Var.list [Var.obj 1, Var.int 1]) 2 1 Var.none).db 2
        = some 2 := by
  decide

/-! ## chparent: the cycle check -/

theorem ismember_ne_zero (v : Var) (l : List Var) : (ismember v l != 0) = true ↔ v ∈ l := by
  unfold ismember
  cases h : l.indexOf? v with
  | none =>
    simp only [bne_self_eq_false, Bool.false_eq_true, false_iff]
    intro hmem
    rw [List.indexOf?, List.findIdx?_eq_none_iff] at h
    have := h v hmem
    simp at this
  | some i =>
    simp only [bne_iff_ne, ne_eq, Nat.add_one_ne_zero, not_false_eq_true, true_iff]
    rw [List.indexOf?, List.findIdx?_eq_some_iff_getElem] at h
    obtain ⟨hlt, hi, _⟩ := h
    have : l[i] = v := by simpa using hi
    rw [← this]
    exact List.getElem_mem _

theorem is_a_descendant_iff (db : DB) (this obj : Var) :
    is_a_descendant db this obj = true
      ↔ (this = obj ∨ this ∈ db_descendants db obj false) := by
  unfold is_a_descendant
  rw [ismember_ne_zero]
  simp [db_descendants]

/-- C14: when a chparent or chparents call has passed the type, privilege,
validity and permission checks, the result is E_RECMOVE exactly when the new
parent, or some element of the list of new parents, is the object itself or
one of its descendants; db_change_parents is then not reached, and the
database is left as it was. -/
theorem bf_chparent_cycle_check (kids_ok : DB → Var → Var → Var → Bool) (db : DB)
    (arglist : Var) (progr : Objid) (anon_kids : Var)
    (hchecks : bf_chparent_checks db arglist progr = .ok anon_kids) :
    ((bf_chparent_chparents kids_ok db arglist progr).pack = make_error_pack error.E_RECMOVE
        ↔ (((arglist.nth 2).is_obj = true
            ∧ (arglist.nth 2 = arglist.nth 1
              ∨ arglist.nth 2 ∈ db_descendants db (arglist.nth 1) false))
          ∨ ((arglist.nth 2).is_list = true
            ∧ ∃ this ∈ (arglist.nth 2).elems,
              this = arglist.nth 1 ∨ this ∈ db_descendants db (arglist.nth 1) false)))
      ∧ ((bf_chparent_chparents kids_ok db arglist progr).pack = make_error_pack error.E_RECMOVE →
          bf_chparent_chparents kids_ok db arglist progr
            = { pack := make_error_pack error.E_RECMOVE, db := db, calls := [] }) := by
  have hcond : ((arglist.nth 2).is_obj && is_a_descendant db (arglist.nth 2) (arglist.nth 1)
        || (arglist.nth 2).is_list && any_are_descendants db (arglist.nth 2) (arglist.nth 1)) = true
      ↔ (((arglist.nth 2).is_obj = true
            ∧ (arglist.nth 2 = arglist.nth 1
              ∨ arglist.nth 2 ∈ db_descendants db (arglist.nth 1) false))
          ∨ ((arglist.nth 2).is_list = true
            ∧ ∃ this ∈ (arglist.nth 2).elems,
              this = arglist.nth 1 ∨ this ∈ db_descendants db (arglist.nth 1) false)) := by
    simp only [Bool.or_eq_true, Bool.and_eq_true, is_a_descendant_iff, any_are_descendants,
      List.any_eq_true]
  unfold bf_chparent_chparents
  simp only [hchecks]
  by_cases hc : ((arglist.nth 2).is_obj && is_a_descendant db (arglist.nth 2) (arglist.nth 1)
        || (arglist.nth 2).is_list && any_are_descendants db (arglist.nth 2) (arglist.nth 1)) = true
  · simp only [hc, if_true]
    exact ⟨⟨fun _ => hcond.mp hc, fun _ => trivial⟩, fun _ => trivial⟩
  · simp only [hc, if_false]
    have hne : (if (!(db_change_parents_kids kids_ok db (arglist.nth 1) (arglist.nth 2)
          anon_kids).1) = true then
          ({ pack := make_error_pack error.E_INVARG,
             db := (db_change_parents_kids kids_ok db (arglist.nth 1) (arglist.nth 2)
               anon_kids).2, calls := [] } : outcome Var)
        else { pack := no_var_pack,
               db := (db_change_parents_kids kids_ok db (arglist.nth 1) (arglist.nth 2)
                 anon_kids).2, calls := [] }).pack ≠ make_error_pack error.E_RECMOVE := by
      split <;> (intro h; cases h)
    exact ⟨⟨fun h => absurd h hne, fun h => absurd (hcond.mpr h) hc⟩, fun h => absurd h hne⟩

theorem bf_chparent_cycle_check_witness :
    ((bf_chparent_chparents (fun _ _ _ _ => true) sample_db_family
          (Var.list [Var.obj 2, Var.obj 4]) 0).pack = make_error_pack error.E_RECMOVE
        ↔ (((Var.nth (Var.list [Var.obj 2, Var.obj 4]) 2).is_obj = true
            ∧ (Var.nth (Var.list [Var.obj 2, Var.obj 4]) 2
                = Var.nth (Var.list [Var.obj 2, Var.obj 4]) 1
              ∨ Var.nth (Var.list [Var.obj 2, Var.obj 4]) 2
                ∈ db_descendants sample_db_family
                  (Var.nth (Var.list [Var.obj 2, Var.obj 4]) 1) false))
          ∨ ((Var.nth (Var.list [Var.obj 2, Var.obj 4]) 2).is_list = true
            ∧ ∃ this ∈ (Var.nth (Var.list [Var.obj 2, Var.obj 4]) 2).elems,
              this = Var.nth (Var.list [Var.obj 2, Var.obj 4]) 1
                ∨ this ∈ db_descendants sample_db_family
                  (Var.nth (Var.list [Var.obj 2, Var.obj 4]) 1) false)))
      ∧ ((bf_chparent_chparents (fun _ _ _ _ => true) sample_db_family
            (Var.list [Var.obj 2, Var.obj 4]) 0).pack = make_error_pack error.E_RECMOVE →
          bf_chparent_chparents (fun _ _ _ _ => true) sample_db_family
              (Var.list [Var.obj 2, Var.obj 4]) 0
            = { pack := make_error_pack error.E_RECMOVE, db := sample_db_family, calls := [] }) :=
  bf_chparent_cycle_check (fun _ _ _ _ => true) sample_db_family
    (Var.list [Var.obj 2, Var.obj 4]) 0 (Var.list []) rfl

/-! ## recycle: the parents handed to the children -/

theorem foldl_setadd (l acc : List Var) :
    l.foldl setadd acc = acc ++ (keep_first l).filter (fun y => decide (y ∉ acc)) := by
  induction l generalizing acc with
  | nil => simp [keep_first]
  | cons x xs ih =>
    simp only [List.foldl_cons, keep_first]
    rw [ih]
    unfold setadd
    by_cases hx : x ∈ acc
    · simp only [hx, if_true, List.filter_cons, not_true_eq_false, decide_False,
        Bool.false_eq_true, if_false, List.filter_filter]
      congr 1
      apply List.filter_congr
      intro y _
      by_cases hy : y ∈ acc
      · simp [hy]
      · have : y ≠ x := fun h => hy (h ▸ hx)
        simp [hy, this]
    · simp only [hx, if_false, List.filter_cons, not_false_eq_true, decide_True, if_true,
        List.append_assoc, List.singleton_append, List.filter_filter]
      congr 2
      apply List.filter_congr
      intro y _
      by_cases hy : y ∈ acc
      · simp [hy]
      · by_cases hyx : y = x
        · simp [hyx]
        · simp [hy, hyx]

theorem foldl_setadd_nil (l : List Var) : l.foldl setadd [] = keep_first l := by
  rw [foldl_setadd]
  simp

theorem keep_first_append (a b : List Var) :
    keep_first (a ++ b) = keep_first a ++ (keep_first b).filter (fun y => decide (y ∉ a)) := by
  induction a with
  | nil => simp [keep_first]
  | cons x xs ih =>
    have h1 : keep_first (x :: xs ++ b)
        = x :: (keep_first (xs ++ b)).filter (fun y => decide (y ≠ x)) := rfl
    have h2 : keep_first (x :: xs)
        = x :: (keep_first xs).filter (fun y => decide (y ≠ x)) := rfl
    rw [h1, h2, ih]
    simp only [List.filter_append, List.filter_filter, List.cons_append, List.cons.injEq,
      true_and, List.append_cancel_left_eq]
    apply List.filter_congr
    intro y _
    by_cases hyx : y = x
    · simp [hyx]
    · by_cases hy : y ∈ xs
      · simp [hy, hyx]
      · simp [hy, hyx]

theorem keep_first_nodup (l : List Var) (h : l.Nodup) : keep_first l = l := by
  induction l with
  | nil => rfl
  | cons x xs ih =>
    rw [List.nodup_cons] at h
    simp only [keep_first, ih h.2, List.cons.injEq, true_and]
    apply List.filter_eq_self.mpr
    intro y hy
    have : y ≠ x := fun e => h.1 (e ▸ hy)
    simp [this]

theorem mem_keep_first (l : List Var) (v : Var) : v ∈ keep_first l ↔ v ∈ l := by
  induction l with
  | nil => simp [keep_first]
  | cons x xs ih =>
    simp only [keep_first, List.mem_cons, List.mem_filter, ih, decide_eq_true_eq]
    by_cases h : v = x
    · simp [h]
    · simp [h]

theorem keep_first_is_nodup (l : List Var) : (keep_first l).Nodup := by
  induction l with
  | nil => simp [keep_first]
  | cons x xs ih =>
    simp only [keep_first, List.nodup_cons, List.mem_filter, decide_eq_true_eq, ne_eq,
      not_true_eq_false, and_false, not_false_eq_true, true_and]
    exact ih.filter _

theorem takeWhile_eq_take_indexOf (l : List Var) (o : Objid) (h : l.all Var.is_obj = true) :
    l.takeWhile (fun v => v.v_obj != o) = l.take (l.indexOf (Var.obj o)) := by
  induction l with
  | nil => rfl
  | cons x xs ih =>
    simp only [List.all_cons, Bool.and_eq_true] at h
    cases x with
    | obj p =>
      by_cases hp : p = o
      · subst hp
        simp [List.takeWhile, Var.v_obj, List.indexOf_cons_self]
      · have hne : Var.obj p ≠ Var.obj o := fun e => hp (by cases e; rfl)
        rw [List.indexOf_cons_ne _ hne, List.take_succ_cons, ← ih h.2]
        have hb : ((Var.obj p).v_obj != o) = true := by simpa [Var.v_obj] using hp
        rw [List.takeWhile_cons, hb]
        rfl
    | none => simp [Var.is_obj] at h
    | int n => simp [Var.is_obj] at h
    | str s => simp [Var.is_obj] at h
    | err e => simp [Var.is_obj] at h
    | list l => simp [Var.is_obj] at h
    | anon a => simp [Var.is_obj] at h

theorem recycle_new_parents_eq (db : DB) (oid : Objid) (cp op : Var)
    (h : cp.elems.all Var.is_obj = true) :
    recycle_new_parents db oid cp op
      = keep_first
          (cp.elems.take (cp.elems.indexOf (Var.obj oid))
            ++ inherited_parents db op
            ++ cp.elems.drop (cp.elems.indexOf (Var.obj oid) + 1)) := by
  have hlen : (cp.elems.takeWhile (fun v => v.v_obj != oid)).length
      = min (cp.elems.indexOf (Var.obj oid)) cp.elems.length := by
    rw [takeWhile_eq_take_indexOf _ _ h, List.length_take]
  have hle : cp.elems.indexOf (Var.obj oid) ≤ cp.elems.length := List.indexOf_le_length
  rw [Nat.min_eq_left hle] at hlen
  have hmid : (if op.is_obj = true then
        (if valid db op.v_obj = true then
          setadd ((cp.elems.takeWhile (fun v => v.v_obj != oid)).foldl setadd []) op
        else (cp.elems.takeWhile (fun v => v.v_obj != oid)).foldl setadd [])
      else op.elems.foldl setadd
        ((cp.elems.takeWhile (fun v => v.v_obj != oid)).foldl setadd []))
      = (inherited_parents db op).foldl setadd
        ((cp.elems.takeWhile (fun v => v.v_obj != oid)).foldl setadd []) := by
    unfold inherited_parents
    by_cases h1 : op.is_obj = true
    · by_cases h2 : valid db op.v_obj = true
      · simp [h1, h2]
      · simp [h1, h2]
    · simp [h1]
  unfold recycle_new_parents
  simp only []
  rw [hmid, hlen, ← List.foldl_append, ← List.foldl_append, foldl_setadd_nil,
    takeWhile_eq_take_indexOf _ _ h, List.append_assoc]

theorem reparent_arg_eq (db : DB) (oid c : Objid)
    (h : (db_object_parents db c).elems.all Var.is_obj = true) :
    recycle_reparent_arg db oid c
      = reparented db oid (db_object_parents db c) (db_object_parents db oid) := by
  unfold recycle_reparent_arg reparented
  split
  · rfl
  · rw [recycle_new_parents_eq db oid _ _ h]

theorem recycle_children_loop_step (env : environment) (oid : Objid) (fuel : Nat) (db : DB)
    (hc : get_first_children db oid ≠ NOTHING) :
    recycle_children_loop env oid (fuel + 1) db
      = recycle_children_loop env oid fuel
          (db_change_parents env db (Var.obj (get_first_children db oid))
            (recycle_reparent_arg db oid (get_first_children db oid))).2 := by
  rw [recycle_children_loop]
  simp only [hc, if_false]
  unfold recycle_reparent_arg
  split <;> rfl

theorem take_drop_of_nodup (l : List Var) (v : Var) (h : l.Nodup) :
    v ∉ l.take (l.indexOf v) ∧ v ∉ l.drop (l.indexOf v + 1)
      ∧ (∀ y ∈ l.take (l.indexOf v), y ∉ l.drop (l.indexOf v + 1))
      ∧ (l.take (l.indexOf v)).Nodup ∧ (l.drop (l.indexOf v + 1)).Nodup := by
  induction l with
  | nil => simp
  | cons x xs ih =>
    rw [List.nodup_cons] at h
    by_cases hx : x = v
    · subst hx
      simp [List.indexOf_cons_self, h.1, h.2]
    · obtain ⟨i1, i2, i3, i4, i5⟩ := ih h.2
      rw [List.indexOf_cons_ne _ hx]
      simp only [List.take_succ_cons, List.drop_succ_cons, List.mem_cons, not_or,
        List.nodup_cons]
      refine ⟨⟨fun e => hx e.symm, i1⟩, i2, ?_, ⟨?_, i4⟩, i5⟩
      · intro y hy
        rcases hy with hy | hy
        · rw [hy]
          exact fun hm => h.1 (List.mem_of_mem_drop hm)
        · exact i3 y hy
      · exact fun hm => h.1 (List.mem_of_mem_take hm)

theorem reparented_list (db : DB) (o : Objid) (cp op : Var) (hlist : cp.is_obj = false)
    (hnodup : cp.elems.Nodup) :
    reparented db o cp op
      = Var.list
          (cp.elems.take (cp.elems.indexOf (Var.obj o))
            ++ (keep_first (inherited_parents db op)).filter
              (fun y => decide (y ∉ cp.elems.take (cp.elems.indexOf (Var.obj o))))
            ++ (cp.elems.drop (cp.elems.indexOf (Var.obj o) + 1)).filter
              (fun y => decide (y ∉ inherited_parents db op))) := by
  obtain ⟨_, _, i3, i4, i5⟩ := take_drop_of_nodup cp.elems (Var.obj o) hnodup
  unfold reparented
  simp only [hlist, Bool.false_eq_true, if_false, Var.list.injEq]
  rw [keep_first_append, keep_first_append, keep_first_nodup _ i4, keep_first_nodup _ i5]
  congr 1
  apply List.filter_congr
  intro y hy
  have : y ∉ cp.elems.take (cp.elems.indexOf (Var.obj o)) := fun hm => i3 y hm hy
  simp [this]

theorem parents_after_change (env : environment) (db : DB) (c : Objid) (new_parents : Var)
    (hok : env.parents_ok db (Var.obj c) new_parents = true) (hv : valid db c = true) :
    db_object_parents (db_change_parents env db (Var.obj c) new_parents).2 c = new_parents := by
  obtain ⟨x, hx⟩ := (valid_iff_find db c).mp hv
  unfold db_change_parents
  rw [if_pos hok]
  show db_object_parents (dbpriv_update_object db c _) c = new_parents
  unfold db_object_parents
  rw [find_update_eq db c _ x hx]

/-- C17 (as amended): in the final phase of recycle for a permanent object `o`
each round of the children loop hands the first child `c` of `o` to
db_change_parents with these parents, which `c` stores when the change is
accepted: if `c` stores a single parent, the parents of `o`; if `c` stores a
list `cp`, the list made of the parents before `o`, the parents of `o` (a
single parent only when it is valid) and the parents after `o`, the first
occurrence of each value being kept.  When `cp` has no repetitions this is the
parents before `o`, then the parents of `o` not among them, then the parents
after `o` that are not parents of `o`; it has no repetitions, and it does not
contain `o` unless `o` is among its own parents. -/
theorem recycle_reparents_child (env : environment) (db : DB) (oid : Objid) (fuel : Nat)
    (hc : get_first_children db oid ≠ NOTHING)
    (hobjs : (db_object_parents db (get_first_children db oid)).elems.all Var.is_obj = true) :
    recycle_children_loop env oid (fuel + 1) db
        = recycle_children_loop env oid fuel
          (db_change_parents env db (Var.obj (get_first_children db oid))
            (reparented db oid (db_object_parents db (get_first_children db oid))
              (db_object_parents db oid))).2
      ∧ (env.parents_ok db (Var.obj (get_first_children db oid))
            (reparented db oid (db_object_parents db (get_first_children db oid))
              (db_object_parents db oid)) = true →
          valid db (get_first_children db oid) = true →
          db_object_parents
              (db_change_parents env db (Var.obj (get_first_children db oid))
                (reparented db oid (db_object_parents db (get_first_children db oid))
                  (db_object_parents db oid))).2
              (get_first_children db oid)
            = reparented db oid (db_object_parents db (get_first_children db oid))
              (db_object_parents db oid))
      ∧ (∀ cp op : Var, cp.is_obj = true → reparented db oid cp op = op)
      ∧ (∀ cp op : Var, cp.is_obj = false →
          ∃ l, reparented db oid cp op = Var.list l ∧ l.Nodup
            ∧ l = keep_first
                (cp.elems.take (cp.elems.indexOf (Var.obj oid))
                  ++ inherited_parents db op
                  ++ cp.elems.drop (cp.elems.indexOf (Var.obj oid) + 1)))
      ∧ (∀ cp op : Var, cp.is_obj = false → cp.elems.Nodup →
          reparented db oid cp op
              = Var.list
                (cp.elems.take (cp.elems.indexOf (Var.obj oid))
                  ++ (keep_first (inherited_parents db op)).filter
                    (fun y => decide (y ∉ cp.elems.take (cp.elems.indexOf (Var.obj oid))))
                  ++ (cp.elems.drop (cp.elems.indexOf (Var.obj oid) + 1)).filter
                    (fun y => decide (y ∉ inherited_parents db op)))
            ∧ (Var.obj oid ∉ inherited_parents db op →
              Var.obj oid ∉ (reparented db oid cp op).elems)) := by
  refine ⟨?_, ?_, ?_, ?_, ?_⟩
  · rw [recycle_children_loop_step env oid fuel db hc, reparent_arg_eq db oid _ hobjs]
  · intro hok hv
    exact parents_after_change env db _ _ hok hv
  · intro cp op h
    simp [reparented, h]
  · intro cp op h
    refine ⟨_, ?_, keep_first_is_nodup _, rfl⟩
    simp [reparented, h]
  · intro cp op h hn
    refine ⟨reparented_list db oid cp op h hn, ?_⟩
    intro hself
    obtain ⟨i1, i2, _, _, _⟩ := take_drop_of_nodup cp.elems (Var.obj oid) hn
    rw [reparented_list db oid cp op h hn]
    simp only [Var.elems, List.mem_append, List.mem_filter, mem_keep_first, not_or, not_and]
    exact ⟨⟨i1, fun hm => absurd hm hself⟩, fun hm => absurd hm i2⟩

theorem recycle_reparents_child_witness :
    recycle_children_loop sample_env 1 (4 + 1) sample_db_family
      = recycle_children_loop sample_env 1 4
          (db_change_parents sample_env sample_db_family
            (Var.obj (get_first_children sample_db_family 1))
            (reparented sample_db_family 1
              (db_object_parents sample_db_family (get_first_children sample_db_family 1))
              (db_object_parents sample_db_family 1))).2 :=
  (recycle_reparents_child sample_env sample_db_family 1 4 (by decide) (by decide)).1

/-- C17 (counterexample): `#4` has the parents `#1`, `#2`, `#3`, and `#1` has
the parents `#3`, `#2`.  When `#1` is recycled, `#4` receives the parents `#3`,
`#2`: its remaining original parents `#2` and `#3` have changed places. -/
theorem recycle_reorders_remaining_parents :
    db_object_parents sample_db_family 4 = Var.list [Var.obj 1, Var.obj 2, Var.obj 3]
      ∧ db_object_parents sample_db_family 1 = Var.list [Var.obj 3, Var.obj 2]
      ∧ (bf_recycle sample_env sample_db_family (Var.list [Var.obj 1]) 0 1 Var.none).map
          (fun out => (out.pack, valid out.db 1, db_object_parents out.db 4))
        = .ok (no_var_pack, false, Var.list [Var.obj 3, Var.obj 2]) :=
  ⟨rfl, rfl, rfl⟩

/-! ## recycle: quota accounting -/

theorem accounts_kept_refl (db : DB) : accounts_kept db db :=
  ⟨fun _ => rfl, fun _ => rfl, rfl⟩

theorem accounts_kept_trans (db1 db2 db3 : DB) (h12 : accounts_kept db1 db2)
    (h23 : accounts_kept db2 db3) : accounts_kept db1 db3 :=
  ⟨fun x => (h23.1 x).trans (h12.1 x), fun a => (h23.2.1 a).trans (h12.2.1 a),
    h23.2.2.trans h12.2.2⟩

theorem accounts_kept_update (db : DB) (oid : Objid) (f : Object → Object)
    (hf : ∀ o, (f o).owner = o.owner ∧ (f o).quota = o.quota) :
    accounts_kept db (dbpriv_update_object db oid f) := by
  refine ⟨?_, ?_, update_object_objects_length db oid f⟩
  · intro x
    rw [find_update]
    split
    · rename_i h
      subst h
      cases dbpriv_find_object db x with
      | none => rfl
      | some o => simp [(hf o).1, (hf o).2]
    · rfl
  · intro a
    rw [update_object_anons]

theorem accounts_kept_update2 (db : DB) (v : Var) (f : Object → Object)
    (hf : ∀ o, (f o).owner = o.owner ∧ (f o).quota = o.quota) :
    accounts_kept db (dbpriv_update_object2 db v f) := by
  cases v with
  | obj o => exact accounts_kept_update db o f hf
  | anon a =>
    simp only [dbpriv_update_object2]
    cases hget : db.anons.getD a Option.none with
    | none => exact accounts_kept_refl db
    | some o =>
      refine ⟨fun _ => rfl, ?_, rfl⟩
      intro b
      simp only [List.getD_eq_getElem?_getD, List.getElem?_set] at hget ⊢
      by_cases hab : a = b
      · subst hab
        by_cases hlt : a < db.anons.length
        · simp only [hlt, if_true, ↓reduceIte, Option.getD_some, Option.map_some']
          rw [hget]
          simp [(hf o).1]
        · simp only [hlt, if_false, ↓reduceIte]
          have hnone : db.anons[a]? = Option.none := List.getElem?_eq_none (by omega)
          rw [hnone] at hget
          simp at hget
      · simp only [hab, if_false]
  | none => exact accounts_kept_refl db
  | int n => exact accounts_kept_refl db
  | str s => exact accounts_kept_refl db
  | err e => exact accounts_kept_refl db
  | list l => exact accounts_kept_refl db

theorem accounts_kept_change_location (db : DB) (oid where_ : Objid) :
    accounts_kept db (db_change_location db oid where_) :=
  accounts_kept_update db oid _ (fun _ => ⟨rfl, rfl⟩)

theorem accounts_kept_set_flag (db : DB) (v : Var) (f : db_object_flag) :
    accounts_kept db (db_set_object_flag2 db v f) :=
  accounts_kept_update2 db v _ (fun _ => ⟨rfl, rfl⟩)

theorem accounts_kept_change_parents (env : environment) (db : DB) (obj new_parents : Var) :
    accounts_kept db (db_change_parents env db obj new_parents).2 := by
  unfold db_change_parents
  split
  · exact accounts_kept_update2 db obj _ (fun _ => ⟨rfl, rfl⟩)
  · exact accounts_kept_refl db

theorem accounts_kept_move_to_nothing (env : environment) (db : DB) (calls : List verb_call)
    (oid : Objid) : accounts_kept db (move_to_nothing env db calls oid).2.1 :=
  accounts_kept_change_location db oid NOTHING

theorem accounts_kept_contents_loop (env : environment) (oid : Objid) (fuel : Nat) (db : DB)
    (calls : List verb_call) (r : Bool × DB × List verb_call)
    (h : recycle_contents_loop env oid fuel db calls = .ok r) : accounts_kept db r.2.1 := by
  induction fuel generalizing db calls with
  | zero => simp [recycle_contents_loop] at h
  | succ fuel ih =>
    rw [recycle_contents_loop] at h
    simp only [] at h
    by_cases hc : get_first_contents db oid = NOTHING
    · rw [if_pos hc] at h
      cases h
      exact accounts_kept_refl db
    · rw [if_neg hc] at h
      by_cases hm : (move_to_nothing env db calls (get_first_contents db oid)).1 = true
      · rw [if_pos hm] at h
        cases h
        exact accounts_kept_move_to_nothing env db calls _
      · rw [if_neg hm] at h
        exact accounts_kept_trans _ _ _ (accounts_kept_move_to_nothing env db calls _) (ih _ _ h)

theorem accounts_kept_children_loop (env : environment) (oid : Objid) (fuel : Nat) (db db3 : DB)
    (h : recycle_children_loop env oid fuel db = .ok db3) : accounts_kept db db3 := by
  induction fuel generalizing db with
  | zero => simp [recycle_children_loop] at h
  | succ fuel ih =>
    by_cases hc : get_first_children db oid = NOTHING
    · rw [recycle_children_loop] at h
      simp only [hc, if_true] at h
      cases h
      exact accounts_kept_refl _
    · rw [recycle_children_loop_step env oid fuel db hc] at h
      exact accounts_kept_trans _ _ _ (accounts_kept_change_parents env db _ _) (ih _ h)

theorem accounts_kept_quota (db db2 : DB) (h : accounts_kept db db2) (x : Objid) :
    db_object_quota db2 x = db_object_quota db x := by
  have := h.1 x
  unfold db_object_quota
  cases h1 : dbpriv_find_object db2 x <;> cases h2 : dbpriv_find_object db x <;>
    simp [h1, h2] at this ⊢
  exact this.2

theorem accounts_kept_owner (db db2 : DB) (h : accounts_kept db db2) (x : Objid) :
    db_object_owner db2 x = db_object_owner db x := by
  have := h.1 x
  unfold db_object_owner
  cases h1 : dbpriv_find_object db2 x <;> cases h2 : dbpriv_find_object db x <;>
    simp [h1, h2] at this ⊢
  exact this.1

theorem accounts_kept_owner2 (db db2 : DB) (h : accounts_kept db db2) (v : Var) :
    db_object_owner2 db2 v = db_object_owner2 db v := by
  cases v with
  | obj o => exact accounts_kept_owner db db2 h o
  | anon a =>
    have := h.2.1 a
    simp only [db_object_owner2, dbpriv_dereference]
    revert this
    generalize db2.anons.getD a Option.none = u
    generalize db.anons.getD a Option.none = w
    intro this
    cases u <;> cases w <;> simp at this ⊢
    exact this
  | none => rfl
  | int n => rfl
  | str s => rfl
  | err e => rfl
  | list l => rfl

theorem accounts_kept_valid (db db2 : DB) (h : accounts_kept db db2) (x : Objid) :
    valid db2 x = valid db x := by
  have := h.1 x
  unfold valid
  cases h1 : dbpriv_find_object db2 x <;> cases h2 : dbpriv_find_object db x <;>
    simp [h1, h2] at this ⊢

theorem accounts_kept_is_valid (db db2 : DB) (h : accounts_kept db db2) (v : Var) :
    is_valid db2 v = is_valid db v := by
  cases v with
  | obj o => exact accounts_kept_valid db db2 h o
  | anon a =>
    have := h.2.1 a
    simp only [is_valid, dbpriv_dereference]
    revert this
    generalize db2.anons.getD a Option.none = u
    generalize db.anons.getD a Option.none = w
    intro this
    cases u <;> cases w <;> simp at this ⊢
  | none => rfl
  | int n => rfl
  | str s => rfl
  | err e => rfl
  | list l => rfl

theorem find_destroy_eq (db : DB) (oid : Objid) :
    dbpriv_find_object (db_destroy_object db oid) oid = Option.none := by
  unfold db_destroy_object
  cases h : dbpriv_find_object db oid with
  | none => exact h
  | some x =>
    obtain ⟨h0, hlt, _⟩ := find_object_some db oid x h
    rw [find_object_of_getElem _ _ h0]
    simp [List.getElem?_set, hlt]

theorem quota_incr (db : DB) (player x : Objid) :
    db_object_quota (incr_quota db player) x
      = if x = player then (db_object_quota db x).map (fun q => q + 1)
        else db_object_quota db x := by
  unfold db_object_quota incr_quota
  rw [find_update]
  by_cases h : x = player
  · subst h
    rw [if_pos rfl, if_pos rfl]
    cases dbpriv_find_object db x <;> rfl
  · rw [if_neg h, if_neg h]

theorem destroy_anonymous_invalid (db : DB) (a : Nat) :
    is_valid (db_destroy_anonymous_object db a) (Var.anon a) = false := by
  simp only [is_valid, dbpriv_dereference, db_destroy_anonymous_object]
  cases h : db.anons.getD a Option.none with
  | none => simp only [h]; rfl
  | some o =>
    simp only [List.getD_eq_getElem?_getD, List.getElem?_set]
    by_cases hlt : a < db.anons.length
    · simp [hlt]
    · simp only [hlt, if_true, if_false]
      rfl

theorem destroy_anonymous_objects (db : DB) (a : Nat) :
    (db_destroy_anonymous_object db a).objects = db.objects := by
  unfold db_destroy_anonymous_object
  split <;> rfl


theorem contents_nil_iff (db : DB) (oid : Objid) :
    db_contents db oid = [] ↔ no_contents db oid := by
  unfold db_contents no_contents
  rw [List.filter_eq_nil_iff]
  constructor
  · intro h c hc hloc
    apply h c (mem_all_objids db c hc)
    simp [hc, hloc]
  · intro h c _ hp
    simp only [Bool.and_eq_true, beq_iff_eq] at hp
    exact h c hp.1 hp.2

theorem contents_nil_of_first (db : DB) (oid : Objid)
    (h : get_first_contents db oid = NOTHING) : db_contents db oid = [] := by
  unfold get_first_contents at h
  cases hc : db_contents db oid with
  | nil => rfl
  | cons c cs =>
    rw [hc] at h
    have hmem : c ∈ db_contents db oid := by rw [hc]; exact List.mem_cons_self _ _
    unfold db_contents at hmem
    have hv := (List.mem_filter.mp hmem).2
    simp only [Bool.and_eq_true] at hv
    have h0 := (valid_bounds db c hv.1).1
    simp only [List.headD_cons] at h
    rw [h] at h0
    exact absurd h0 (by decide)

theorem contents_loop_done (env : environment) (oid : Objid) (fuel : Nat) (db : DB)
    (calls : List verb_call) (db1 : DB) (calls1 : List verb_call)
    (h : recycle_contents_loop env oid fuel db calls = .ok (false, db1, calls1)) :
    db_contents db1 oid = [] := by
  induction fuel generalizing db calls with
  | zero => simp [recycle_contents_loop] at h
  | succ fuel ih =>
    unfold recycle_contents_loop at h
    simp only [] at h
    split at h
    · rename_i hc
      cases h
      exact contents_nil_of_first _ oid hc
    · split at h
      · cases h
      · exact ih _ _ h

theorem no_contents_update (db : DB) (oid o : Objid) (f : Object → Object)
    (hf : ∀ r, (f r).location = r.location) (h : no_contents db oid) :
    no_contents (dbpriv_update_object db o f) oid := by
  intro c hc
  rw [valid_update] at hc
  have := h c hc
  unfold db_object_location at this ⊢
  rw [find_update]
  by_cases hco : c = o
  · subst hco
    rw [if_pos rfl]
    cases hx : dbpriv_find_object db c with
    | none => rw [hx] at this; exact this
    | some r =>
      rw [hx] at this
      simp only [Option.map_some']
      rw [hf]
      exact this
  · rw [if_neg hco]
    exact this

theorem no_contents_update2 (db : DB) (oid : Objid) (v : Var) (f : Object → Object)
    (hf : ∀ r, (f r).location = r.location) (h : no_contents db oid) :
    no_contents (dbpriv_update_object2 db v f) oid := by
  cases v with
  | obj o => exact no_contents_update db oid o f hf h
  | anon a =>
    simp only [dbpriv_update_object2]
    split
    · exact h
    · exact h
  | none => exact h
  | int n => exact h
  | str s => exact h
  | err e => exact h
  | list l => exact h

theorem no_contents_change_parents (env : environment) (db : DB) (oid : Objid)
    (obj new_parents : Var) (h : no_contents db oid) :
    no_contents (db_change_parents env db obj new_parents).2 oid := by
  unfold db_change_parents
  split
  · exact no_contents_update2 db oid obj _ (fun _ => rfl) h
  · exact h

theorem no_contents_children_loop (env : environment) (oid : Objid) (fuel : Nat) (db db3 : DB)
    (hloop : recycle_children_loop env oid fuel db = .ok db3) (h : no_contents db oid) :
    no_contents db3 oid := by
  induction fuel generalizing db with
  | zero => simp [recycle_children_loop] at hloop
  | succ fuel ih =>
    unfold recycle_children_loop at hloop
    simp only [] at hloop
    split at hloop
    · cases hloop
      exact h
    · refine ih _ hloop ?_
      split
      · exact no_contents_change_parents env db oid _ _ h
      · exact no_contents_change_parents env db oid _ _ h

theorem no_contents_move_to_nothing (env : environment) (db : DB) (calls : List verb_call)
    (oid : Objid) (h : no_contents db oid) :
    no_contents (move_to_nothing env db calls oid).2.1 oid := by
  show no_contents (db_change_location db oid NOTHING) oid
  intro c hc
  rw [valid_change_location] at hc
  cases hv : valid db oid with
  | false =>
    have : db_change_location db oid NOTHING = db := by
      unfold db_change_location dbpriv_update_object
      unfold valid at hv
      cases hx : dbpriv_find_object db oid with
      | none => rfl
      | some r => rw [hx] at hv; cases hv
    rw [this]
    exact h c hc
  | true =>
    rw [location_change_location db oid NOTHING c hv]
    split
    · intro hn
      have h0 := (valid_bounds db oid hv).1
      rw [← hn] at h0
      exact absurd h0 (by decide)
    · exact h c hc

theorem no_contents_destroy (db : DB) (oid : Objid) (h : no_contents db oid) :
    no_contents (db_destroy_object db oid) oid := by
  intro c hc
  have hne : c ≠ oid := by
    intro hco
    subst hco
    unfold valid at hc
    rw [find_destroy_eq] at hc
    cases hc
  unfold valid at hc
  unfold db_object_location
  rw [find_destroy_ne _ _ _ hne] at hc ⊢
  exact h c hc

theorem moving_contents_accounts (env : environment) (db : DB) (calls : List verb_call)
    (obj : Var) (out : outcome Var)
    (hout : bf_recycle_moving_contents env db calls obj = .ok out) :
    (out.pack = make_call_pack 2 obj → accounts_kept db out.db)
      ∧ (is_valid db obj = false → out.db = db)
      ∧ (out.pack = no_var_pack → is_valid db obj = true →
          is_valid out.db obj = false
            ∧ (∀ oid, obj = Var.obj oid → db_contents out.db oid = [])
            ∧ ∀ x, Var.obj x ≠ obj → db_object_quota out.db x
                = if x = db_object_owner2 db obj then (db_object_quota db x).map (fun q => q + 1)
                  else db_object_quota db x) := by
  unfold bf_recycle_moving_contents at hout
  split at hout
  · rename_i hv
    cases hout
    refine ⟨(fun h => by cases h), fun _ => rfl, fun _ h => ?_⟩
    rw [h] at hv
    cases hv
  rename_i hv
  have hvalid : is_valid db obj = true := by
    cases hb : is_valid db obj
    · rw [hb] at hv; exact absurd rfl hv
    · rfl
  split at hout
  · rename_i hobj
    have hoid : obj = Var.obj obj.v_obj := by cases obj <;> first | rfl | cases hobj
    generalize obj.v_obj = oid at hoid hout
    subst hoid
    simp only [] at hout
    split at hout
    · cases hout
    · rename_i db1 calls1 hloop
      cases hout
      refine ⟨fun _ => accounts_kept_contents_loop env _ _ db calls _ hloop,
        fun h => ?_, (fun h => by cases h)⟩
      rw [hvalid] at h
      cases h
    · rename_i db1 calls1 hloop
      have h1 : accounts_kept db db1 := accounts_kept_contents_loop env _ _ db calls _ hloop
      split at hout
      · cases hout
        refine ⟨fun _ => accounts_kept_trans _ _ _ h1 (accounts_kept_move_to_nothing env db1 calls1 _),
          fun h => ?_, (fun h => by cases h)⟩
        rw [hvalid] at h
        cases h
      · split at hout
        · cases hout
        · rename_i db3 hkids
          cases hout
          have h2 : ∀ (c : Prop) [Decidable c],
              accounts_kept db1 (if c then (move_to_nothing env db1 calls1 oid).2.1 else db1) := by
            intro c _
            split
            · exact accounts_kept_move_to_nothing env db1 calls1 oid
            · exact accounts_kept_refl db1
          have h3 := accounts_kept_children_loop env oid _ _ db3 hkids
          have h4 := accounts_kept_change_parents env db3 (Var.obj oid) nothing
          have h14 := accounts_kept_trans _ _ _ h1
            (accounts_kept_trans _ _ _ (h2 _) (accounts_kept_trans _ _ _ h3 h4))
          have k1 : no_contents db1 oid :=
            (contents_nil_iff db1 oid).mp (contents_loop_done env oid _ db calls db1 calls1 hloop)
          have k2 : ∀ (c : Prop) [Decidable c],
              no_contents (if c then (move_to_nothing env db1 calls1 oid).2.1 else db1) oid := by
            intro c _
            split
            · exact no_contents_move_to_nothing env db1 calls1 oid k1
            · exact k1
          have k3 := no_contents_children_loop env oid _ _ db3 hkids (k2 _)
          have k4 := no_contents_change_parents env db3 oid (Var.obj oid) nothing k3
          refine ⟨(fun h => by cases h), fun h => ?_, fun _ _ => ⟨?_, ?_, ?_⟩⟩
          · rw [hvalid] at h
            cases h
          · show (dbpriv_find_object _ oid).isSome = false
            rw [find_destroy_eq]
            rfl
          · intro oid2 h2oid
            cases h2oid
            refine (contents_nil_iff _ oid).mpr (no_contents_destroy _ oid ?_)
            exact no_contents_update _ oid _ _ (fun _ => rfl) k4
          · intro x hx
            have hne : x ≠ oid := fun h => hx (by rw [h])
            show db_object_quota (db_destroy_object _ oid) x = _
            have hd : ∀ d : DB, db_object_quota (db_destroy_object d oid) x
                = db_object_quota d x := by
              intro d
              unfold db_object_quota
              rw [find_destroy_ne _ _ _ hne]
            rw [hd, quota_incr, accounts_kept_owner db _ h14 oid, accounts_kept_quota db _ h14 x]
            rfl
  split at hout
  · rename_i hno hanon
    have ha : ∃ a, obj = Var.anon a := by
      cases obj <;> first | exact ⟨_, rfl⟩ | cases hanon
    obtain ⟨a, rfl⟩ := ha
    cases hout
    refine ⟨(fun h => by cases h), fun h => ?_, fun _ _ => ⟨?_, ?_, ?_⟩⟩
    · rw [hvalid] at h
      cases h
    · exact destroy_anonymous_invalid _ a
    · intro oid h
      cases h
    · intro x _
      show db_object_quota (db_destroy_anonymous_object _ a) x = _
      have hd : ∀ d : DB, db_object_quota (db_destroy_anonymous_object d a) x
          = db_object_quota d x := by
        intro d
        unfold db_object_quota dbpriv_find_object
        rw [destroy_anonymous_objects]
      rw [hd, quota_incr]
  · cases hout


theorem moving_contents_quota (env : environment) (db : DB) (calls : List verb_call)
    (obj : Var) (out : outcome Var)
    (hout : bf_recycle_moving_contents env db calls obj = .ok out) :
    (out.pack = no_var_pack ∧ is_valid db obj = true →
        is_valid out.db obj = false
          ∧ (∀ oid, obj = Var.obj oid → db_contents out.db oid = [])
          ∧ ∀ x, Var.obj x ≠ obj → db_object_quota out.db x
              = if x = db_object_owner2 db obj then (db_object_quota db x).map (fun q => q + 1)
                else db_object_quota db x)
      ∧ (¬(out.pack = no_var_pack ∧ is_valid db obj = true) → accounts_kept db out.db) := by
  have hm := moving_contents_accounts env db calls obj out hout
  refine ⟨fun h => hm.2.2 h.1 h.2, fun h => ?_⟩
  cases hv : is_valid db obj with
  | false =>
    rw [hm.2.1 hv]
    exact accounts_kept_refl db
  | true =>
    rcases bf_recycle_moving_contents_pack env db calls obj out hout with hp | hp
    · exact hm.1 hp
    · exact absurd ⟨hp, hv⟩ h

/-- C18: an entry of bf_recycle, at step 1 or at a re-entry at step 2, that
returns no value for an object that was valid has destroyed the object, a
permanent object in which no valid object is located or an anonymous object,
and has added one to the quota of its owner, the quota of every other object
being left as it was.  Every other entry, whether it returns an error, asks to
be continued at step 2 or finds the object no longer valid, leaves the object
as valid as it was and changes no quota.  The operation ends with the entry
that returns no value, so the quota is incremented once. -/
theorem bf_recycle_quota (env : environment) (db : DB) (value : Var) (progr : Objid)
    (func_pc : Nat) (data : Var) (out : outcome Var)
    (hout : bf_recycle env db value progr func_pc data = .ok out) :
    (out.pack = no_var_pack ∧ is_valid db (recycle_object value func_pc data) = true →
        is_valid out.db (recycle_object value func_pc data) = false
          ∧ (∀ oid, recycle_object value func_pc data = Var.obj oid → db_contents out.db oid = [])
          ∧ ∀ x, Var.obj x ≠ recycle_object value func_pc data →
              db_object_quota out.db x
                = if x = db_object_owner2 db (recycle_object value func_pc data)
                  then (db_object_quota db x).map (fun q => q + 1)
                  else db_object_quota db x)
      ∧ (¬(out.pack = no_var_pack ∧ is_valid db (recycle_object value func_pc data) = true) →
          is_valid out.db (recycle_object value func_pc data)
              = is_valid db (recycle_object value func_pc data)
            ∧ ∀ x, db_object_quota out.db x = db_object_quota db x) := by
  have hkept : ∀ v, accounts_kept db out.db →
      is_valid out.db v = is_valid db v ∧ ∀ x, db_object_quota out.db x = db_object_quota db x :=
    fun v h => ⟨accounts_kept_is_valid db out.db h v, accounts_kept_quota db out.db h⟩
  unfold bf_recycle at hout
  split at hout
  · have hobj : recycle_object value 1 data = value.nth 1 := rfl
    rw [hobj]
    simp only [] at hout
    generalize (if (value.nth 1).is_obj = true then (value.nth 1).v_obj else NOTHING) = recv
      at hout
    split at hout
    · cases hout
      exact ⟨(fun h => by cases h.1), fun _ => hkept _ (accounts_kept_refl db)⟩
    split at hout
    · cases hout
      exact ⟨(fun h => by cases h.1), fun _ => hkept _ (accounts_kept_refl db)⟩
    split at hout
    · cases hout
      exact ⟨(fun h => by cases h.1), fun _ => hkept _ (accounts_kept_refl db)⟩
    have hk := accounts_kept_set_flag db (value.nth 1) db_object_flag.FLAG_RECYCLED
    split at hout
    · cases hout
      exact ⟨(fun h => by cases h.1), fun _ => hkept _ hk⟩
    · have hm := moving_contents_quota env _ _ _ out hout
      rw [accounts_kept_is_valid db _ hk, accounts_kept_owner2 db _ hk] at hm
      refine ⟨fun h => ?_, fun h => hkept _ (accounts_kept_trans _ _ _ hk (hm.2 h))⟩
      refine ⟨(hm.1 h).1, (hm.1 h).2.1, fun x hx => ?_⟩
      rw [(hm.1 h).2.2 x hx, accounts_kept_quota db _ hk x]
  · have hobj : recycle_object value 2 data = data := rfl
    rw [hobj]
    have hm := moving_contents_quota env _ _ _ out hout
    exact ⟨hm.1, fun h => hkept _ (hm.2 h)⟩
  · cases hout

theorem bf_recycle_quota_witness :
    bf_recycle sample_env sample_db (Var.list [Var.obj 2]) 0 1 Var.none = .ok sample_recycled
      ∧ is_valid sample_recycled.db (Var.obj 2) = false
      ∧ db_contents sample_recycled.db 2 = []
      ∧ db_object_quota sample_recycled.db 1
          = (db_object_quota sample_db 1).map (fun q => q + 1)
      ∧ db_object_quota sample_recycled.db 0 = db_object_quota sample_db 0 :=
  have h := (bf_recycle_quota sample_env sample_db (Var.list [Var.obj 2]) 0 1 Var.none
    sample_recycled rfl).1 ⟨rfl, rfl⟩
  ⟨rfl, h.1, h.2.1 2 rfl, h.2.2 1 (by decide), h.2.2 0 (by decide)⟩

/-! ## move: the accept call -/

theorem do_move_case3_not_nacc (env : environment) (db : DB) (calls : List verb_call)
    (data : bf_move_data) :
    (do_move_case3 env db calls data).pack ≠ make_error_pack error.E_NACC := by
  unfold do_move_case3 do_move_case4
  simp only []
  split
  · split
    · intro h; cases h
    · split
      · rename_i he
        rw [he]
        intro h; cases h
      · intro h; cases h
  · intro h; cases h

theorem do_move_accepts_decided_nacc (env : environment) (db : DB) (calls : List verb_call)
    (progr : Objid) (accepts : Bool) (data : bf_move_data) (out : outcome bf_move_data)
    (hout : do_move_accepts_decided env db calls progr accepts data = .ok out) :
    (out.pack = make_error_pack error.E_NACC ↔ (is_wizard db progr = false ∧ accepts = false))
      ∧ (out.pack = make_error_pack error.E_NACC → out.db = db ∧ out.calls = calls) := by
  unfold do_move_accepts_decided at hout
  simp only [] at hout
  split at hout
  · rename_i hc
    cases hout
    simp only [Bool.and_eq_true, Bool.not_eq_true', beq_iff_eq] at hc
    exact ⟨⟨fun _ => hc, fun _ => rfl⟩, fun _ => ⟨rfl, rfl⟩⟩
  rename_i hc
  have hno : ¬(is_wizard db progr = false ∧ accepts = false) := by
    intro h
    apply hc
    simp [h.1, h.2]
  have key : out.pack ≠ make_error_pack error.E_NACC := by
    split at hout
    · cases hout
      intro h; cases h
    split at hout
    · cases hout
    · cases hout
      intro h; cases h
    · split at hout
      · cases hout
        intro h; cases h
      · split at hout
        · rename_i he2
          cases hout
          simp only [he2]
          intro h; cases h
        · cases hout
          exact do_move_case3_not_nacc env _ _ data
  exact ⟨⟨fun h => absurd h key, fun h => absurd h hno⟩, fun h => absurd h key⟩

theorem accepts_decided_wizard (env : environment) (db : DB) (calls : List verb_call)
    (progr : Objid) (a b : Bool) (data : bf_move_data) (hwiz : is_wizard db progr = true) :
    do_move_accepts_decided env db calls progr a data
      = do_move_accepts_decided env db calls progr b data := by
  unfold do_move_accepts_decided
  simp only [hwiz, Bool.not_true, Bool.false_and]

/-- C21 (as amended): when the accept routine of the destination is not found
(call_verb reports E_VERBNF) in a move that has passed the validity and
permission checks, acceptance counts as refused: a caller who is not a wizard
is rejected with E_NACC, nothing being changed, and a wizard goes on from the
label accepts_decided exactly as after an acceptance. -/
theorem do_move_accept_not_found (env : environment) (db : DB) (value : Var) (progr : Objid)
    (data : bf_move_data) (hwhat : valid db data.what = true)
    (hwhere : valid db data.where_ = true) (hctl : controls db progr data.what = true)
    (he : env.call_verb db data.where_ "accept" (Var.obj data.where_) (make_arglist data.what)
      = error.E_VERBNF) :
    (is_wizard db progr = false →
        do_move env db value progr 1 data
          = .ok { pack := make_error_pack error.E_NACC, db := db,
                  calls := log_call [] data.where_ "accept" (Var.obj data.where_)
                    (make_arglist data.what) error.E_VERBNF })
      ∧ (is_wizard db progr = true →
        do_move env db value progr 1 data
          = do_move_accepts_decided env db
              (log_call [] data.where_ "accept" (Var.obj data.where_) (make_arglist data.what)
                error.E_VERBNF) progr true data) := by
  have hne : data.where_ ≠ NOTHING := by
    intro h
    rw [h, valid_nothing] at hwhere
    cases hwhere
  have hstep : do_move env db value progr 1 data
      = do_move_accepts_decided env db
          (log_call [] data.where_ "accept" (Var.obj data.where_) (make_arglist data.what)
            error.E_VERBNF) progr false data := by
    unfold do_move
    simp [hwhat, hwhere, hctl, hne, he]
  refine ⟨fun hw => ?_, fun hw => ?_⟩
  · rw [hstep]
    unfold do_move_accepts_decided
    simp [hw]
  · rw [hstep]
    exact accepts_decided_wizard env db _ progr false true data hw

theorem do_move_accept_not_found_witness :
    (is_wizard sample_db 0 = true →
        do_move sample_env sample_db (Var.int 0) 0 1 { what := 2, where_ := 0 }
          = do_move_accepts_decided sample_env sample_db
              (log_call [] 0 "accept" (Var.obj 0) (make_arglist 2) error.E_VERBNF) 0 true
              { what := 2, where_ := 0 })
      ∧ db_object_location sample_db 2 = 1
      ∧ (do_move sample_env sample_db (Var.int 0) 0 1 { what := 2, where_ := 0 }).map
          (fun out => (out.pack, db_object_location out.db 2))
        = .ok (no_var_pack, 0) :=
  ⟨(do_move_accept_not_found sample_env sample_db (Var.int 0) 0 { what := 2, where_ := 0 }
      (by decide) (by decide) (by decide) rfl).2, by decide, rfl⟩

/-- C21 (counterexample): no object defines an accept verb, and `#1`, who is
not a wizard and owns `#2`, moves `#2` into `#0`: the accept call reports
E_VERBNF and the move is rejected with E_NACC on that account, `#2` staying
where it was; the same move by the wizard `#0` goes through. -/
theorem do_move_accept_missing_rejected :
    sample_env.call_verb sample_db 0 "accept" (Var.obj 0) (make_arglist 2) = error.E_VERBNF
      ∧ is_wizard sample_db 1 = false ∧ controls sample_db 1 2 = true
      ∧ do_move sample_env sample_db (Var.int 0) 1 1 { what := 2, where_ := 0 }
        = .ok { pack := make_error_pack error.E_NACC, db := sample_db,
                calls := log_call [] 0 "accept" (Var.obj 0) (make_arglist 2) error.E_VERBNF }
      ∧ (do_move sample_env sample_db (Var.int 0) 0 1 { what := 2, where_ := 0 }).map
          (fun out => (out.pack, db_object_location out.db 2))
        = .ok (no_var_pack, 0) :=
  ⟨rfl, by decide, by decide, rfl, rfl⟩

theorem do_move_case3_calls (env : environment) (db : DB) (calls : List verb_call)
    (data : bf_move_data) :
    ∀ c ∈ (do_move_case3 env db calls data).calls, c ∈ calls ∨ c.vname = "enterfunc" := by
  unfold do_move_case3 do_move_case4 log_call
  simp only []
  intro c
  split
  · split
    · intro hc
      rcases List.mem_append.mp hc with h | h
      · exact Or.inl h
      · simp only [List.mem_singleton] at h
        rw [h]
        exact Or.inr rfl
    · split
      · intro hc
        rcases List.mem_append.mp hc with h | h
        · exact Or.inl h
        · simp only [List.mem_singleton] at h
          rw [h]
          exact Or.inr rfl
      · intro hc
        rcases List.mem_append.mp hc with h | h
        · exact Or.inl h
        · simp only [List.mem_singleton] at h
          rw [h]
          exact Or.inr rfl
  · intro hc
    exact Or.inl hc

theorem do_move_accepts_decided_calls (env : environment) (db : DB) (calls : List verb_call)
    (progr : Objid) (accepts : Bool) (data : bf_move_data) (out : outcome bf_move_data)
    (hout : do_move_accepts_decided env db calls progr accepts data = .ok out) :
    ∀ c ∈ out.calls, c ∈ calls ∨ c.vname = "exitfunc" ∨ c.vname = "enterfunc" := by
  have hlog : ∀ (e : error) (c : verb_call),
      c ∈ log_call calls (db_object_location db data.what) "exitfunc"
        (Var.obj (db_object_location db data.what)) (make_arglist data.what) e →
      c ∈ calls ∨ c.vname = "exitfunc" ∨ c.vname = "enterfunc" := by
    intro e c hc
    unfold log_call at hc
    rcases List.mem_append.mp hc with h | h
    · exact Or.inl h
    · simp only [List.mem_singleton] at h
      rw [h]
      exact Or.inr (Or.inl rfl)
  unfold do_move_accepts_decided at hout
  simp only [] at hout
  split at hout
  · cases hout
    exact fun c hc => Or.inl hc
  split at hout
  · cases hout
    exact fun c hc => Or.inl hc
  split at hout
  · cases hout
  · cases hout
    exact fun c hc => Or.inl hc
  · split at hout
    · cases hout
      exact fun c hc => hlog _ c hc
    · split at hout
      · cases hout
        exact fun c hc => hlog _ c hc
      · cases hout
        intro c hc
        rcases do_move_case3_calls env _ _ data c hc with h | h
        · exact hlog _ c h
        · exact Or.inr (Or.inr h)

theorem do_move_case3_steps (env : environment) (db : DB) (calls : List verb_call)
    (data : bf_move_data) :
    (do_move_case3 env db calls data).calls.length ≤ calls.length + 1
      ∧ ∀ m d, (do_move_case3 env db calls data).pack = make_call_pack m d →
          m = 4 ∧ d = data := by
  unfold do_move_case3 do_move_case4 log_call
  simp only []
  split
  · split
    · refine ⟨by simp, fun m d h => ?_⟩
      cases h
      exact ⟨rfl, rfl⟩
    · split
      · exact ⟨by simp, fun m d h => by cases h⟩
      · exact ⟨by simp, fun m d h => by cases h⟩
  · exact ⟨by simp, fun m d h => by cases h⟩

theorem do_move_accepts_decided_steps (env : environment) (db : DB) (calls : List verb_call)
    (progr : Objid) (accepts : Bool) (data : bf_move_data) (out : outcome bf_move_data)
    (hout : do_move_accepts_decided env db calls progr accepts data = .ok out) :
    out.calls.length ≤ calls.length + 2
      ∧ ∀ m d, out.pack = make_call_pack m d →
          d = data ∧ ((m = 3 ∧ out.calls.length ≤ calls.length + 1) ∨ m = 4) := by
  unfold do_move_accepts_decided at hout
  simp only [] at hout
  split at hout
  · cases hout
    exact ⟨by simp, fun m d h => by cases h⟩
  split at hout
  · cases hout
    exact ⟨by simp, fun m d h => by cases h⟩
  split at hout
  · cases hout
  · cases hout
    exact ⟨by simp, fun m d h => by cases h⟩
  · split at hout
    · cases hout
      refine ⟨by simp [log_call], fun m d h => ?_⟩
      cases h
      exact ⟨rfl, Or.inl ⟨rfl, by simp [log_call]⟩⟩
    · split at hout
      · cases hout
        exact ⟨by simp [log_call], fun m d h => by cases h⟩
      · cases hout
        have h3 := do_move_case3_steps env (db_change_location db data.what data.where_)
          (log_call calls (db_object_location db data.what) "exitfunc"
            (Var.obj (db_object_location db data.what)) (make_arglist data.what)
            (env.call_verb (db_change_location db data.what data.where_)
              (db_object_location db data.what) "exitfunc"
              (Var.obj (db_object_location db data.what)) (make_arglist data.what))) data
        have hlen : (log_call calls (db_object_location db data.what) "exitfunc"
            (Var.obj (db_object_location db data.what)) (make_arglist data.what)
            (env.call_verb (db_change_location db data.what data.where_)
              (db_object_location db data.what) "exitfunc"
              (Var.obj (db_object_location db data.what)) (make_arglist data.what))).length
            = calls.length + 1 := by
          simp [log_call]
        rw [hlen] at h3
        refine ⟨h3.1, fun m d h => ?_⟩
        exact ⟨(h3.2 m d h).2, Or.inr (h3.2 m d h).1⟩

/-- C22 (as amended): call_verb returning only E_NONE, E_VERBNF, E_MAXREC or
E_INVIND, a wizard is never rejected with E_NACC, at any step of move.  For a
caller who is not a wizard and controls `what`, step 1 returns E_NACC exactly
when the destination is not NOTHING and its accept routine is not found, and
step 2 returns E_NACC exactly when the value delivered by the accept routine
is false; the database is then left as it was.  A move to NOTHING makes no
accept call, is not rejected with E_NACC and does not ask to be continued at
step 2. -/
theorem do_move_not_accepted (env : environment) (db : DB) (value : Var) (progr : Objid)
    (data : bf_move_data) (henv : call_verb_results env) :
    (is_wizard db progr = true → ∀ next out, do_move env db value progr next data = .ok out →
        out.pack ≠ make_error_pack error.E_NACC)
      ∧ (is_wizard db progr = false → valid db data.what = true →
          (valid db data.where_ = true ∨ data.where_ = NOTHING) →
          controls db progr data.what = true →
          ∀ out, do_move env db value progr 1 data = .ok out →
            (out.pack = make_error_pack error.E_NACC ↔
              (data.where_ ≠ NOTHING
                ∧ env.call_verb db data.where_ "accept" (Var.obj data.where_)
                    (make_arglist data.what) = error.E_VERBNF))
            ∧ (out.pack = make_error_pack error.E_NACC → out.db = db))
      ∧ (is_wizard db progr = false →
          ∀ out, do_move env db value progr 2 data = .ok out →
            (out.pack = make_error_pack error.E_NACC ↔ is_true value = false)
            ∧ (out.pack = make_error_pack error.E_NACC → out.db = db))
      ∧ (data.where_ = NOTHING → ∀ out, do_move env db value progr 1 data = .ok out →
          out.pack ≠ make_error_pack error.E_NACC ∧ (∀ c ∈ out.calls, c.vname ≠ "accept")
            ∧ ∀ d, out.pack ≠ make_call_pack 2 d) := by
  have hacc := henv db data.where_ "accept" (Var.obj data.where_) (make_arglist data.what)
  refine ⟨?_, ?_, ?_, ?_⟩
  · intro hwiz next out hout
    have hdec : ∀ calls accepts o,
        do_move_accepts_decided env db calls progr accepts data = .ok o →
        o.pack ≠ make_error_pack error.E_NACC := by
      intro calls accepts o ho hp
      have := ((do_move_accepts_decided_nacc env db calls progr accepts data o ho).1.mp hp).1
      rw [hwiz] at this
      cases this
    unfold do_move at hout
    simp only [] at hout
    split at hout
    · split at hout
      · cases hout
        intro h; cases h
      split at hout
      · cases hout
        intro h; cases h
      split at hout
      · exact hdec _ _ out hout
      split at hout
      · cases hout
        intro h; cases h
      split at hout
      · exact hdec _ _ out hout
      · rename_i h1 h2
        cases hout
        rcases hacc with h | h | h | h
        · exact absurd h h1
        · exact absurd h h2
        · rw [h]; intro hh; cases hh
        · rw [h]; intro hh; cases hh
    · exact hdec _ _ out hout
    · cases hout
      exact do_move_case3_not_nacc env db [] data
    · cases hout
      intro h; cases h
    · cases hout
  · intro hwiz hwhat hwhere hctl out hout
    unfold do_move at hout
    simp only [hwhat, hctl, Bool.not_true, Bool.false_or, Bool.false_eq_true, if_false] at hout
    by_cases hn : data.where_ = NOTHING
    · simp only [hn, valid_nothing, Bool.not_false, bne_self_eq_false, Bool.and_false,
        Bool.false_eq_true, if_false, beq_self_eq_true, if_true] at hout
      have := do_move_accepts_decided_nacc env db [] progr true data out hout
      refine ⟨⟨fun h => ?_, fun h => absurd hn h.1⟩, fun h => (this.2 h).1⟩
      have := (this.1.mp h).2
      cases this
    · have hv : valid db data.where_ = true := by
        rcases hwhere with h | h
        · exact h
        · exact absurd h hn
      have hb : (data.where_ == NOTHING) = false := by
        simp only [beq_eq_false_iff_ne, ne_eq]
        exact hn
      simp only [hv, hb, Bool.not_true, Bool.false_and, Bool.false_eq_true, if_false] at hout
      split at hout
      · rename_i h1
        cases hout
        refine ⟨⟨(fun h => by cases h), fun h => ?_⟩, (fun h => by cases h)⟩
        rw [h1] at h
        cases h.2
      split at hout
      · rename_i h1 h2
        have := do_move_accepts_decided_nacc env db _ progr false data out hout
        exact ⟨⟨fun _ => ⟨hn, h2⟩, fun _ => this.1.mpr ⟨hwiz, rfl⟩⟩, fun h => (this.2 h).1⟩
      · rename_i h1 h2
        cases hout
        have hne : (make_error_pack (env.call_verb db data.where_ "accept" (Var.obj data.where_)
            (make_arglist data.what)) : package bf_move_data) ≠ make_error_pack error.E_NACC := by
          rcases hacc with h | h | h | h
          · exact absurd h h1
          · exact absurd h h2
          · rw [h]; intro hh; cases hh
          · rw [h]; intro hh; cases hh
        exact ⟨⟨fun h => absurd h hne, fun h => absurd h.2 h2⟩, fun h => absurd h hne⟩
  · intro hwiz out hout
    have := do_move_accepts_decided_nacc env db [] progr (is_true value) data out hout
    exact ⟨⟨fun h => (this.1.mp h).2, fun h => this.1.mpr ⟨hwiz, h⟩⟩, fun h => (this.2 h).1⟩
  · intro hn out hout
    unfold do_move at hout
    simp only [] at hout
    split at hout
    · cases hout
      exact ⟨(fun h => by cases h), (fun c hc => by cases hc), (fun d h => by cases h)⟩
    split at hout
    · cases hout
      exact ⟨(fun h => by cases h), (fun c hc => by cases hc), (fun d h => by cases h)⟩
    split at hout
    · have h1 := do_move_accepts_decided_nacc env db [] progr true data out hout
      have h2 := do_move_accepts_decided_calls env db [] progr true data out hout
      have h3 := do_move_accepts_decided_steps env db [] progr true data out hout
      refine ⟨fun h => ?_, fun c hc hname => ?_, fun d h => ?_⟩
      · have := (h1.1.mp h).2
        cases this
      · rcases h2 c hc with h | h | h
        · cases h
        · rw [hname] at h
          exact absurd h (by decide)
        · rw [hname] at h
          exact absurd h (by decide)
      · rcases (h3.2 2 d h).2 with ⟨h, _⟩ | h <;> exact absurd h (by decide)
    · rename_i hb
      rw [hn] at hb
      exact absurd rfl hb

theorem do_move_not_accepted_witness :
    call_verb_results sample_env
      ∧ ∀ out, do_move sample_env sample_db (Var.int 0) 1 2 { what := 2, where_ := 0 } = .ok out →
          (out.pack = make_error_pack error.E_NACC ↔ is_true (Var.int 0) = false)
            ∧ (out.pack = make_error_pack error.E_NACC → out.db = sample_db) :=
  ⟨fun _ _ _ _ _ => Or.inr (Or.inl rfl),
    (do_move_not_accepted sample_env sample_db (Var.int 0) 1 { what := 2, where_ := 0 }
      (fun _ _ _ _ _ => Or.inr (Or.inl rfl))).2.2.1 (by decide)⟩

/-- C22 (counterexample): `#2`, who is not a wizard and owns itself, moves
itself into `#1`, which defines no accept verb: the accept call reports
E_VERBNF, so that no accept routine runs and none delivers a value, and step 1
rejects the move with E_NACC. -/
theorem do_move_rejected_without_accept_value :
    is_wizard sample_db_anon 2 = false ∧ controls sample_db_anon 2 2 = true
      ∧ valid sample_db_anon 2 = true ∧ valid sample_db_anon 1 = true
      ∧ do_move sample_env sample_db_anon (Var.list [Var.obj 2, Var.obj 1]) 2 1
          { what := 2, where_ := 1 }
        = .ok { pack := make_error_pack error.E_NACC, db := sample_db_anon,
                calls := log_call [] 1 "accept" (Var.obj 1) (make_arglist 2) error.E_VERBNF } :=
  ⟨by decide, by decide, by decide, by decide, rfl⟩

/-! ## recycle: the calls made and the objects relocated -/

theorem places_kept_refl (db : DB) : places_kept db db := fun _ => ⟨rfl, rfl⟩

theorem places_kept_trans (db1 db2 db3 : DB) (h12 : places_kept db1 db2)
    (h23 : places_kept db2 db3) : places_kept db1 db3 :=
  fun x => ⟨(h23 x).1.trans (h12 x).1, (h23 x).2.trans (h12 x).2⟩

theorem places_kept_update (db : DB) (o : Objid) (f : Object → Object)
    (hf : ∀ r, (f r).location = r.location) : places_kept db (dbpriv_update_object db o f) := by
  intro x
  refine ⟨valid_update db o x f, ?_⟩
  unfold db_object_location
  rw [find_update]
  by_cases hxo : x = o
  · subst hxo
    rw [if_pos rfl]
    cases hx : dbpriv_find_object db x with
    | none => rfl
    | some r =>
      simp only [Option.map_some']
      exact hf r
  · rw [if_neg hxo]

theorem places_kept_update2 (db : DB) (v : Var) (f : Object → Object)
    (hf : ∀ r, (f r).location = r.location) : places_kept db (dbpriv_update_object2 db v f) := by
  cases v with
  | obj o => exact places_kept_update db o f hf
  | anon a =>
    simp only [dbpriv_update_object2]
    split
    · exact fun _ => ⟨rfl, rfl⟩
    · exact places_kept_refl db
  | none => exact places_kept_refl db
  | int n => exact places_kept_refl db
  | str s => exact places_kept_refl db
  | err e => exact places_kept_refl db
  | list l => exact places_kept_refl db

theorem places_kept_change_parents (env : environment) (db : DB) (obj new_parents : Var) :
    places_kept db (db_change_parents env db obj new_parents).2 := by
  unfold db_change_parents
  split
  · exact places_kept_update2 db obj _ (fun _ => rfl)
  · exact places_kept_refl db

theorem places_kept_children_loop (env : environment) (oid : Objid) (fuel : Nat) (db db3 : DB)
    (hloop : recycle_children_loop env oid fuel db = .ok db3) : places_kept db db3 := by
  induction fuel generalizing db with
  | zero => simp [recycle_children_loop] at hloop
  | succ fuel ih =>
    unfold recycle_children_loop at hloop
    simp only [] at hloop
    split at hloop
    · cases hloop
      exact places_kept_refl _
    · refine places_kept_trans _ _ _ ?_ (ih _ hloop)
      split
      · exact places_kept_change_parents env db _ _
      · exact places_kept_change_parents env db _ _

theorem relocated_by_refl (calls : List verb_call) (db : DB) : relocated_by calls db db :=
  fun _ h => ⟨h, Or.inl rfl⟩

theorem relocated_by_mono (calls calls2 : List verb_call) (db db2 : DB)
    (hsub : ∀ c ∈ calls, c ∈ calls2) (h : relocated_by calls db db2) :
    relocated_by calls2 db db2 := by
  intro x hx
  refine ⟨(h x hx).1, ?_⟩
  rcases (h x hx).2 with h1 | ⟨h1, c, hc, h2⟩
  · exact Or.inl h1
  · exact Or.inr ⟨h1, c, hsub c hc, h2⟩

theorem relocated_by_trans (calls : List verb_call) (db1 db2 db3 : DB)
    (h12 : relocated_by calls db1 db2) (h23 : relocated_by calls db2 db3) :
    relocated_by calls db1 db3 := by
  intro x hx
  have hx2 := (h23 x hx).1
  refine ⟨(h12 x hx2).1, ?_⟩
  rcases (h23 x hx).2 with h1 | h1
  · rcases (h12 x hx2).2 with h2 | h2
    · exact Or.inl (h1.trans h2)
    · exact Or.inr ⟨h1.trans h2.1, h2.2⟩
  · exact Or.inr h1

theorem relocated_by_places (calls : List verb_call) (db1 db2 : DB) (h : places_kept db1 db2) :
    relocated_by calls db1 db2 :=
  fun x hx => ⟨(h x).1 ▸ hx, Or.inl (h x).2⟩

theorem relocated_by_destroy (calls : List verb_call) (db : DB) (oid : Objid) :
    relocated_by calls db (db_destroy_object db oid) := by
  intro x hx
  have hne : x ≠ oid := by
    intro hxo
    subst hxo
    unfold valid at hx
    rw [find_destroy_eq] at hx
    cases hx
  unfold valid at hx ⊢
  unfold db_object_location
  rw [find_destroy_ne _ _ _ hne] at hx ⊢
  exact ⟨hx, Or.inl rfl⟩

theorem relocated_by_destroy_anonymous (calls : List verb_call) (db : DB) (a : Nat) :
    relocated_by calls db (db_destroy_anonymous_object db a) := by
  intro x hx
  unfold valid dbpriv_find_object at hx
  unfold valid db_object_location dbpriv_find_object
  rw [destroy_anonymous_objects] at hx ⊢
  exact ⟨hx, Or.inl rfl⟩

theorem relocated_by_move_to_nothing (env : environment) (db : DB) (calls : List verb_call)
    (oid : Objid) :
    relocated_by [exitfunc_call env db oid] db (move_to_nothing env db calls oid).2.1 := by
  show relocated_by _ db (db_change_location db oid NOTHING)
  intro x hx
  rw [valid_change_location] at hx
  refine ⟨hx, ?_⟩
  cases hv : valid db oid with
  | false =>
    have : db_change_location db oid NOTHING = db := by
      unfold db_change_location dbpriv_update_object
      unfold valid at hv
      cases hx : dbpriv_find_object db oid with
      | none => rfl
      | some r => rw [hx] at hv; cases hv
    rw [this]
    exact Or.inl rfl
  | true =>
    rw [location_change_location db oid NOTHING x hv]
    by_cases hxo : x = oid
    · subst hxo
      rw [if_pos rfl]
      exact Or.inr ⟨rfl, _, List.mem_singleton.mpr rfl, rfl, rfl⟩
    · rw [if_neg hxo]
      exact Or.inl rfl

theorem move_to_nothing_calls (env : environment) (db : DB) (calls : List verb_call)
    (oid : Objid) :
    (move_to_nothing env db calls oid).2.2 = calls ++ [exitfunc_call env db oid]
      ∧ ((move_to_nothing env db calls oid).1 = true ↔
          (exitfunc_call env db oid).result = error.E_NONE) := by
  unfold move_to_nothing log_call exitfunc_call
  simp

/-- What the contents loop of recycle leaves: the calls it added are exitfunc
calls, none of which started a verb except, when the loop left through the
return, the last one; and the objects whose location changed are the arguments
of these calls. -/
theorem contents_loop_calls (env : environment) (oid : Objid) (fuel : Nat) (db : DB)
    (calls : List verb_call) (r : Bool × DB × List verb_call)
    (h : recycle_contents_loop env oid fuel db calls = .ok r) :
    ∃ pre last : List verb_call, r.2.2 = calls ++ (pre ++ last)
      ∧ (∀ c ∈ pre, c.vname = "exitfunc" ∧ c.result ≠ error.E_NONE)
      ∧ ((r.1 = false ∧ last = [])
        ∨ (r.1 = true ∧ ∃ c, last = [c] ∧ c.vname = "exitfunc" ∧ c.result = error.E_NONE))
      ∧ relocated_by (pre ++ last) db r.2.1 := by
  induction fuel generalizing db calls with
  | zero => simp [recycle_contents_loop] at h
  | succ fuel ih =>
    unfold recycle_contents_loop at h
    simp only [] at h
    split at h
    · cases h
      exact ⟨[], [], by simp, (fun c hc => by cases hc), Or.inl ⟨rfl, rfl⟩,
        relocated_by_refl _ _⟩
    · have hcalls := move_to_nothing_calls env db calls (get_first_contents db oid)
      have hrel := relocated_by_move_to_nothing env db calls (get_first_contents db oid)
      split at h
      · rename_i hm
        cases h
        refine ⟨[], [exitfunc_call env db (get_first_contents db oid)], hcalls.1,
          (fun c hc => by cases hc),
          Or.inr ⟨rfl, exitfunc_call env db (get_first_contents db oid), rfl, rfl,
            hcalls.2.mp hm⟩, hrel⟩
      · rename_i hm
        obtain ⟨pre, last, h1, h2, h3, h4⟩ := ih _ _ h
        have hres := fun hh => hm (hcalls.2.mpr hh)
        refine ⟨exitfunc_call env db (get_first_contents db oid) :: pre, last, ?_, ?_, h3, ?_⟩
        · rw [h1, hcalls.1]
          simp
        · intro c hc
          rcases List.mem_cons.mp hc with hc | hc
          · rw [hc]
            exact ⟨rfl, hres⟩
          · exact h2 c hc
        · refine relocated_by_trans _ db (move_to_nothing env db calls (get_first_contents db oid)).2.1
            r.2.1 ?_ ?_
          · exact relocated_by_mono _ _ _ _ (fun c hc => by
              rw [List.mem_singleton] at hc
              rw [hc]
              exact List.mem_append_left _ (List.mem_cons_self _ _)) hrel
          · exact relocated_by_mono _ _ _ _ (fun c hc => by
              rcases List.mem_append.mp hc with hc | hc
              · exact List.mem_append_left _ (List.mem_cons_of_mem _ hc)
              · exact List.mem_append_right _ hc) h4

theorem moving_contents_calls (env : environment) (db : DB) (calls : List verb_call)
    (obj : Var) (out : outcome Var)
    (hout : bf_recycle_moving_contents env db calls obj = .ok out) :
    ∃ pre last : List verb_call, out.calls = calls ++ (pre ++ last)
      ∧ (∀ c ∈ pre, c.vname = "exitfunc" ∧ c.result ≠ error.E_NONE)
      ∧ ((out.pack = no_var_pack ∧ last = [])
        ∨ (out.pack = make_call_pack 2 obj
          ∧ ∃ c, last = [c] ∧ c.vname = "exitfunc" ∧ c.result = error.E_NONE))
      ∧ relocated_by (pre ++ last) db out.db := by
  unfold bf_recycle_moving_contents at hout
  split at hout
  · cases hout
    exact ⟨[], [], by simp, (fun c hc => by cases hc), Or.inl ⟨rfl, rfl⟩, relocated_by_refl _ _⟩
  split at hout
  · rename_i hobj
    have hoid : obj = Var.obj obj.v_obj := by cases obj <;> first | rfl | cases hobj
    generalize obj.v_obj = oid at hoid hout
    subst hoid
    simp only [] at hout
    split at hout
    · cases hout
    · rename_i db1 calls1 hloop
      cases hout
      obtain ⟨pre, last, h1, h2, h3, h4⟩ := contents_loop_calls env oid _ db calls _ hloop
      refine ⟨pre, last, h1, h2, Or.inr ⟨rfl, ?_⟩, h4⟩
      rcases h3 with ⟨hf, _⟩ | ⟨_, h3⟩
      · cases hf
      · exact h3
    · rename_i db1 calls1 hloop
      obtain ⟨pre, last, h1, h2, h3, h4⟩ := contents_loop_calls env oid _ db calls _ hloop
      have hlast : last = [] := by
        rcases h3 with ⟨_, h3⟩ | ⟨hf, _⟩
        · exact h3
        · cases hf
      subst hlast
      simp only [List.append_nil] at h1 h4
      have hcalls := move_to_nothing_calls env db1 calls1 oid
      have hrel := relocated_by_move_to_nothing env db1 calls1 oid
      have k5 : ∀ d : DB, places_kept d (incr_quota d (db_object_owner d oid)) :=
        fun d => places_kept_update d _ _ (fun _ => rfl)
      have ktail : ∀ (L : List verb_call) (d2 d3 : DB),
          recycle_children_loop env oid (d2.objects.length + 1) d2 = .ok d3 →
          relocated_by L d2
            (db_destroy_object
              (incr_quota (db_change_parents env d3 (Var.obj oid) nothing).2
                (db_object_owner (db_change_parents env d3 (Var.obj oid) nothing).2 oid)) oid) :=
        fun L d2 d3 hk => relocated_by_trans L _ _ _
          (relocated_by_places L _ _
            (places_kept_trans _ _ _ (places_kept_children_loop env oid _ _ d3 hk)
              (places_kept_trans _ _ _
                (places_kept_change_parents env d3 (Var.obj oid) nothing) (k5 _))))
          (relocated_by_destroy L _ oid)
      cases hb : (db_object_location db1 oid != NOTHING) with
      | false =>
        simp only [hb, Bool.false_and, Bool.false_eq_true, if_false] at hout
        split at hout
        · cases hout
        · rename_i db3 hkids
          cases hout
          refine ⟨pre, [], ?_, h2, Or.inl ⟨rfl, rfl⟩, ?_⟩
          · simp only [List.append_nil]
            exact h1
          · simp only [List.append_nil]
            exact relocated_by_trans _ db db1 _ h4 (ktail pre _ _ hkids)
      | true =>
        simp only [hb, Bool.true_and, if_true] at hout
        split at hout
        · rename_i hc
          cases hout
          refine ⟨pre, [exitfunc_call env db1 oid], ?_, h2,
            Or.inr ⟨rfl, _, rfl, rfl, hcalls.2.mp hc⟩, ?_⟩
          · show (move_to_nothing env db1 calls1 oid).2.2 = _
            rw [hcalls.1, h1]
            simp
          · exact relocated_by_trans _ db db1 _
              (relocated_by_mono _ _ _ _ (fun c hc => List.mem_append_left _ hc) h4)
              (relocated_by_mono _ _ _ _ (fun c hc => List.mem_append_right _ hc) hrel)
        · rename_i hc
          split at hout
          · cases hout
          · rename_i db3 hkids
            cases hout
            have hres : (exitfunc_call env db1 oid).result ≠ error.E_NONE :=
              fun hh => hc (hcalls.2.mpr hh)
            refine ⟨pre ++ [exitfunc_call env db1 oid], [], ?_, ?_, Or.inl ⟨rfl, rfl⟩, ?_⟩
            · show (move_to_nothing env db1 calls1 oid).2.2 = _
              rw [hcalls.1, h1]
              simp
            · intro c hcm
              rcases List.mem_append.mp hcm with hcm | hcm
              · exact h2 c hcm
              · rw [List.mem_singleton] at hcm
                rw [hcm]
                exact ⟨rfl, hres⟩
            · simp only [List.append_nil]
              refine relocated_by_trans _ db db1 _
                (relocated_by_mono _ _ _ _ (fun c hc => List.mem_append_left _ hc) h4) ?_
              exact relocated_by_trans _ db1 (move_to_nothing env db1 calls1 oid).2.1 _
                (relocated_by_mono _ _ _ _ (fun c hc => List.mem_append_right _ hc) hrel)
                (ktail _ _ _ hkids)
  split at hout
  · rename_i hno hanon
    have ha : ∃ a, obj = Var.anon a := by
      cases obj <;> first | exact ⟨_, rfl⟩ | cases hanon
    obtain ⟨a, rfl⟩ := ha
    cases hout
    refine ⟨[], [], by simp, (fun c hc => by cases hc), Or.inl ⟨rfl, rfl⟩, ?_⟩
    exact relocated_by_trans _ db (incr_quota db (db_object_owner2 db (Var.anon a))) _
      (relocated_by_places _ _ _ (places_kept_update db _ _ (fun _ => rfl)))
      (relocated_by_destroy_anonymous _ _ a)
  · cases hout

/-! ## recycle: the recycled flag -/

theorem has_flag_set_flag (db : DB) (v : Var) (f : db_object_flag)
    (hv : is_valid db v = true) :
    db_object_has_flag2 (db_set_object_flag2 db v f) v f = true := by
  have hmem : ∀ o : Object, f ∈ (if f ∈ o.flags then o.flags else f :: o.flags) := by
    intro o
    split
    · assumption
    · exact List.mem_cons_self _ _
  cases v with
  | obj o =>
    simp only [is_valid, dbpriv_dereference] at hv
    obtain ⟨x, hx⟩ := Option.isSome_iff_exists.mp hv
    simp only [db_object_has_flag2, dbpriv_dereference, db_set_object_flag2,
      dbpriv_update_object2]
    rw [find_update_eq db o _ x hx]
    simp only [decide_eq_true_eq]
    exact hmem x
  | anon a =>
    simp only [is_valid, dbpriv_dereference] at hv
    obtain ⟨x, hx⟩ := Option.isSome_iff_exists.mp hv
    simp only [db_object_has_flag2, dbpriv_dereference, db_set_object_flag2,
      dbpriv_update_object2, hx]
    have hlt : a < db.anons.length := by
      rw [List.getD_eq_getElem?_getD] at hx
      by_contra hge
      rw [List.getElem?_eq_none (by omega)] at hx
      cases hx
    simp only [List.getD_eq_getElem?_getD, List.getElem?_set, hlt, if_true, ↓reduceIte,
      Option.getD_some, decide_eq_true_eq]
    exact hmem x
  | none => cases hv
  | int n => cases hv
  | str s => cases hv
  | err e => cases hv
  | list l => cases hv

theorem has_flag_update (db : DB) (o : Objid) (g : Object → Object)
    (hg : ∀ r, (g r).flags = r.flags) (v : Var) (f : db_object_flag) :
    db_object_has_flag2 (dbpriv_update_object db o g) v f = db_object_has_flag2 db v f := by
  cases v with
  | obj x =>
    simp only [db_object_has_flag2, dbpriv_dereference]
    rw [find_update]
    by_cases hxo : x = o
    · subst hxo
      rw [if_pos rfl]
      cases dbpriv_find_object db x with
      | none => rfl
      | some r =>
        simp only [Option.map_some']
        rw [hg]
    · rw [if_neg hxo]
  | anon a =>
    simp only [db_object_has_flag2, dbpriv_dereference]
    rw [update_object_anons]
  | none => rfl
  | int n => rfl
  | str s => rfl
  | err e => rfl
  | list l => rfl

theorem has_flag_move_to_nothing (env : environment) (db : DB) (calls : List verb_call)
    (oid : Objid) (v : Var) (f : db_object_flag) :
    db_object_has_flag2 (move_to_nothing env db calls oid).2.1 v f
      = db_object_has_flag2 db v f :=
  has_flag_update db oid (fun o => { o with location := NOTHING }) (fun _ => rfl) v f

theorem has_flag_contents_loop (env : environment) (oid : Objid) (fuel : Nat) (db : DB)
    (calls : List verb_call) (r : Bool × DB × List verb_call)
    (h : recycle_contents_loop env oid fuel db calls = .ok r) (v : Var) (f : db_object_flag) :
    db_object_has_flag2 r.2.1 v f = db_object_has_flag2 db v f := by
  induction fuel generalizing db calls with
  | zero => simp [recycle_contents_loop] at h
  | succ fuel ih =>
    unfold recycle_contents_loop at h
    simp only [] at h
    split at h
    · cases h
      rfl
    · split at h
      · cases h
        exact has_flag_move_to_nothing env db calls _ v f
      · rw [ih _ _ h]
        exact has_flag_move_to_nothing env db calls _ v f

/-- An entry of recycle from the label moving_contents that asks to be
re-entered has changed no flag. -/
theorem moving_contents_flags (env : environment) (db : DB) (calls : List verb_call)
    (obj : Var) (out : outcome Var)
    (hout : bf_recycle_moving_contents env db calls obj = .ok out)
    (hp : out.pack = make_call_pack 2 obj) (v : Var) (f : db_object_flag) :
    db_object_has_flag2 out.db v f = db_object_has_flag2 db v f := by
  unfold bf_recycle_moving_contents at hout
  split at hout
  · cases hout
    cases hp
  split at hout
  · simp only [] at hout
    split at hout
    · cases hout
    · rename_i db1 calls1 hloop
      cases hout
      exact has_flag_contents_loop env _ _ db calls _ hloop v f
    · rename_i db1 calls1 hloop
      have h1 := has_flag_contents_loop env _ _ db calls _ hloop v f
      split at hout
      · cases hout
        show db_object_has_flag2 (move_to_nothing env db1 calls1 _).2.1 v f = _
        rw [has_flag_move_to_nothing]
        exact h1
      · split at hout
        · cases hout
        · cases hout
          cases hp
  split at hout
  · cases hout
    cases hp
  · cases hout

/-- C23: step 1 of recycle, for a valid object the caller controls whose
recycled flag is not set, first sets the flag and then calls the recycle hook,
in the database that differs from the one it was entered with by that flag
alone; this is the first call it makes.  When the hook is started the step
returns that database.  When it is not, all that the step does further, the
exitfunc calls and every other change of the database, is what recycle does
from the label moving_contents in the flagged database.  A request to be
continued leaves every flag as the flagged database has it, so that the flag
of the object is set, and a return of no value leaves the object destroyed.
On every error return of step 1 (E_TYPE, E_INVARG, E_PERM) the database is as
it was, so that the flag has not been set, and no verb has been called. -/
theorem bf_recycle_flag_first (env : environment) (db : DB) (value : Var) (progr : Objid)
    (data : Var) (out : outcome Var)
    (hout : bf_recycle env db value progr 1 data = .ok out) :
    ((∃ e msg, out.pack = package.BI_RAISE e msg) → out.db = db ∧ out.calls = [])
      ∧ ((value.nth 1).is_object = true → is_valid db (value.nth 1) = true →
          db_object_has_flag2 db (value.nth 1) db_object_flag.FLAG_RECYCLED = false →
          controls2 db progr (value.nth 1) = true →
          db_object_has_flag2
              (db_set_object_flag2 db (value.nth 1) db_object_flag.FLAG_RECYCLED)
              (value.nth 1) db_object_flag.FLAG_RECYCLED = true
            ∧ (∃ rest, out.calls
                = log_call [] (if (value.nth 1).is_obj then (value.nth 1).v_obj else NOTHING)
                    "recycle" (value.nth 1) (Var.list [])
                    (env.call_verb
                      (db_set_object_flag2 db (value.nth 1) db_object_flag.FLAG_RECYCLED)
                      (if (value.nth 1).is_obj then (value.nth 1).v_obj else NOTHING)
                      "recycle" (value.nth 1) (Var.list [])) ++ rest)
            ∧ (env.call_verb
                  (db_set_object_flag2 db (value.nth 1) db_object_flag.FLAG_RECYCLED)
                  (if (value.nth 1).is_obj then (value.nth 1).v_obj else NOTHING)
                  "recycle" (value.nth 1) (Var.list []) = error.E_NONE →
                out.pack = make_call_pack 2 (value.nth 1)
                  ∧ out.db
                    = db_set_object_flag2 db (value.nth 1) db_object_flag.FLAG_RECYCLED)
            ∧ (env.call_verb
                  (db_set_object_flag2 db (value.nth 1) db_object_flag.FLAG_RECYCLED)
                  (if (value.nth 1).is_obj then (value.nth 1).v_obj else NOTHING)
                  "recycle" (value.nth 1) (Var.list []) ≠ error.E_NONE →
                bf_recycle_moving_contents env
                    (db_set_object_flag2 db (value.nth 1) db_object_flag.FLAG_RECYCLED)
                    (log_call [] (if (value.nth 1).is_obj then (value.nth 1).v_obj else NOTHING)
                      "recycle" (value.nth 1) (Var.list [])
                      (env.call_verb
                        (db_set_object_flag2 db (value.nth 1) db_object_flag.FLAG_RECYCLED)
                        (if (value.nth 1).is_obj then (value.nth 1).v_obj else NOTHING)
                        "recycle" (value.nth 1) (Var.list [])))
                    (value.nth 1)
                  = .ok out)
            ∧ (out.pack = make_call_pack 2 (value.nth 1) →
                (∀ v f, db_object_has_flag2 out.db v f
                  = db_object_has_flag2
                      (db_set_object_flag2 db (value.nth 1) db_object_flag.FLAG_RECYCLED) v f)
                ∧ db_object_has_flag2 out.db (value.nth 1) db_object_flag.FLAG_RECYCLED = true)
            ∧ (out.pack = no_var_pack → is_valid out.db (value.nth 1) = false)) := by
  have hk := accounts_kept_set_flag db (value.nth 1) db_object_flag.FLAG_RECYCLED
  unfold bf_recycle at hout
  simp only [] at hout
  generalize (if (value.nth 1).is_obj = true then (value.nth 1).v_obj else NOTHING) = recv
    at hout ⊢
  split at hout
  · rename_i h1
    cases hout
    refine ⟨fun _ => ⟨rfl, rfl⟩, fun hobj => ?_⟩
    rw [hobj] at h1
    cases h1
  split at hout
  · rename_i h1 h2
    cases hout
    refine ⟨fun _ => ⟨rfl, rfl⟩, fun _ hv hf => ?_⟩
    rw [hv, hf] at h2
    cases h2
  split at hout
  · rename_i h1 h2 h3
    cases hout
    refine ⟨fun _ => ⟨rfl, rfl⟩, fun _ _ _ hc => ?_⟩
    rw [hc] at h3
    cases h3
  split at hout
  · rename_i h4
    cases hout
    refine ⟨fun h => ?_, fun _ hv _ _ =>
      ⟨has_flag_set_flag db _ _ hv, ⟨[], ?_⟩, fun _ => ⟨rfl, rfl⟩, fun hne => absurd h4 hne,
        fun _ => ⟨fun _ _ => rfl, has_flag_set_flag db _ _ hv⟩, (fun h => by cases h)⟩⟩
    · obtain ⟨e, msg, h⟩ := h
      cases h
    · simp
  · rename_i h4
    obtain ⟨pre, last, h1, h2, h3, _⟩ := moving_contents_calls env _ _ _ out hout
    have hacc := moving_contents_accounts env _ _ _ out hout
    refine ⟨fun h => ?_, fun _ hv _ _ =>
      ⟨has_flag_set_flag db _ _ hv, ⟨pre ++ last, h1⟩, fun he => absurd he h4, fun _ => hout,
        fun hp => ⟨fun v f => moving_contents_flags env _ _ _ out hout hp v f, ?_⟩,
        fun hp => (hacc.2.2 hp (by rw [accounts_kept_is_valid db _ hk]; exact hv)).1⟩⟩
    · obtain ⟨e, msg, h⟩ := h
      rcases h3 with ⟨h3, _⟩ | ⟨h3, _⟩ <;> rw [h3] at h <;> cases h
    · rw [moving_contents_flags env _ _ _ out hout hp]
      exact has_flag_set_flag db _ _ hv

theorem bf_recycle_flag_first_witness :
    (∃ out, bf_recycle starting_env sample_db (Var.list [Var.obj 2]) 0 1 Var.none = .ok out
      ∧ db_object_has_flag2 sample_db (Var.obj 2) db_object_flag.FLAG_RECYCLED = false
      ∧ db_object_has_flag2
          (db_set_object_flag2 sample_db (Var.obj 2) db_object_flag.FLAG_RECYCLED)
          (Var.obj 2) db_object_flag.FLAG_RECYCLED = true
      ∧ out.db = db_set_object_flag2 sample_db (Var.obj 2) db_object_flag.FLAG_RECYCLED
      ∧ ∀ value progr data out2,
          bf_recycle starting_env sample_db value progr 1 data = .ok out2 →
          (∃ e msg, out2.pack = package.BI_RAISE e msg) → out2.db = sample_db ∧ out2.calls = [])
      ∧ (∃ out, bf_recycle sample_env sample_db (Var.list [Var.obj 2]) 0 1 Var.none = .ok out
        ∧ bf_recycle_moving_contents sample_env
            (db_set_object_flag2 sample_db (Var.obj 2) db_object_flag.FLAG_RECYCLED)
            (log_call [] 2 "recycle" (Var.obj 2) (Var.list []) error.E_VERBNF) (Var.obj 2)
          = .ok out
        ∧ is_valid out.db (Var.obj 2) = false) :=
  ⟨⟨_, rfl, by decide,
    ((bf_recycle_flag_first starting_env sample_db (Var.list [Var.obj 2]) 0 Var.none _ rfl).2
      (by decide) (by decide) (by decide) (by decide)).1,
    (((bf_recycle_flag_first starting_env sample_db (Var.list [Var.obj 2]) 0 Var.none _ rfl).2
      (by decide) (by decide) (by decide) (by decide)).2.2.1 rfl).2,
    fun value progr data out2 h =>
      (bf_recycle_flag_first starting_env sample_db value progr data out2 h).1⟩,
   ⟨_, rfl,
    ((bf_recycle_flag_first sample_env sample_db (Var.list [Var.obj 2]) 0 Var.none _ rfl).2
      (by decide) (by decide) (by decide) (by decide)).2.2.2.1 (by decide),
    ((bf_recycle_flag_first sample_env sample_db (Var.list [Var.obj 2]) 0 Var.none _ rfl).2
      (by decide) (by decide) (by decide) (by decide)).2.2.2.2.2 rfl⟩⟩

/-- C24 (as amended): an entry into step 2 of recycle relocates the contained
objects to the null location one after another, calling the exitfunc of each
(and, once the object is empty, of the object itself), and returns with a
request to be re-entered as soon as one of these calls has started a verb.  So
the calls of an entry are exitfunc calls of which none started a verb, followed
in the case of a re-entry request, and only then, by one call that did: at
most one exitfunc runs per re-entry, while the objects whose exitfunc is not
found or reports E_MAXREC are all relocated within the same entry.  Every
object whose location has changed is located nowhere and is the argument of
one of these calls. -/
theorem bf_recycle_step2_calls (env : environment) (db : DB) (value : Var) (progr : Objid)
    (data : Var) (out : outcome Var)
    (hout : bf_recycle env db value progr 2 data = .ok out) :
    ∃ pre last : List verb_call, out.calls = pre ++ last
      ∧ (∀ c ∈ pre, c.vname = "exitfunc" ∧ c.result ≠ error.E_NONE)
      ∧ ((out.pack = no_var_pack ∧ last = [])
        ∨ (out.pack = make_call_pack 2 data
          ∧ ∃ c, last = [c] ∧ c.vname = "exitfunc" ∧ c.result = error.E_NONE))
      ∧ relocated_by out.calls db out.db := by
  obtain ⟨pre, last, h1, h2, h3, h4⟩ := moving_contents_calls env db [] data out hout
  rw [List.nil_append] at h1
  refine ⟨pre, last, h1, h2, h3, ?_⟩
  rw [h1]
  exact h4

theorem bf_recycle_step2_calls_witness :
    ∃ out, bf_recycle starting_env sample_db_box (Var.int 0) 0 2 (Var.obj 1) = .ok out
      ∧ out.pack = make_call_pack 2 (Var.obj 1)
      ∧ out.calls.map (fun c => (c.vname, c.args, c.result))
        = [("exitfunc", make_arglist 2, error.E_NONE)]
      ∧ ∃ pre last : List verb_call, out.calls = pre ++ last
        ∧ (∀ c ∈ pre, c.vname = "exitfunc" ∧ c.result ≠ error.E_NONE)
        ∧ ((out.pack = no_var_pack ∧ last = [])
          ∨ (out.pack = make_call_pack 2 (Var.obj 1)
            ∧ ∃ c, last = [c] ∧ c.vname = "exitfunc" ∧ c.result = error.E_NONE))
        ∧ relocated_by out.calls sample_db_box out.db :=
  ⟨_, rfl, rfl, rfl,
    bf_recycle_step2_calls starting_env sample_db_box (Var.int 0) 0 (Var.obj 1) _ rfl⟩

/-- C24 (counterexample): the box `#1` holds `#2` and `#3` and no object
defines an exitfunc verb; one entry into step 2 of recycle for `#1` relocates
both `#2` and `#3` to the null location, calling the exitfunc of their old
location for each, before it returns. -/
theorem bf_recycle_step2_relocates_two :
    db_object_location sample_db_box 2 = 1 ∧ db_object_location sample_db_box 3 = 1
      ∧ (bf_recycle sample_env sample_db_box (Var.int 0) 0 2 (Var.obj 1)).map
          (fun out => (out.pack, valid out.db 2, db_object_location out.db 2,
            valid out.db 3, db_object_location out.db 3,
            out.calls.map (fun c => (c.vname, c.args, c.result))))
        = .ok (no_var_pack, true, NOTHING, true, NOTHING,
            [("exitfunc", make_arglist 2, error.E_VERBNF),
             ("exitfunc", make_arglist 3, error.E_VERBNF)]) :=
  ⟨by decide, by decide, rfl⟩

/-! ## exec: what becomes of a Stopped entry -/

theorem do_move_case3_new_call (env : environment) (db : DB) (calls : List verb_call)
    (data : bf_move_data) (c : verb_call) (hc : c ∈ (do_move_case3 env db calls data).calls)
    (hnew : c ∉ calls) :
    valid db data.what = true ∧ db_object_location db data.what = data.where_ := by
  unfold do_move_case3 do_move_case4 at hc
  simp only [] at hc
  split at hc
  · rename_i hg
    simp only [Bool.and_eq_true, beq_iff_eq] at hg
    exact ⟨hg.1.2, hg.2⟩
  · exact absurd hc hnew

theorem do_move_accepts_decided_new_call (env : environment) (db : DB)
    (calls : List verb_call) (progr : Objid) (accepts : Bool) (data : bf_move_data)
    (out : outcome bf_move_data)
    (hout : do_move_accepts_decided env db calls progr accepts data = .ok out)
    (c : verb_call) (hc : c ∈ out.calls) (hnew : c ∉ calls) :
    out.db = db_change_location db data.what data.where_
      ∧ valid db data.what = true ∧ db_object_location db data.what ≠ data.where_ := by
  unfold do_move_accepts_decided at hout
  simp only [] at hout
  split at hout
  · cases hout
    exact absurd hc hnew
  split at hout
  · cases hout
    exact absurd hc hnew
  rename_i hg
  have hv : valid db data.what = true := by
    cases hv : valid db data.what with
    | true => rfl
    | false => exact absurd (by simp [hv]) hg
  have hl : db_object_location db data.what ≠ data.where_ := by
    intro hl
    exact hg (by simp [hl])
  split at hout
  · cases hout
  · cases hout
    exact absurd hc hnew
  · split at hout
    · cases hout
      exact ⟨rfl, hv, hl⟩
    · split at hout
      · cases hout
        exact ⟨rfl, hv, hl⟩
      · cases hout
        exact ⟨do_move_case3_db env _ _ data, hv, hl⟩

/-- C26: when an entry of do_move has made an exitfunc or an enterfunc call
that reported E_MAXREC, the entry returns the E_MAXREC error and `what` is
valid and located in `where`: the location change stands.  At steps 1 and 2,
where the change is made in the same entry, the database returned is the one
in which the location of `what` has been changed, and `what` was located
elsewhere before: an error result does not mean that the location is as it
was. -/
theorem do_move_maxrec_change_stands (env : environment) (db : DB) (value : Var)
    (progr : Objid) (next : Nat) (data : bf_move_data) (out : outcome bf_move_data)
    (hout : do_move env db value progr next data = .ok out) (c : verb_call)
    (hc : c ∈ out.calls) (hname : c.vname = "exitfunc" ∨ c.vname = "enterfunc")
    (hres : c.result = error.E_MAXREC) :
    out.pack = make_error_pack error.E_MAXREC
      ∧ valid out.db data.what = true
      ∧ db_object_location out.db data.what = data.where_
      ∧ (next = 1 ∨ next = 2 →
          out.db = db_change_location db data.what data.where_
            ∧ db_object_location db data.what ≠ data.where_) := by
  refine ⟨do_move_maxrec env db value progr next data out hout ⟨c, hc, hres⟩, ?_⟩
  have hdec : ∀ calls accepts, c ∉ calls →
      do_move_accepts_decided env db calls progr accepts data = .ok out →
      valid out.db data.what = true ∧ db_object_location out.db data.what = data.where_
        ∧ (next = 1 ∨ next = 2 →
          out.db = db_change_location db data.what data.where_
            ∧ db_object_location db data.what ≠ data.where_) := by
    intro calls accepts hnew ho
    obtain ⟨h1, h2, h3⟩ :=
      do_move_accepts_decided_new_call env db calls progr accepts data out ho c hc hnew
    refine ⟨?_, ?_, fun _ => ⟨h1, h3⟩⟩
    · rw [h1, valid_change_location]
      exact h2
    · rw [h1, location_change_location db _ _ _ h2, if_pos rfl]
  have hnot : c.vname ≠ "accept" := by
    rcases hname with h | h <;> rw [h] <;> decide
  unfold do_move at hout
  simp only [] at hout
  split at hout
  · split at hout
    · cases hout
      cases hc
    split at hout
    · cases hout
      cases hc
    split at hout
    · exact hdec _ _ (fun h => by cases h) hout
    split at hout
    · cases hout
      simp only [log_call, List.nil_append, List.mem_singleton] at hc
      rw [hc] at hnot
      exact absurd rfl hnot
    split at hout
    · refine hdec _ _ (fun h => ?_) hout
      simp only [log_call, List.nil_append, List.mem_singleton] at h
      rw [h] at hnot
      exact absurd rfl hnot
    · cases hout
      simp only [log_call, List.nil_append, List.mem_singleton] at hc
      rw [hc] at hnot
      exact absurd rfl hnot
  · exact hdec _ _ (fun h => by cases h) hout
  · cases hout
    obtain ⟨h1, h2⟩ := do_move_case3_new_call env db [] data c hc (fun h => by cases h)
    rw [do_move_case3_db]
    refine ⟨h1, h2, fun h => ?_⟩
    rcases h with h | h <;> cases h
  · cases hout
    cases hc
  · cases hout

theorem do_move_maxrec_change_stands_witness :
    ∃ out, do_move maxrec_env sample_db (Var.int 1) 0 2 { what := 2, where_ := 0 } = .ok out
      ∧ out.pack = make_error_pack error.E_MAXREC
      ∧ db_object_location sample_db 2 = 1
      ∧ db_object_location out.db 2 = 0 :=
  ⟨_, rfl,
    (do_move_maxrec_change_stands maxrec_env sample_db (Var.int 1) 0 2
      { what := 2, where_ := 0 } _ rfl
      { recv := 1, vname := "exitfunc", this := Var.obj 1, args := make_arglist 2,
        result := error.E_MAXREC }
      (by decide) (Or.inl rfl) rfl).1,
    by decide,
    (do_move_maxrec_change_stands maxrec_env sample_db (Var.int 1) 0 2
      { what := 2, where_ := 0 } _ rfl
      { recv := 1, vname := "exitfunc", this := Var.obj 1, args := make_arglist 2,
        result := error.E_MAXREC }
      (by decide) (Or.inl rfl) rfl).2.2.1⟩

/-! ## create: the quota on the error paths -/

theorem bf_create_body_quota_taken (env : environment) (db : DB) (value : Var) (owner : Objid)
    (anonymous : Bool) (init : Nat) (x : Object) (hx : dbpriv_find_object db owner = some x)
    (hq : (decr_quota db owner).1 = true) :
    db_object_quota (bf_create_body env db value owner anonymous init).db owner
        = some (x.quota - 1)
      ∧ ((db_change_parents env (create_before_attach db owner)
            (Var.obj (db_create_object (create_quota_taken db owner)).1) (value.nth 1)).1 = false →
          (bf_create_body env db value owner anonymous init).pack
            = make_error_pack error.E_INVARG) := by
  have hvalid : valid db owner = true := (valid_iff_find db owner).mpr ⟨x, hx⟩
  obtain ⟨hown0, hownlt, _⟩ := find_object_some db owner x hx
  have hdb1 := decr_quota_ok db owner x hx hq
  unfold create_before_attach create_quota_taken
  simp only [hvalid, if_true]
  generalize hdb1def : (decr_quota db owner).2 = db1 at hdb1
  have hlen1 : db1.objects.length = db.objects.length := by
    rw [hdb1, update_object_objects_length]
  have hf1 : dbpriv_find_object db1 owner = some { x with quota := x.quota - 1 } := by
    rw [hdb1, find_update_eq db owner _ x hx]
  have hoid : (db_create_object db1).1 = (db1.objects.length : Int) := rfl
  have hne : owner ≠ (db_create_object db1).1 := by
    rw [hoid, hlen1]
    exact ne_of_toNat_lt owner _ hownlt
  have hf2 := find_create_old db1 owner _ hf1
  have hv2 : valid (db_create_object db1).2 owner = true :=
    (valid_iff_find _ owner).mpr ⟨_, hf2⟩
  have hf3 : dbpriv_find_object
      (db_set_object_owner (db_create_object db1).2 (db_create_object db1).1 owner) owner
      = some { x with quota := x.quota - 1 } := by
    rw [db_set_object_owner, find_update_ne _ _ _ _ hne, hf2]
  have hlast : owner ≤ db_last_used_objid db1 :=
    le_last_used db1 owner hown0 (by rw [hlen1]; exact hownlt)
  have hrestore := create_destroy_restores db1 owner
  unfold bf_create_body
  simp only [hvalid, if_true, hq, hdb1def, Bool.not_true, Bool.and_false, Bool.false_eq_true,
    if_false, hv2]
  generalize db_set_object_owner (db_create_object db1).2 (db_create_object db1).1 owner = db2
    at hf3 hrestore ⊢
  have hch2 : (db_change_parents env db2 (Var.obj (db_create_object db1).1) (value.nth 1)).1
      = false →
      (db_change_parents env db2 (Var.obj (db_create_object db1).1) (value.nth 1)).2 = db2 := by
    intro hch
    unfold db_change_parents at hch ⊢
    split
    · rename_i hok
      rw [if_pos hok] at hch
      cases hch
    · rfl
  have hch3 : (db_change_parents env db2 (Var.obj (db_create_object db1).1) (value.nth 1)).1
      = true →
      (db_change_parents env db2 (Var.obj (db_create_object db1).1) (value.nth 1)).2
        = dbpriv_update_object db2 (db_create_object db1).1
            (fun o => { o with parents := value.nth 1 }) := by
    intro hch
    unfold db_change_parents at hch ⊢
    split
    · rfl
    · rename_i hno
      rw [if_neg hno] at hch
      cases hch
  generalize db_change_parents env db2 (Var.obj (db_create_object db1).1) (value.nth 1)
    = changed at hch2 hch3 ⊢
  cases hc : changed.1 with
  | false =>
    simp only [Bool.not_false, if_true, hch2 hc, hrestore]
    refine ⟨?_, fun _ => trivial⟩
    simp [db_object_quota, hf1]
  | true =>
    simp only [Bool.not_true, Bool.false_eq_true, if_false]
    have hf4 : dbpriv_find_object changed.2 owner = some { x with quota := x.quota - 1 } := by
      rw [hch3 hc, find_update_ne _ _ _ _ hne, hf3]
    have hdbout : ∀ (p1 p2 p3 : package Var) (c : List verb_call) (e : error)
        (d : DB),
        (if e = error.E_NONE then ({ pack := p1, db := d, calls := c } : outcome Var)
          else if e = error.E_MAXREC then { pack := p2, db := d, calls := c }
          else { pack := p3, db := d, calls := c }).db = d := by
      intro p1 p2 p3 c e d
      split
      · rfl
      · split <;> rfl
    rw [hdbout]
    refine ⟨?_, fun h => Bool.noConfusion h⟩
    cases anonymous with
    | false =>
      simp only [Bool.false_eq_true, if_false]
      simp [db_object_quota, hf4]
    | true =>
      simp only [if_true]
      simp [db_object_quota, find_make_anonymous changed.2 _ _ owner hne hown0 hlast, hf4]

/-- C27: once a create call has passed its checks and has taken one from the
quota of its valid owner, the quota of the owner in the database returned is
one less than before the call whatever the outcome: when db_change_parents
refuses the parents the call returns E_INVARG, when the initialize call reports
E_MAXREC it returns E_MAXREC, and on both error returns the quota stays
decremented; no path gives it back. -/
theorem bf_create_error_keeps_quota (env : environment) (db : DB) (value : Var)
    (progr : Objid) (data : Var) (owner : Objid) (anonymous : Bool) (init : Nat) (x : Object)
    (hchecks : bf_create_checks db value progr = .ok (owner, anonymous, init))
    (hx : dbpriv_find_object db owner = some x) (hq : (decr_quota db owner).1 = true) :
    db_object_quota (bf_create env db value progr 1 data).db owner
        = (db_object_quota db owner).map (fun q => q - 1)
      ∧ (db_object_quota db owner).isSome = true
      ∧ ((db_change_parents env (create_before_attach db owner)
            (Var.obj (db_create_object (create_quota_taken db owner)).1) (value.nth 1)).1 = false →
          (bf_create env db value progr 1 data).pack = make_error_pack error.E_INVARG)
      ∧ ((∃ c ∈ (bf_create env db value progr 1 data).calls, c.result = error.E_MAXREC) →
          (bf_create env db value progr 1 data).pack = make_error_pack error.E_MAXREC) := by
  have hbody : bf_create env db value progr 1 data
      = bf_create_body env db value owner anonymous init := by
    simp [bf_create, hchecks]
  obtain ⟨h1, h2⟩ := bf_create_body_quota_taken env db value owner anonymous init x hx hq
  refine ⟨?_, ?_, ?_, bf_create_maxrec env db value progr 1 data⟩
  · rw [hbody, h1]
    simp [db_object_quota, hx]
  · simp [db_object_quota, hx]
  · rw [hbody]
    exact h2

theorem bf_create_error_keeps_quota_witness :
    (bf_create refusing_env sample_db (Var.list [Var.obj 1]) 0 1 Var.none).pack
        = make_error_pack error.E_INVARG
      ∧ db_object_quota sample_db 0 = some 5
      ∧ db_object_quota (bf_create refusing_env sample_db (Var.list [Var.obj 1]) 0 1 Var.none).db 0
        = (db_object_quota sample_db 0).map (fun q => q - 1)
      ∧ (bf_create maxrec_env sample_db (Var.list [Var.obj 1]) 0 1 Var.none).pack
        = make_error_pack error.E_MAXREC
      ∧ db_object_quota (bf_create maxrec_env sample_db (Var.list [Var.obj 1]) 0 1 Var.none).db 0
        = (db_object_quota sample_db 0).map (fun q => q - 1) :=
  ⟨(bf_create_error_keeps_quota refusing_env sample_db (Var.list [Var.obj 1]) 0 Var.none 0
      false 0 (sample_object 0 NOTHING [db_object_flag.FLAG_WIZARD] 5) rfl rfl rfl).2.2.1 rfl,
    rfl,
    (bf_create_error_keeps_quota refusing_env sample_db (Var.list [Var.obj 1]) 0 Var.none 0
      false 0 (sample_object 0 NOTHING [db_object_flag.FLAG_WIZARD] 5) rfl rfl rfl).1,
    rfl,
    (bf_create_error_keeps_quota maxrec_env sample_db (Var.list [Var.obj 1]) 0 Var.none 0
      false 0 (sample_object 0 NOTHING [db_object_flag.FLAG_WIZARD] 5) rfl rfl rfl).1⟩

/-! ## move and recycle: the steps of an operation -/

theorem do_move_steps (env : environment) (db : DB) (value : Var) (progr : Objid) (n : Nat)
    (data : bf_move_data) (out : outcome bf_move_data)
    (hout : do_move env db value progr n data = .ok out) :
    1 ≤ n ∧ n ≤ 4 ∧ out.calls.length + n ≤ 4
      ∧ ∀ m d, out.pack = make_call_pack m d →
          d = data ∧ n < m ∧ m ≤ 4 ∧ out.calls.length + n ≤ m := by
  have hdec : ∀ (calls : List verb_call) (accepts : Bool) (k : Nat), 1 ≤ k → k ≤ 2 →
      calls.length + k ≤ 2 →
      do_move_accepts_decided env db calls progr accepts data = .ok out →
      1 ≤ k ∧ k ≤ 4 ∧ out.calls.length + k ≤ 4
        ∧ ∀ m d, out.pack = make_call_pack m d →
            d = data ∧ k < m ∧ m ≤ 4 ∧ out.calls.length + k ≤ m := by
    intro calls accepts k hk1 hk2 hlen ho
    obtain ⟨h1, h2⟩ := do_move_accepts_decided_steps env db calls progr accepts data out ho
    refine ⟨hk1, by omega, by omega, fun m d h => ?_⟩
    obtain ⟨hd, hm⟩ := h2 m d h
    refine ⟨hd, ?_⟩
    rcases hm with ⟨hm, hl⟩ | hm
    · omega
    · omega
  unfold do_move at hout
  simp only [] at hout
  split at hout
  · split at hout
    · cases hout
      exact ⟨by omega, by omega, by simp, fun m d h => by cases h⟩
    split at hout
    · cases hout
      exact ⟨by omega, by omega, by simp, fun m d h => by cases h⟩
    split at hout
    · exact hdec [] true 1 (by omega) (by omega) (by simp) hout
    split at hout
    · cases hout
      refine ⟨by omega, by omega, by simp [log_call], fun m d h => ?_⟩
      cases h
      exact ⟨rfl, by omega, by omega, by simp [log_call]⟩
    split at hout
    · exact hdec _ false 1 (by omega) (by omega) (by simp [log_call]) hout
    · cases hout
      exact ⟨by omega, by omega, by simp [log_call], fun m d h => by cases h⟩
  · exact hdec [] (is_true value) 2 (by omega) (by omega) (by simp) hout
  · cases hout
    have h3 := do_move_case3_steps env db [] data
    refine ⟨by omega, by omega, ?_, fun m d h => ?_⟩
    · have := h3.1
      simp only [List.length_nil] at this
      omega
    · obtain ⟨hm, hd⟩ := h3.2 m d h
      have := h3.1
      simp only [List.length_nil] at this
      exact ⟨hd, by omega, by omega, by omega⟩
  · cases hout
    exact ⟨by omega, by omega, by simp [do_move_case4], fun m d h => by cases h⟩
  · cases hout

theorem move_run_bound (progr : Objid) (data : bf_move_data) (n : Nat)
    (run : List (step_entry bf_move_data)) (h : move_run progr data n run) :
    run = [] ∨ (run.length + n ≤ 5 ∧ run_calls run + n ≤ 4) := by
  induction run generalizing n with
  | nil => exact Or.inl rfl
  | cons e rest ih =>
    right
    obtain ⟨hstep, hrest⟩ := h
    obtain ⟨h1, h4, hc, hm⟩ := do_move_steps e.env e.db e.value progr n data e.out hstep
    have hcalls : run_calls (e :: rest) = e.out.calls.length + run_calls rest := by
      simp [run_calls]
    rw [hcalls]
    rcases hrest with hnil | ⟨m, hp, hr⟩
    · subst hnil
      simp only [List.length_singleton, run_calls, List.map_nil, List.sum_nil]
      omega
    · obtain ⟨_, hlt, hle, hcm⟩ := hm m data hp
      rcases ih m hr with hnil | ⟨hl, hcr⟩
      · subst hnil
        simp only [List.length_singleton, run_calls, List.map_nil, List.sum_nil]
        omega
      · simp only [List.length_cons]
        omega

theorem recycle_run_replicate (k : Nat) :
    recycle_run 0 (Var.obj 1) (List.replicate k sample_recycle_entry) := by
  induction k with
  | zero => exact trivial
  | succ k ih =>
    rw [List.replicate_succ]
    exact ⟨rfl, Or.inr ⟨rfl, ih⟩⟩

/-- C28: a nested-call request returned by do_move entered at step n, which
is one of 1 to 4, names a step greater than n and at most 4, with the same
data; step 4 returns no value, calls nothing and changes nothing.  Hence a
run of one move operation from step 1 has at most four entries and makes at
most three nested calls, and each entry returns when the location relation is
well formed and acyclic.  A nested-call request of recycle always names step
2, also when it is returned by step 2: there are runs of re-entries into step
2 of any length. -/
theorem move_operation_bounded (progr : Objid) (data : bf_move_data) :
    (∀ env db value n out, do_move env db value progr n data = .ok out →
        1 ≤ n ∧ n ≤ 4
          ∧ ∀ m d, out.pack = make_call_pack m d → d = data ∧ n < m ∧ m ≤ 4)
      ∧ (∀ env db value, do_move env db value progr 4 data
          = .ok { pack := no_var_pack, db := db, calls := [] })
      ∧ (∀ run, move_run progr data 1 run → run.length ≤ 4 ∧ run_calls run ≤ 3)
      ∧ (∀ env db value n, 1 ≤ n → n ≤ 4 → locations_wf db → location_acyclic db →
          ∃ out, do_move env db value progr n data = .ok out)
      ∧ (∀ env db value pc rdata (out : outcome Var),
          bf_recycle env db value progr pc rdata = .ok out →
          ∀ m d, out.pack = make_call_pack m d → m = 2)
      ∧ (∀ k : Nat, ∃ run : List (step_entry Var), run.length = k
          ∧ recycle_run 0 (Var.obj 1) run
          ∧ ∀ e ∈ run, e.out.pack = make_call_pack 2 (Var.obj 1)) := by
  refine ⟨?_, ?_, ?_, ?_, ?_, ?_⟩
  · intro env db value n out hout
    obtain ⟨h1, h4, _, hm⟩ := do_move_steps env db value progr n data out hout
    exact ⟨h1, h4, fun m d h => ⟨(hm m d h).1, (hm m d h).2.1, (hm m d h).2.2.1⟩⟩
  · intro env db value
    rfl
  · intro run hrun
    rcases move_run_bound progr data 1 run hrun with h | h
    · subst h
      exact ⟨by simp, by simp [run_calls]⟩
    · omega
  · intro env db value n h1 h4 hwf hac
    obtain ⟨out, hout, _⟩ := do_move_db env db value progr n data hwf hac ⟨h1, h4⟩
    exact ⟨out, hout⟩
  · intro env db value pc rdata out hout m d hp
    rcases bf_recycle_pack env db value progr pc rdata out hout with h | h | h | ⟨obj, h⟩ | h
      <;> rw [h] at hp <;> cases hp
    rfl
  · intro k
    refine ⟨List.replicate k sample_recycle_entry, List.length_replicate _ _,
      recycle_run_replicate k, fun e he => ?_⟩
    rw [List.eq_of_mem_replicate he]
    rfl

theorem move_operation_bounded_witness :
    move_run 0 { what := 2, where_ := 0 } 1 sample_move_run
      ∧ sample_move_run.length = 4 ∧ run_calls sample_move_run = 3
      ∧ (sample_move_run.length ≤ 4 ∧ run_calls sample_move_run ≤ 3) :=
  ⟨⟨rfl, Or.inr ⟨2, rfl, rfl, Or.inr ⟨3, rfl, rfl, Or.inr ⟨4, rfl, rfl, Or.inl rfl⟩⟩⟩⟩,
    rfl, rfl,
    (move_operation_bounded 0 { what := 2, where_ := 0 }).2.2.1 sample_move_run
      ⟨rfl, Or.inr ⟨2, rfl, rfl, Or.inr ⟨3, rfl, rfl, Or.inr ⟨4, rfl, rfl, Or.inl rfl⟩⟩⟩⟩⟩

end Stunt
